import Mathlib

set_option maxHeartbeats 1000000
set_option maxRecDepth 4000
set_option linter.unusedVariables false
set_option linter.unnecessarySeqFocus false

/-!
Shallow embedding of the workflow execution engine (the `Executor` class) of the
repository, together with proofs settling the frozen claims about it.

External collaborators (the tool registry, the LLM provider service, the prompt
builders, the block catalog, and the host-language dynamic expression evaluator
used by condition blocks) are modelled as function parameters gathered in a
`Collab` structure; theorems quantify over them.  JavaScript runtime values are
modelled by the `Js` type below; machine time (`new Date()`) is modelled by a
monotone counter in the execution context.
-/

namespace SimExec

mutual

/-- JavaScript-like runtime values: JSON values plus `undefined`. -/
inductive Js where
  | str (s : String)
  | num (n : Int)
  | bool (b : Bool)
  | null
  | undef
  | arr (items : JsArr)
  | obj (fields : JsObj)

/-- A JavaScript array of values. -/
inductive JsArr where
  | nil
  | cons (head : Js) (tail : JsArr)

/-- A JavaScript object: ordered key/value fields (insertion order). -/
inductive JsObj where
  | nil
  | cons (key : String) (val : Js) (tail : JsObj)

end

/-- Property read on an object: `undefined` when the key is absent. -/
def JsObj.get : JsObj → String → Js
  | .nil, _ => .undef
  | .cons k v t, key => if k = key then v else t.get key

/-- Property assignment: overwrite in place, else append (JS object semantics). -/
def JsObj.set : JsObj → String → Js → JsObj
  | .nil, key, v => .cons key v .nil
  | .cons k w t, key, v => if k = key then .cons k v t else .cons k w (t.set key v)

/-- Number of fields of an object. -/
def JsObj.length : JsObj → Nat
  | .nil => 0
  | .cons _ _ t => t.length + 1

/-- The fields of an object as a Lean list, in order. -/
def JsObj.toList : JsObj → List (String × Js)
  | .nil => []
  | .cons k v t => (k, v) :: t.toList

/-- Build an object from a list of fields (assumed distinct keys). -/
def JsObj.ofList : List (String × Js) → JsObj
  | [] => .nil
  | (k, v) :: t => .cons k v (JsObj.ofList t)

/-- The items of an array as a Lean list, in order. -/
def JsArr.toList : JsArr → List Js
  | .nil => []
  | .cons h t => h :: t.toList

/-- Build an array from a Lean list. -/
def JsArr.ofList : List Js → JsArr
  | [] => .nil
  | h :: t => .cons h (JsArr.ofList t)

/-- Length of an array. -/
def JsArr.length : JsArr → Nat
  | .nil => 0
  | .cons _ t => t.length + 1

/-- Index read on an array, `undefined` out of range. -/
def JsArr.getIdx : JsArr → Nat → Js
  | .nil, _ => .undef
  | .cons h _, 0 => h
  | .cons _ t, n + 1 => t.getIdx n

/-- JavaScript truthiness. -/
def Js.truthy : Js → Bool
  | .str s => !(s = "")
  | .num n => !(n = 0)
  | .bool b => b
  | .null => false
  | .undef => false
  | .arr _ => true
  | .obj _ => true

/-- Whether `typeof v === 'object'` holds in JavaScript (arrays and `null` included). -/
def Js.isObjType : Js → Bool
  | .null => true
  | .arr _ => true
  | .obj _ => true
  | _ => false

mutual

/-- JavaScript `String(v)` coercion. -/
def Js.jsToString : Js → String
  | .str s => s
  | .num n => toString n
  | .bool b => if b then "true" else "false"
  | .null => "null"
  | .undef => "undefined"
  | .arr xs => xs.joinStr
  | .obj _ => "[object Object]"

/-- `Array.prototype.toString`: comma-joined elements, null/undefined as empty. -/
def JsArr.joinStr : JsArr → String
  | .nil => ""
  | .cons h .nil =>
      (match h with
       | .null => ""
       | .undef => ""
       | x => x.jsToString)
  | .cons h t =>
      (match h with
       | .null => ""
       | .undef => ""
       | x => x.jsToString) ++ "," ++ t.joinStr

end

/-- Escape one character for a JSON string literal. -/
def jsonQuoteChar (c : Char) : String :=
  if c = '"' then "\\\""
  else if c = '\\' then "\\\\"
  else if c = '\n' then "\\n"
  else if c = '\t' then "\\t"
  else if c = '\r' then "\\r"
  else String.mk [c]

/-- JSON string literal rendering of a string. -/
def jsonQuote (s : String) : String :=
  "\"" ++ String.join (s.data.map jsonQuoteChar) ++ "\""

mutual

/-- `JSON.stringify(v)` (compact).  `none` models the `undefined` result. -/
def Js.jsonStr : Js → Option String
  | .str s => some (jsonQuote s)
  | .num n => some (toString n)
  | .bool b => some (if b then "true" else "false")
  | .null => some "null"
  | .undef => none
  | .arr xs => some ("[" ++ String.intercalate "," xs.jsonItemList ++ "]")
  | .obj fs => some ("\x7b" ++ String.intercalate "," fs.jsonFieldList ++ "\x7d")

/-- Rendered array items; `undefined` items render as `null`. -/
def JsArr.jsonItemList : JsArr → List String
  | .nil => []
  | .cons h t =>
      (match h.jsonStr with
       | some s => s
       | none => "null") :: t.jsonItemList

/-- Rendered object fields; fields whose value is `undefined` are dropped. -/
def JsObj.jsonFieldList : JsObj → List String
  | .nil => []
  | .cons k v t =>
      match v.jsonStr with
      | some s => (jsonQuote k ++ ":" ++ s) :: t.jsonFieldList
      | none => t.jsonFieldList

end

/-- `n` levels of two-space indentation. -/
def jsonIndent (n : Nat) : String := String.join (List.replicate n "  ")

mutual

/-- `JSON.stringify(v, null, 2)` (two-space pretty printing), at nesting level `lvl`. -/
def Js.jsonPretty : Nat → Js → Option String
  | _, .str s => some (jsonQuote s)
  | _, .num n => some (toString n)
  | _, .bool b => some (if b then "true" else "false")
  | _, .null => some "null"
  | _, .undef => none
  | lvl, .arr xs =>
      match xs.jsonPrettyItems (lvl + 1) with
      | [] => some "[]"
      | items =>
          some ("[\n" ++
            String.intercalate ",\n" (items.map (fun s => jsonIndent (lvl + 1) ++ s)) ++
            "\n" ++ jsonIndent lvl ++ "]")
  | lvl, .obj fs =>
      match fs.jsonPrettyFields (lvl + 1) with
      | [] => some "\x7b\x7d"
      | items =>
          some ("\x7b\n" ++
            String.intercalate ",\n" (items.map (fun s => jsonIndent (lvl + 1) ++ s)) ++
            "\n" ++ jsonIndent lvl ++ "\x7d")

/-- Pretty-rendered array items (undefined items render as `null`). -/
def JsArr.jsonPrettyItems : JsArr → Nat → List String
  | .nil, _ => []
  | .cons h t, lvl =>
      (match h.jsonPretty lvl with
       | some s => s
       | none => "null") :: t.jsonPrettyItems lvl

/-- Pretty-rendered object fields (undefined-valued fields dropped). -/
def JsObj.jsonPrettyFields : JsObj → Nat → List String
  | .nil, _ => []
  | .cons k v t, lvl =>
      match v.jsonPretty lvl with
      | some s => (jsonQuote k ++ ": " ++ s) :: t.jsonPrettyFields lvl
      | none => t.jsonPrettyFields lvl

end

/-! ## String utilities mirroring the JavaScript operations used by the executor -/

/-- Whether `pre` is a prefix of `l` (on characters). -/
def charPrefix : List Char → List Char → Bool
  | [], _ => true
  | _ :: _, [] => false
  | p :: ps, c :: cs => p = c && charPrefix ps cs

/-- `haystack.includes(needle)` on character lists. -/
def charContains : List Char → List Char → Bool
  | cs, pat =>
      if charPrefix pat cs then true
      else match cs with
        | [] => false
        | _ :: t => charContains t pat

/-- `String.prototype.includes`. -/
def strContains (haystack needle : String) : Bool :=
  charContains haystack.data needle.data

/-- Replace the first occurrence of `pat` in the character list, if any. -/
def charReplaceFirst : List Char → List Char → List Char → List Char
  | cs, pat, rep =>
      if charPrefix pat cs then rep ++ cs.drop pat.length
      else match cs with
        | [] => []
        | c :: t => c :: charReplaceFirst t pat rep

/-- `String.prototype.replace` with a plain (non-empty, `$`-free) string pattern:
first occurrence only, unchanged when absent. -/
def strReplaceFirst (s pat rep : String) : String :=
  String.mk (charReplaceFirst s.data pat.data rep.data)

/-- Character-wise `toLowerCase` (kernel-computable). -/
def strToLower (s : String) : String :=
  String.mk (s.data.map Char.toLower)

/-- `String.prototype.trim`: strip leading and trailing whitespace. -/
def strTrim (s : String) : String :=
  String.mk (((s.data.dropWhile Char.isWhitespace).reverse.dropWhile
    Char.isWhitespace).reverse)

/-- `s.startsWith(pre)`. -/
def strStartsWith (s pre : String) : Bool :=
  charPrefix pre.data s.data

/-- Split a character list on a separator character. -/
def splitOnCharAux (sep : Char) : List Char → List Char → List String
  | [], acc => [String.mk acc.reverse]
  | c :: cs, acc =>
      if c = sep then String.mk acc.reverse :: splitOnCharAux sep cs []
      else splitOnCharAux sep cs (c :: acc)

/-- `s.split(sep)` for a single-character separator. -/
def strSplitOnChar (sep : Char) (s : String) : List String :=
  splitOnCharAux sep s.data []

/-- `String.toNat?`, kernel-computable: all-digit non-empty strings only. -/
def strToNat? (s : String) : Option Nat :=
  if s.data.isEmpty then none
  else if s.data.all Char.isDigit then
    some (s.data.foldl (fun acc c => acc * 10 + (c.toNat - 48)) 0)
  else none

/-- `title.toLowerCase().replace(/\s+/g, '')`. -/
def normalizeTitle (t : String) : String :=
  String.mk ((strToLower t).data.filter (fun c => !c.isWhitespace))

/-- Fueled scan for the global regex `/<([^>]+)>/g`; every step consumes at
least one character, so the wrapper's fuel of `length + 1` is never exhausted. -/
def findAngleRefsF : Nat → List Char → List String
  | 0, _ => []
  | _ + 1, [] => []
  | fuel + 1, '<' :: rest =>
      (match rest.dropWhile (fun c => !(c = '>')) with
       | '>' :: tail =>
           let inner := rest.takeWhile (fun c => !(c = '>'))
           if inner.isEmpty then findAngleRefsF fuel rest
           else ("<" ++ String.mk inner ++ ">") :: findAngleRefsF fuel tail
       | _ => findAngleRefsF fuel rest)
  | fuel + 1, _ :: rest => findAngleRefsF fuel rest

/-- All matches of the global regex `/<([^>]+)>/g` in a string, in scan order,
each returned as the full matched text (brackets included). -/
def findAngleRefs (cs : List Char) : List String :=
  findAngleRefsF (cs.length + 1) cs

/-- Fueled scan for the global regex `/\{\{([^\x7d]+)\}\}/g`. -/
def findEnvRefsF : Nat → List Char → List String
  | 0, _ => []
  | _ + 1, [] => []
  | fuel + 1, '{' :: '{' :: rest =>
      (match rest.dropWhile (fun c => !(c = '}')) with
       | '}' :: '}' :: tail =>
           let inner := rest.takeWhile (fun c => !(c = '}'))
           if inner.isEmpty then findEnvRefsF fuel ('{' :: rest)
           else ("\x7b\x7b" ++ String.mk inner ++ "\x7d\x7d") :: findEnvRefsF fuel tail
       | _ => findEnvRefsF fuel ('{' :: rest))
  | fuel + 1, _ :: rest => findEnvRefsF fuel rest

/-- All matches of the global regex `/\{\{([^\x7d]+)\}\}/g`, in scan order,
each returned as the full matched text (braces included). -/
def findEnvRefs (cs : List Char) : List String :=
  findEnvRefsF (cs.length + 1) cs

/-! ## A JSON parser modelling `JSON.parse` (integers only; no `\u` escapes) -/

/-- Skip JSON whitespace. -/
def skipWs : List Char → List Char
  | c :: cs => if c = ' ' || c = '\n' || c = '\t' || c = '\r' then skipWs cs else c :: cs
  | [] => []

/-- Parse the body of a JSON string literal after the opening quote. -/
def pString : List Char → Option (String × List Char)
  | '"' :: cs => some ("", cs)
  | '\\' :: e :: cs =>
      (match e with
       | '"' => some '"'
       | '\\' => some '\\'
       | '/' => some '/'
       | 'n' => some '\n'
       | 't' => some '\t'
       | 'r' => some '\r'
       | 'b' => some (Char.ofNat 8)
       | 'f' => some (Char.ofNat 12)
       | _ => none).bind (fun c =>
        (pString cs).map (fun (s, rest) => (String.mk [c] ++ s, rest)))
  | c :: cs => (pString cs).map (fun (s, rest) => (String.mk [c] ++ s, rest))
  | [] => none

/-- Parse a run of decimal digits into a natural number. -/
def pDigits : List Char → Nat → Option (Nat × List Char)
  | c :: cs, acc =>
      if c.isDigit then
        match pDigits cs (acc * 10 + (c.toNat - 48)) with
        | some r => some r
        | none => some (acc * 10 + (c.toNat - 48), cs)
      else if acc = 0 then none else some (acc, c :: cs)
  | [], acc => if acc = 0 then none else some (acc, [])

mutual

/-- Fueled JSON value parser. -/
def pVal : Nat → List Char → Option (Js × List Char)
  | 0, _ => none
  | fuel + 1, cs =>
      match skipWs cs with
      | '"' :: rest => (pString rest).map (fun (s, r) => (Js.str s, r))
      | 't' :: 'r' :: 'u' :: 'e' :: rest => some (.bool true, rest)
      | 'f' :: 'a' :: 'l' :: 's' :: 'e' :: rest => some (.bool false, rest)
      | 'n' :: 'u' :: 'l' :: 'l' :: rest => some (.null, rest)
      | '[' :: rest =>
          (match skipWs rest with
           | ']' :: tail => some (.arr .nil, tail)
           | other => (pArrItems fuel other).map (fun (xs, r) => (Js.arr xs, r)))
      | '{' :: rest =>
          (match skipWs rest with
           | '}' :: tail => some (.obj .nil, tail)
           | other => (pObjFields fuel other).map (fun (fs, r) => (Js.obj fs, r)))
      | '-' :: rest =>
          (pDigits rest 0).bind (fun (n, r) =>
            match r with
            | '.' :: _ => none
            | 'e' :: _ => none
            | 'E' :: _ => none
            | _ => some (Js.num (-(Int.ofNat n)), r))
      | c :: rest =>
          if c.isDigit then
            (pDigits (c :: rest) 0).bind (fun (n, r) =>
              match r with
              | '.' :: _ => none
              | 'e' :: _ => none
              | 'E' :: _ => none
              | _ => some (Js.num (Int.ofNat n), r))
          else none
      | [] => none

/-- Fueled parser for the items of a non-empty JSON array. -/
def pArrItems : Nat → List Char → Option (JsArr × List Char)
  | 0, _ => none
  | fuel + 1, cs =>
      (pVal fuel cs).bind (fun (v, r) =>
        match skipWs r with
        | ',' :: rest => (pArrItems fuel rest).map (fun (xs, r2) => (JsArr.cons v xs, r2))
        | ']' :: rest => some (JsArr.cons v .nil, rest)
        | _ => none)

/-- Fueled parser for the fields of a non-empty JSON object. -/
def pObjFields : Nat → List Char → Option (JsObj × List Char)
  | 0, _ => none
  | fuel + 1, cs =>
      match skipWs cs with
      | '"' :: rest =>
          (pString rest).bind (fun (k, r) =>
            match skipWs r with
            | ':' :: rest2 =>
                (pVal fuel rest2).bind (fun (v, r2) =>
                  match skipWs r2 with
                  | ',' :: rest3 =>
                      (pObjFields fuel rest3).map (fun (fs, r3) => (JsObj.cons k v fs, r3))
                  | '}' :: rest3 => some (JsObj.cons k v .nil, rest3)
                  | _ => none)
            | _ => none)
      | _ => none

end

/-- `JSON.parse(s)`: `none` models a thrown `SyntaxError`. -/
def jsonParse (s : String) : Option Js :=
  match pVal (2 * s.length + 8) s.data with
  | some (v, rest) => if (skipWs rest).isEmpty then some v else none
  | none => none

/-! ## Serialized workflow data model (mirrors `serializer/types`) -/

/-- `block.metadata` with its optional fields (`metadata?.x` reads collapse the
two optional levels of the source type). -/
structure BlockMeta where
  type : Option String := none
  title : Option String := none
  description : Option String := none

/-- `block.config`: the tool name and the parameter record. -/
structure BlockCfg where
  tool : String
  params : JsObj := .nil

/-- A serialized block.  `enabled = false` models `enabled === false`; every
other JS value of that field behaves as enabled. -/
structure SerializedBlock where
  id : String
  metadata : BlockMeta := {}
  config : BlockCfg
  enabled : Bool := true

/-- A serialized connection; `condition` is the truthiness of the optional
`condition` marker field. -/
structure SerializedConnection where
  source : String
  target : String
  sourceHandle : Option String := none
  condition : Bool := false

/-- A declared loop: its member block ids. -/
structure SerializedLoop where
  nodes : List String

/-- A serialized workflow. `loops` keeps `Object.entries` order. -/
structure SerializedWorkflow where
  blocks : List SerializedBlock
  connections : List SerializedConnection
  loops : List (String × SerializedLoop) := []

/-! ## External collaborators (modelled as oracle functions) -/

/-- One parameter descriptor of a registered tool. -/
structure ToolParamCfg where
  type : String
  description : Option String := none
  required : Bool := false

/-- A registered tool's configuration (`getTool`). -/
structure ToolConfigS where
  id : String
  name : String
  description : String
  params : List (String × ToolParamCfg) := []

/-- An entry of the block catalog (`getAllBlocks`). -/
structure CatalogBlock where
  type : String
  toolsAccess : List String

/-- Token usage in a provider response; fields may be absent. -/
structure Tokens where
  prompt : Option Int := none
  completion : Option Int := none
  total : Option Int := none

/-- The provider response consumed by the executor. -/
structure ProviderResponse where
  content : String
  model : String
  tokens : Option Tokens := none
  toolCalls : Option (List Js) := none

/-- Descriptor of an outgoing target block handed to the prompt builders. -/
structure TargetInfo where
  id : String
  type : Option String
  title : Option String
  description : Option String
  subBlocks : JsObj
  currentState : Option Js

/-- The provider request assembled by the executor; absent fields are `undef`. -/
structure ProviderRequest where
  providerId : String
  model : Js := .undef
  systemPrompt : Js := .undef
  context : Js := .undef
  messages : Option (List (String × Js)) := none
  tools : Option (List Js) := none
  temperature : Js := .undef
  maxTokens : Js := .undef
  apiKey : Js := .undef
  responseFormat : Option Js := none

/-- The result record returned by `executeTool`. -/
structure ToolResult where
  success : Bool
  output : Js := .undef
  error : Option String := none

/-- The bundle of external collaborators: tool registry, provider service,
prompt builders, block catalog, and the host-language dynamic expression
evaluator used by condition blocks (`new Function('context', ...)`). -/
structure Collab where
  getProviderFromModel : Js → String
  executeProviderRequest : ProviderRequest → Except String ProviderResponse
  getTool : String → Option ToolConfigS
  executeTool : String → JsObj → Except String ToolResult
  getAllBlocks : List CatalogBlock
  generateRouterPrompt : Js → List TargetInfo → String
  generateEvaluatorPrompt : Js → Js → List TargetInfo → String
  evalExpr : String → Js → Except String Js

/-! ## Execution context and results -/

/-- One entry of `context.blockLogs`; timestamps are clock readings. -/
structure BlockLog where
  blockId : String
  blockTitle : String
  blockType : String
  startedAt : Nat
  endedAt : Nat
  durationMs : Nat
  success : Bool
  output : Option Js := none
  error : Option String := none

/-- The mutable execution context: block outputs, logs, and the machine clock
(each `new Date()` reads then advances it). -/
structure Ctx where
  blockStates : List (String × Js)
  blockLogs : List BlockLog
  clock : Nat

/-- Lookup in an association list (first match). -/
def getA {α : Type} : List (String × α) → String → Option α
  | [], _ => none
  | (k, v) :: t, key => if k = key then some v else getA t key

/-- `Map.set` semantics: overwrite in place, else append. -/
def setA {α : Type} : List (String × α) → String → α → List (String × α)
  | [], key, v => [(key, v)]
  | (k, w) :: t, key, v => if k = key then (k, v) :: t else (k, w) :: setA t key v

/-- Run metadata of a successful result. -/
structure ExecMeta where
  duration : Nat
  startTime : Nat
  endTime : Nat

/-- The terminal artifact of a run. -/
structure ExecutionResult where
  success : Bool
  output : Js
  error : Option String := none
  metadata : Option ExecMeta := none
  logs : List BlockLog

/-! ## The executor -/

namespace Executor

/-- Rendering of `${block.metadata?.title}` inside a template string. -/
def titleStr (b : SerializedBlock) : String := b.metadata.title.getD "undefined"

/-- JS truthy-or on strings (`x || d`): empty string falls back. -/
def orElseStr (o : Option String) (d : String) : String :=
  match o with
  | some s => if s = "" then d else s
  | none => d

/-- JS truthy-or on values (`a || b`). -/
def jsOr (a b : Js) : Js := if a.truthy then a else b

/-- Lookup in `new Map(blocks.map(b => [b.id, b]))`: later entries win. -/
def blockById (w : SerializedWorkflow) (ref : String) : Option SerializedBlock :=
  w.blocks.reverse.find? (fun b => b.id == ref)

/-- The key of a block in the by-normalized-title map
(`metadata?.title?.toLowerCase().replace(/\s+/g, '') || ''`). -/
def titleKey (b : SerializedBlock) : String :=
  (b.metadata.title.map normalizeTitle).getD ""

/-- Lookup in the by-normalized-title map: later entries win. -/
def blockByName (w : SerializedWorkflow) (normalized : String) : Option SerializedBlock :=
  w.blocks.reverse.find? (fun b => titleKey b == normalized)

/-- Substitute the listed `{{VAR}}` matches left to right; an unknown name raises. -/
def envSubst (env : List (String × String)) : String → List String → Except String String
  | s, [] => .ok s
  | s, m :: ms =>
      let envKey := (m.drop 2).dropRight 2
      match getA env envKey with
      | none => .error ("Environment variable \"" ++ envKey ++ "\" was not found.")
      | some v => envSubst env (strReplaceFirst s m v) ms

mutual

/-- `resolveEnvVars`: recursive environment-variable substitution. -/
def resolveEnvVarsJs (env : List (String × String)) : Js → Except String Js
  | .str s =>
      match findEnvRefs s.data with
      | [] => .ok (.str s)
      | ms =>
          match envSubst env s ms with
          | .error e => .error e
          | .ok s' => .ok (.str s')
  | .arr xs =>
      match resolveEnvVarsArr env xs with
      | .error e => .error e
      | .ok xs' => .ok (.arr xs')
  | .obj fs =>
      match resolveEnvVarsObj env fs with
      | .error e => .error e
      | .ok fs' => .ok (.obj fs')
  | v => .ok v

/-- `resolveEnvVars` mapped over an array. -/
def resolveEnvVarsArr (env : List (String × String)) : JsArr → Except String JsArr
  | .nil => .ok .nil
  | .cons h t =>
      match resolveEnvVarsJs env h with
      | .error e => .error e
      | .ok h' =>
          match resolveEnvVarsArr env t with
          | .error e => .error e
          | .ok t' => .ok (.cons h' t')

/-- `resolveEnvVars` mapped over an object's values (order preserved). -/
def resolveEnvVarsObj (env : List (String × String)) : JsObj → Except String JsObj
  | .nil => .ok .nil
  | .cons k v t =>
      match resolveEnvVarsJs env v with
      | .error e => .error e
      | .ok v' =>
          match resolveEnvVarsObj env t with
          | .error e => .error e
          | .ok t' => .ok (.cons k v' t')

end

/-- Property read while drilling into a stored output (`value[part]`). -/
def jsGetProp (v : Js) (part : String) : Js :=
  match v with
  | .obj fs => fs.get part
  | .arr xs =>
      if part = "length" then .num (Int.ofNat xs.length)
      else
        match strToNat? part with
        | some n => if toString n = part then xs.getIdx n else .undef
        | none => .undef
  | _ => (.undef)

/-- Walk the dotted path through a stored output; a falsy or non-object value
met before the path is exhausted raises. -/
def walkPath (blockTitle : String) (path : String) : Js → List String → Except String Js
  | v, [] => .ok v
  | v, part :: rest =>
      if !v.truthy || !v.isObjType then
        .error ("Invalid path \"" ++ part ++ "\" in \"" ++ path ++ "\" for block \"" ++
          blockTitle ++ "\".")
      else walkPath blockTitle path (jsGetProp v part) rest

/-- Resolve one `<ref.path>` match inside the string `cur` of parameter `key`. -/
def resolveBlockRef (w : SerializedWorkflow) (block : SerializedBlock) (ctx : Ctx)
    (key : String) (cur : String) (m : String) : Except String String :=
  let path := (m.drop 1).dropRight 1
  match strSplitOnChar '.' path with
  | [] => .ok cur
  | blockRef :: pathParts =>
      let src? :=
        match blockById w blockRef with
        | some b => some b
        | none => blockByName w (normalizeTitle blockRef)
      match src? with
      | none => .error ("Block reference \"" ++ blockRef ++ "\" was not found.")
      | some sourceBlock =>
          if sourceBlock.enabled = false then
            .error ("Block \"" ++ titleStr sourceBlock ++ "\" is disabled, and block \"" ++
              titleStr block ++ "\" depends on it.")
          else
            let noState : Except String String :=
              .error ("No state found for block \"" ++ titleStr sourceBlock ++ "\" (ID: " ++
                sourceBlock.id ++ ").")
            match getA ctx.blockStates sourceBlock.id with
            | none => noState
            | some sourceState =>
                if !sourceState.truthy then noState
                else
                  match walkPath (titleStr block) path sourceState pathParts with
                  | .error e => .error e
                  | .ok v =>
                      match v with
                      | .undef =>
                          .error ("No value found at path \"" ++ path ++ "\" in block \"" ++
                            titleStr sourceBlock ++ "\".")
                      | _ =>
                          if block.metadata.type == some "function" && key == "code" then
                            .ok (strReplaceFirst cur m
                              (if v.isObjType then (v.jsonPretty 0).getD "undefined"
                               else jsonQuote v.jsToString))
                          else if key == "context" then
                            .ok (match v with
                              | .str s => s
                              | _ => (v.jsonPretty 0).getD "undefined")
                          else
                            .ok (strReplaceFirst cur m
                              (if v.isObjType then (v.jsonStr).getD "undefined"
                               else v.jsToString))

/-- Resolve all `<...>` matches of a string parameter, left to right. -/
def resolveRefs (w : SerializedWorkflow) (block : SerializedBlock) (ctx : Ctx)
    (key : String) : String → List String → Except String String
  | cur, [] => .ok cur
  | cur, m :: ms =>
      match resolveBlockRef w block ctx key cur m with
      | .error e => .error e
      | .ok cur' => resolveRefs w block ctx key cur' ms

/-- Best-effort JSON parsing of a substituted string parameter. -/
def finalizeParam (s : String) : Js :=
  if strStartsWith s "\x7b" || strStartsWith s "[" then
    match jsonParse s with
    | some j => j
    | none => .str s
  else .str s

/-- The body of `resolveInputs`' reduce over `Object.entries(inputs)`. -/
def resolveParamsList (w : SerializedWorkflow) (env : List (String × String))
    (block : SerializedBlock) (ctx : Ctx) :
    List (String × Js) → Except String (List (String × Js))
  | [] => .ok []
  | (key, value) :: rest =>
      match value with
      | .str s =>
          match resolveRefs w block ctx key s (findAngleRefs s.data) with
          | .error e => .error e
          | .ok r1 =>
              match resolveEnvVarsJs env (.str r1) with
              | .error e => .error e
              | .ok rv =>
                  let out :=
                    match rv with
                    | .str s2 => finalizeParam s2
                    | other => other
                  match resolveParamsList w env block ctx rest with
                  | .error e => .error e
                  | .ok rest' => .ok ((key, out) :: rest')
      | _ =>
          match resolveEnvVarsJs env value with
          | .error e => .error e
          | .ok v' =>
              match resolveParamsList w env block ctx rest with
              | .error e => .error e
              | .ok rest' => .ok ((key, v') :: rest')

/-- `resolveInputs(block, context)`: template and environment substitution over
the block's parameters. -/
def resolveInputs (w : SerializedWorkflow) (env : List (String × String))
    (block : SerializedBlock) (ctx : Ctx) : Except String JsObj :=
  match resolveParamsList w env block ctx block.config.params.toList with
  | .error e => .error e
  | .ok l => .ok (JsObj.ofList l)

/-! ### Decision blocks (router / evaluator) -/

/-- The `selectedPath` record of a decision result. -/
structure SelectedPath where
  blockId : String
  blockType : String
  blockTitle : String

/-- The typed result of `executeRouterBlock` / `executeEvaluatorBlock`. -/
structure DecisionOut where
  content : Js
  model : String
  tokensPrompt : Int
  tokensCompletion : Int
  tokensTotal : Int
  selectedPath : SelectedPath

/-- `response.tokens || {prompt: 0, ...}` followed by per-field `|| 0`. -/
def tokensOf (r : ProviderResponse) : Int × Int × Int :=
  match r.tokens with
  | none => (0, 0, 0)
  | some t => (t.prompt.getD 0, t.completion.getD 0, t.total.getD 0)

/-- Build the target-block descriptors for a decision block's outgoing
connections; a missing target block raises. -/
def targetInfos (w : SerializedWorkflow) (ctx : Ctx) (blockId : String) :
    Except String (List TargetInfo) :=
  (w.connections.filter (fun c => c.source == blockId)).mapM (fun conn =>
    match w.blocks.find? (fun b => b.id == conn.target) with
    | none => .error ("Target block " ++ conn.target ++ " not found")
    | some tb =>
        .ok { id := tb.id, type := tb.metadata.type, title := tb.metadata.title,
              description := tb.metadata.description, subBlocks := tb.config.params,
              currentState := getA ctx.blockStates tb.id })

/-- `selectedPath` as a JS object. -/
def selectedPathJs (p : SelectedPath) : Js :=
  .obj (.cons "blockId" (.str p.blockId)
    (.cons "blockType" (.str p.blockType)
      (.cons "blockTitle" (.str p.blockTitle) .nil)))

/-- A decision result as the JS object stored into states and outputs. -/
def decisionResultJs (d : DecisionOut) : Js :=
  .obj (.cons "content" d.content
    (.cons "model" (.str d.model)
      (.cons "tokens"
        (.obj (.cons "prompt" (.num d.tokensPrompt)
          (.cons "completion" (.num d.tokensCompletion)
            (.cons "total" (.num d.tokensTotal) .nil))))
        (.cons "selectedPath" (selectedPathJs d.selectedPath) .nil))))

/-- `executeRouterBlock`: one provider request whose trimmed, lowercased
content must equal an immediate target id. -/
def executeRouterBlock (w : SerializedWorkflow) (collab : Collab)
    (env : List (String × String)) (block : SerializedBlock) (ctx : Ctx) :
    Except String DecisionOut :=
  match resolveInputs w env block ctx with
  | .error e => .error e
  | .ok resolvedInputs =>
      match targetInfos w ctx block.id with
      | .error e => .error e
      | .ok targetBlocks =>
          let prompt := resolvedInputs.get "prompt"
          let modelJ := resolvedInputs.get "model"
          let apiKey := resolvedInputs.get "apiKey"
          let temperature := jsOr (resolvedInputs.get "temperature") (.num 0)
          let model := jsOr modelJ (.str "gpt-4o")
          let providerId := collab.getProviderFromModel model
          match collab.executeProviderRequest
            { providerId := providerId, model := modelJ,
              systemPrompt := .str (collab.generateRouterPrompt prompt targetBlocks),
              messages := some [("user", prompt)],
              temperature := temperature, apiKey := apiKey } with
          | .error e => .error e
          | .ok response =>
              let chosenBlockId := strToLower (strTrim response.content)
              match targetBlocks.find? (fun b => b.id == chosenBlockId) with
              | none => .error ("Invalid routing decision: " ++ chosenBlockId)
              | some chosenBlock =>
                  let ts := tokensOf response
                  .ok { content := prompt, model := response.model,
                        tokensPrompt := ts.1, tokensCompletion := ts.2.1,
                        tokensTotal := ts.2.2,
                        selectedPath :=
                          { blockId := chosenBlock.id,
                            blockType := orElseStr chosenBlock.type "unknown",
                            blockTitle := orElseStr chosenBlock.title "Untitled Block" } }

/-- `executeEvaluatorBlock`: like the router, and additionally stores its own
structured result into `blockStates`. -/
def executeEvaluatorBlock (w : SerializedWorkflow) (collab : Collab)
    (env : List (String × String)) (block : SerializedBlock) (ctx : Ctx) :
    Except String (DecisionOut × Ctx) :=
  match resolveInputs w env block ctx with
  | .error e => .error e
  | .ok resolvedInputs =>
      match targetInfos w ctx block.id with
      | .error e => .error e
      | .ok targetBlocks =>
          let prompt := resolvedInputs.get "prompt"
          let content := resolvedInputs.get "content"
          let modelJ := resolvedInputs.get "model"
          let apiKey := resolvedInputs.get "apiKey"
          let temperature := jsOr (resolvedInputs.get "temperature") (.num 0)
          let model := jsOr modelJ (.str "gpt-4o")
          let providerId := collab.getProviderFromModel model
          match collab.executeProviderRequest
            { providerId := providerId, model := modelJ,
              systemPrompt := .str (collab.generateEvaluatorPrompt prompt content targetBlocks),
              messages := some [("user", prompt)],
              temperature := temperature, apiKey := apiKey } with
          | .error e => .error e
          | .ok response =>
              let chosenBlockId := strToLower (strTrim response.content)
              match targetBlocks.find? (fun b => b.id == chosenBlockId) with
              | none => .error ("Invalid evaluation decision: " ++ chosenBlockId)
              | some chosenBlock =>
                  let ts := tokensOf response
                  let result : DecisionOut :=
                    { content := prompt, model := response.model,
                      tokensPrompt := ts.1, tokensCompletion := ts.2.1,
                      tokensTotal := ts.2.2,
                      selectedPath :=
                        { blockId := chosenBlock.id,
                          blockType := orElseStr chosenBlock.type "unknown",
                          blockTitle := orElseStr chosenBlock.title "Untitled Block" } }
                  .ok (result,
                    { ctx with blockStates := (setA ctx.blockStates block.id
                        (.obj (.cons "response" (decisionResultJs result) .nil))) })

/-! ### Conditional blocks -/

/-- Strict equality of a JS value with a string (`v === "s"`). -/
def jsEqStr (v : Js) (s : String) : Bool :=
  match v with
  | .str t => t = s
  | _ => false

/-- Fields obtained by object-spreading a JS value inside an object literal
(only objects and arrays contribute; the evaluator's guard excludes the rest). -/
def spreadFields : Js → JsObj
  | .obj fs => fs
  | .arr xs => spreadIdx 0 xs
  | _ => .nil
where
  /-- Array spread into an object: indexed string keys. -/
  spreadIdx : Nat → JsArr → JsObj
    | _, .nil => .nil
    | i, .cons h t => .cons (toString i) h (spreadIdx (i + 1) t)

/-- The evaluation scope handed to the condition expression:
`{...(typeof sourceOutput === 'object' && sourceOutput !== null ? sourceOutput : {}),
agent1: sourceOutput}`; `spreadFields` already yields no fields for `null` and
primitives, matching the guard. -/
def condScope (sourceOutput : Js) : Js :=
  .obj ((spreadFields sourceOutput).set "agent1" sourceOutput)

/-- The typed result of `executeConditionalBlock`. -/
structure CondOut where
  content : String
  condition : Js
  selectedConditionId : Js
  sourceOutput : Js
  selectedPath : SelectedPath

/-- The loop over the parsed conditions: returns the final `conditionMet`
value and the selected (connection, condition) pair, if any. -/
def condLoop (w : SerializedWorkflow) (collab : Collab) (env : List (String × String))
    (block : SerializedBlock) (ctx : Ctx) (outgoing : List SerializedConnection)
    (sourceOutput : Js) :
    JsArr → Js → Except String (Js × Option (SerializedConnection × Js))
  | .nil, met => .ok (met, none)
  | .cons c rest, met =>
      let condBlock : SerializedBlock :=
        { id := block.id, metadata := block.metadata,
          config := { tool := block.config.tool,
                      params := .cons "condition" (jsGetProp c "value") .nil },
          enabled := block.enabled }
      match resolveInputs w env condBlock ctx with
      | .error e => .error ("Failed to evaluate condition: " ++ e)
      | .ok resolved =>
          let exprStr := (resolved.get "condition").jsToString
          match collab.evalExpr exprStr (condScope sourceOutput) with
          | .error e => .error ("Failed to evaluate condition: " ++ e)
          | .ok met' =>
              let title := jsGetProp c "title"
              let condId := jsGetProp c "id"
              match outgoing.find? (fun conn =>
                  conn.sourceHandle == some ("condition-" ++ condId.jsToString)) with
              | some conn =>
                  if (jsEqStr title "if" || jsEqStr title "else if") && met'.truthy then
                    .ok (met', some (conn, c))
                  else if jsEqStr title "else" then
                    .ok (met', some (conn, c))
                  else condLoop w collab env block ctx outgoing sourceOutput rest met'
              | none => condLoop w collab env block ctx outgoing sourceOutput rest met'

/-- `executeConditionalBlock`: parse the conditions parameter, evaluate the
branches in order against the single upstream source block's output, and
record the selected branch. -/
def executeConditionalBlock (w : SerializedWorkflow) (collab : Collab)
    (env : List (String × String)) (block : SerializedBlock) (ctx : Ctx) :
    Except String (CondOut × Ctx) :=
  let conds? : Except String JsArr :=
    match block.config.params.get "conditions" with
    | .str s =>
        match jsonParse s with
        | some (.arr items) => .ok items
        | some _ => .error "conditions is not iterable"
        | none => .error "Unexpected token in JSON at position 0"
    | _ => .error "Unexpected token in JSON at position 0"
  match conds? with
  | .error e => .error e
  | .ok conditions =>
      match (w.connections.find? (fun c => c.target == block.id)).map (·.source) with
      | none => .error ("No source block found for condition block " ++ block.id)
      | some sourceBlockId =>
          let srcState? := getA ctx.blockStates sourceBlockId
          match srcState? with
          | none => .error ("No output found for source block " ++ sourceBlockId)
          | some sourceOutput =>
              if !sourceOutput.truthy then
                .error ("No output found for source block " ++ sourceBlockId)
              else
                let outgoing := w.connections.filter (fun c => c.source == block.id)
                match condLoop w collab env block ctx outgoing sourceOutput conditions .undef with
                | .error e => .error e
                | .ok (met, selection) =>
                    match selection with
                    | none => .error ("No matching path found for condition block " ++ block.id)
                    | some (conn, cond) =>
                        match w.blocks.find? (fun b => b.id == conn.target) with
                        | none => .error ("Target block " ++ conn.target ++ " not found")
                        | some targetBlock =>
                            match getA ctx.blockStates sourceBlockId with
                            | none =>
                                .error ("No state found for source block " ++ sourceBlockId)
                            | some sourceBlockState =>
                                let title := jsGetProp cond "title"
                                let condId := jsGetProp cond "id"
                                let path : SelectedPath :=
                                  { blockId := targetBlock.id,
                                    blockType := targetBlock.metadata.type.getD "",
                                    blockTitle := targetBlock.metadata.title.getD "" }
                                let blockOutput : Js :=
                                  .obj (.cons "response"
                                    (.obj (.cons "result"
                                        (if met.truthy then sourceBlockState else .bool false)
                                      (.cons "content"
                                        (.str ("Condition '" ++ title.jsToString ++
                                          "' evaluated to " ++ met.jsToString))
                                      (.cons "condition"
                                        (.obj (.cons "result" met
                                          (.cons "selectedPath" (selectedPathJs path)
                                          (.cons "selectedConditionId" condId .nil))))
                                        .nil)))) .nil)
                                .ok
                                  ({ content := "Condition '" ++ title.jsToString ++ "' chosen",
                                     condition := met,
                                     selectedConditionId := condId,
                                     sourceOutput := sourceBlockState,
                                     selectedPath := path },
                                   { ctx with blockStates :=
                                       (setA ctx.blockStates block.id blockOutput) })

/-! ### Agent blocks and plain tool blocks -/

/-- An optional integer as a JS value (`undefined` when absent). -/
def optIntJs : Option Int → Js
  | none => .undef
  | some n => .num n

/-- `response.tokens || {prompt: 0, completion: 0, total: 0}` as a JS object
(without per-field defaulting). -/
def tokensJs : Option Tokens → Js
  | none =>
      .obj (.cons "prompt" (.num 0) (.cons "completion" (.num 0)
        (.cons "total" (.num 0) .nil)))
  | some t =>
      .obj (.cons "prompt" (optIntJs t.prompt) (.cons "completion" (optIntJs t.completion)
        (.cons "total" (optIntJs t.total) .nil)))

/-- Format one entry of `inputs.tools` for the provider request; `none` models
the `null` entries filtered out afterwards. -/
def formatToolEntry (collab : Collab) (tool : Js) : Option Js :=
  let ttype := jsGetProp tool "type"
  match collab.getAllBlocks.find? (fun b => jsEqStr ttype b.type) with
  | none => none
  | some blockFound =>
      match blockFound.toolsAccess.head? with
      | none => none
      | some toolId =>
          match collab.getTool toolId with
          | none => none
          | some toolConfig =>
              let toolParams :=
                match jsGetProp tool "params" with
                | .obj fs => fs
                | _ => .nil
              let properties := toolConfig.params.foldl (fun acc (key, cfg) =>
                let base : JsObj :=
                  .cons "type" (.str (if cfg.type = "json" then "object" else cfg.type))
                    (.cons "description" (.str (cfg.description.getD "")) .nil)
                let withDefault :=
                  match toolParams.get key with
                  | .undef => base
                  | v => base.set "default" v
                acc.set key (.obj withDefault)) JsObj.nil
              let required := (toolConfig.params.filter (fun p => p.2.required)).map
                (fun p => Js.str p.1)
              some (.obj (.cons "id" (.str toolConfig.id)
                (.cons "name" (.str toolConfig.name)
                (.cons "description" (.str toolConfig.description)
                (.cons "params" (.obj toolParams)
                (.cons "parameters"
                  (.obj (.cons "type" (.str "object")
                    (.cons "properties" (.obj properties)
                    (.cons "required" (.arr (JsArr.ofList required)) .nil))))
                  .nil))))))

/-- `executeBlock`'s agent branch: build a provider request and normalize the
response. -/
def executeAgentBlock (collab : Collab) (inputs : JsObj) : Except String Js :=
  let rfJ := inputs.get "responseFormat"
  let respFmt? : Except String (Option Js) :=
    if rfJ.truthy then
      match rfJ with
      | .str s =>
          match jsonParse s with
          | some j => .ok (some j)
          | none => .error "Invalid response format: Unexpected token in JSON at position 0"
      | v => .ok (some v)
    else .ok none
  match respFmt? with
  | .error e => .error e
  | .ok responseFormat =>
      let modelJ := jsOr (inputs.get "model") (.str "gpt-4o")
      let providerId := collab.getProviderFromModel modelJ
      let formattedTools :=
        match inputs.get "tools" with
        | .arr xs => xs.toList.filterMap (formatToolEntry collab)
        | _ => []
      let ctxField :=
        match inputs.get "context" with
        | .arr xs => Js.str (((Js.arr xs).jsonPretty 0).getD "")
        | v => v
      match collab.executeProviderRequest
        { providerId := providerId, model := modelJ,
          systemPrompt := inputs.get "systemPrompt",
          context := ctxField,
          tools := if formattedTools.length > 0 then some formattedTools else none,
          temperature := inputs.get "temperature",
          maxTokens := inputs.get "maxTokens",
          apiKey := inputs.get "apiKey",
          responseFormat := responseFormat } with
      | .error e => .error e
      | .ok response =>
          match responseFormat with
          | some rf =>
              if rf.truthy then
                match jsonParse response.content with
                | none => .error "Unexpected token in JSON at position 0"
                | some parsed =>
                    let toolCallsJs :=
                      match response.toolCalls with
                      | some tcs =>
                          Js.obj (.cons "list" (.arr (JsArr.ofList tcs))
                            (.cons "count" (.num (Int.ofNat tcs.length)) .nil))
                      | none => .undef
                    .ok (.obj (((spreadFields parsed).set "tokens"
                      (tokensJs response.tokens)).set "toolCalls" toolCallsJs))
              else
                .ok (standardEnvelope response)
          | none => .ok (standardEnvelope response)
where
  /-- The standard `{content, model, tokens, toolCalls}` envelope. -/
  standardEnvelope (response : ProviderResponse) : Js :=
    .obj (.cons "response"
      (.obj (.cons "content" (.str response.content)
        (.cons "model" (.str response.model)
        (.cons "tokens" (tokensJs response.tokens)
        (.cons "toolCalls"
          (.obj (.cons "list" (.arr (JsArr.ofList (response.toolCalls.getD [])))
            (.cons "count"
              (.num (Int.ofNat ((response.toolCalls.getD []).length))) .nil)))
          .nil))))) .nil)

/-- `executeBlock`'s default branch: look up and invoke a registered tool. -/
def executeToolBlock (collab : Collab) (block : SerializedBlock) (inputs : JsObj) :
    Except String Js :=
  match collab.getTool block.config.tool with
  | none => .error ("Tool not found: " ++ block.config.tool)
  | some _ =>
      match collab.executeTool block.config.tool inputs with
      | .error e => .error e
      | .ok result =>
          if !result.success then
            .error (orElseStr result.error
              ("Tool " ++ block.config.tool ++ " failed with no error message"))
          else .ok (.obj (.cons "response" result.output .nil))

/-- The body of `executeBlock`'s try: type dispatch producing the block output
(and any context mutation done by evaluator / condition blocks). -/
def executeBlockCore (w : SerializedWorkflow) (collab : Collab)
    (env : List (String × String)) (block : SerializedBlock) (inputs : JsObj)
    (ctx : Ctx) : Except String (Js × Ctx) :=
  if block.metadata.type == some "router" then
    match executeRouterBlock w collab env block ctx with
    | .error e => .error e
    | .ok d => .ok (.obj (.cons "response" (decisionResultJs d) .nil), ctx)
  else if block.metadata.type == some "evaluator" then
    match executeEvaluatorBlock w collab env block ctx with
    | .error e => .error e
    | .ok (d, ctx') => .ok (.obj (.cons "response" (decisionResultJs d) .nil), ctx')
  else if block.metadata.type == some "condition" then
    match executeConditionalBlock w collab env block ctx with
    | .error e => .error e
    | .ok (r, ctx') =>
        .ok (.obj (.cons "response"
          (.obj (.cons "result" r.sourceOutput
            (.cons "content" (.str r.content)
            (.cons "condition"
              (.obj (.cons "result" r.condition
                (.cons "selectedPath" (selectedPathJs r.selectedPath)
                (.cons "selectedConditionId" r.selectedConditionId .nil))))
              .nil)))) .nil), ctx')
  else if block.metadata.type == some "agent" then
    match executeAgentBlock collab inputs with
    | .error e => .error e
    | .ok out => .ok (out, ctx)
  else
    match executeToolBlock collab block inputs with
    | .error e => .error e
    | .ok out => .ok (out, ctx)

/-- `executeBlock`: refuse disabled blocks, run the type dispatch, always append
exactly one log entry for the attempt (except the disabled refusal, which
throws before the log is created), and store the output on success. -/
def executeBlock (w : SerializedWorkflow) (collab : Collab)
    (env : List (String × String)) (block : SerializedBlock) (inputs : JsObj)
    (ctx : Ctx) : Except (String × Ctx) (Js × Ctx) :=
  if block.enabled = false then
    .error ("Cannot execute disabled block: " ++ orElseStr block.metadata.title block.id, ctx)
  else
    let startTime := ctx.clock
    let ctx1 := { ctx with clock := ctx.clock + 1 }
    match executeBlockCore w collab env block inputs ctx1 with
    | .ok (output, ctx2) =>
        let endTime := ctx2.clock
        let log : BlockLog :=
          { blockId := block.id, blockTitle := block.metadata.title.getD "",
            blockType := block.metadata.type.getD "", startedAt := startTime,
            endedAt := endTime, durationMs := endTime - startTime,
            success := true, output := some output, error := none }
        .ok (output,
          { ctx2 with
            clock := (ctx2.clock + 1),
            blockLogs := (ctx2.blockLogs ++ [log]),
            blockStates := (setA ctx2.blockStates block.id output) })
    | .error msg =>
        let endTime := ctx1.clock
        let log : BlockLog :=
          { blockId := block.id, blockTitle := block.metadata.title.getD "",
            blockType := block.metadata.type.getD "", startedAt := startTime,
            endedAt := endTime, durationMs := endTime - startTime,
            success := false, output := none,
            error := some (if msg = "" then "Block execution failed" else msg) }
        .error (msg,
          { ctx1 with clock := ctx1.clock + 1, blockLogs := ctx1.blockLogs ++ [log] })

/-! ### The layered scheduler (`executeInParallel`) -/

/-- `conn.sourceHandle?.startsWith('condition-')`. -/
def handleIsCondition : Option String → Bool
  | some h => strStartsWith h "condition-"
  | none => false

/-- Whether a connection is counted toward its target's in-degree during
dependency-graph construction. -/
def countEdgeB (w : SerializedWorkflow) (conn : SerializedConnection) : Bool :=
  if conn.condition then false
  else
    match w.blocks.find? (fun b => b.id == conn.source) with
    | some sourceBlock =>
        if sourceBlock.metadata.type == some "evaluator" then
          match w.blocks.find? (fun b => b.id == conn.target) with
          | some targetBlock =>
              let paramsStr := ((Js.obj targetBlock.config.params).jsonStr).getD ""
              let evaluatorRef :=
                "<" ++ ((sourceBlock.metadata.title.map normalizeTitle).getD "undefined")
              let altEvaluatorRef := "<" ++ sourceBlock.id
              strContains paramsStr evaluatorRef || strContains paramsStr altEvaluatorRef
          | none => true
        else true
    | none => true

/-- The initial in-degree map: blocks in order, then counted edges added. -/
def initInDegree (w : SerializedWorkflow) : List (String × Int) :=
  let base := w.blocks.map (fun b => (b.id, (0 : Int)))
  w.connections.foldl (fun m conn =>
    if countEdgeB w conn then
      setA m conn.target (((getA m conn.target).getD 0) + 1)
    else m) base

/-- `resetLoopBlocksDegrees`: recompute the in-degree of every loop node from
loop-internal edges only. -/
def resetLoopDegrees (w : SerializedWorkflow) (loopId : String)
    (inDeg : List (String × Int)) : List (String × Int) :=
  match (w.loops.find? (fun p => p.1 == loopId)).map (·.2) with
  | none => inDeg
  | some loop =>
      loop.nodes.foldl (fun m blockId =>
        let degree := (w.connections.filter (fun conn =>
          conn.target == blockId && loop.nodes.contains conn.source)).length
        setA m blockId (Int.ofNat degree)) inDeg

/-- Fueled breadth-first search of `isInChosenPath` (the JS loop always
terminates; the fuel below is a strict upper bound on its iterations). -/
def bfsPath (w : SerializedWorkflow) (blockId : String) :
    Nat → List String → List String → Bool
  | 0, _, _ => false
  | _ + 1, [], _ => false
  | fuel + 1, currentId :: queue, visited =>
      if visited.contains currentId then bfsPath w blockId fuel queue visited
      else if currentId = blockId then true
      else
        let outs := w.connections.filter (fun c => c.source == currentId)
        let next := outs.filterMap (fun c =>
          match w.blocks.find? (fun b => b.id == c.source) with
          | some sb =>
              if sb.metadata.type == some "router" || sb.metadata.type == some "evaluator" then
                none
              else some c.target
          | none => some c.target)
        bfsPath w blockId fuel (queue ++ next) (currentId :: visited)

/-- `isInChosenPath(blockId, chosenBlockId, decisionBlockId)`. -/
def isInChosenPath (w : SerializedWorkflow) (blockId chosenBlockId decisionBlockId : String) :
    Bool :=
  if blockId = decisionBlockId then true
  else
    bfsPath w blockId
      ((w.connections.length + 2) * (w.connections.length + 2)) [chosenBlockId] []

/-- The mutable scheduler state of `executeInParallel`. -/
structure SchedSt where
  inDegree : List (String × Int)
  queue : List String
  routerDecisions : List (String × String)
  evaluatorDecisions : List (String × String)
  activeConditionalPaths : List (String × String)
  loopIterations : List (String × Nat)
  lastOutput : Js
  ctx : Ctx

/-- The executable-blocks filter applied to each layer. -/
def layerFilter (w : SerializedWorkflow) (st : SchedSt) (blockId : String) : Bool :=
  match w.blocks.find? (fun b => b.id == blockId) with
  | none => false
  | some block =>
      if block.enabled = false then false
      else
        (st.routerDecisions.all (fun p => isInChosenPath w blockId p.2 p.1)) &&
        (st.evaluatorDecisions.all (fun p => isInChosenPath w blockId p.2 p.1)) &&
        (st.activeConditionalPaths.all (fun p =>
          match w.connections.find? (fun conn =>
              conn.source == p.1 && conn.target == blockId &&
              handleIsCondition conn.sourceHandle) with
          | some conn =>
              strReplaceFirst ((conn.sourceHandle).getD "") "condition-" "" == p.2
          | none => true))

/-- Extraction of a routing / condition decision from a block output
(the outputs built by `executeBlock` always carry a string at these paths). -/
def extractDecisionStr (output : Js) (path : List String) : String :=
  match path.foldl jsGetProp output with
  | .str s => s
  | v => v.jsToString

/-- Sequential dispatch of one layer's executable blocks (the deterministic
serialization of the `Promise.all`): resolve inputs, execute, store the
output, record any decision; the first error aborts. -/
def execLayerSeq (w : SerializedWorkflow) (collab : Collab) (env : List (String × String)) :
    List String → SchedSt → Except (String × Ctx) SchedSt
  | [], st => .ok st
  | blockId :: rest, st =>
      match w.blocks.find? (fun b => b.id == blockId) with
      | none => .error ("Block " ++ blockId ++ " not found", st.ctx)
      | some block =>
          match resolveInputs w env block st.ctx with
          | .error e => .error (e, st.ctx)
          | .ok inputs =>
              match executeBlock w collab env block inputs st.ctx with
              | .error e => .error e
              | .ok (result, ctx') =>
                  let ctx'' :=
                    { ctx' with blockStates := (setA ctx'.blockStates block.id result) }
                  let st' := { st with ctx := ctx'', lastOutput := result }
                  let st'' :=
                    if block.metadata.type == some "router" then
                      { st' with routerDecisions := (setA st'.routerDecisions block.id
                          (extractDecisionStr result ["response", "selectedPath", "blockId"])) }
                    else if block.metadata.type == some "evaluator" then
                      { st' with evaluatorDecisions := (setA st'.evaluatorDecisions block.id
                          (extractDecisionStr result ["response", "selectedPath", "blockId"])) }
                    else if block.metadata.type == some "condition" then
                      { st' with activeConditionalPaths :=
                          (setA st'.activeConditionalPaths block.id
                            (extractDecisionStr result
                              ["response", "condition", "selectedConditionId"])) }
                    else st'
                  execLayerSeq w collab env rest st''

/-- Decrement a target's in-degree and enqueue it exactly on reaching zero. -/
def decTarget (target : String) (st : SchedSt) : SchedSt :=
  let newDegree := ((getA st.inDegree target).getD 0) - 1
  let inDeg' := setA st.inDegree target newDegree
  if newDegree = 0 then
    { st with inDegree := inDeg', queue := (st.queue ++ [target]) }
  else { st with inDegree := inDeg' }

/-- Process one outgoing connection of a finished block. -/
def processConn (w : SerializedWorkflow) (finishedBlockId : String) (st : SchedSt)
    (conn : SerializedConnection) : SchedSt :=
  let srcType :=
    match w.blocks.find? (fun b => b.id == conn.source) with
    | some sb => sb.metadata.type
    | none => none
  if srcType == some "evaluator" then
    if getA st.evaluatorDecisions conn.source == some conn.target then
      let isInLoop := (w.loops.map (·.2)).any (fun loop => loop.nodes.contains conn.target)
      if isInLoop then { st with queue := (st.queue ++ [conn.target]) }
      else decTarget conn.target st
    else st
  else if srcType == some "router" then
    if getA st.routerDecisions conn.source == some conn.target then
      decTarget conn.target st
    else st
  else if !(handleIsCondition conn.sourceHandle) then decTarget conn.target st
  else
    let conditionId := strReplaceFirst ((conn.sourceHandle).getD "") "condition-" ""
    if getA st.activeConditionalPaths finishedBlockId == some conditionId then
      decTarget conn.target st
    else st

/-- Walk the outgoing connections of every finished block of the layer. -/
def processOutgoing (w : SerializedWorkflow) (st : SchedSt) (layerResults : List String) :
    SchedSt :=
  layerResults.foldl (fun st finished =>
    (w.connections.filter (fun c => c.source == finished)).foldl
      (processConn w finished) st) st

/-- `MAX_ITERATIONS`: the safety limit for loops. -/
def MAX_ITERATIONS : Nat := 2

/-- Loop reconciliation: when an in-loop evaluator chose an in-loop target and
the loop's counter is below the bound, reset the loop's in-degrees, re-enqueue
zero-degree loop nodes, and bump the counter. -/
def loopReconcile (w : SerializedWorkflow) (st : SchedSt) (layerResults : List String) :
    SchedSt :=
  w.loops.foldl (fun st p =>
    let loopId := p.1
    let loop := p.2
    let executedLoopBlocks := layerResults.filter (fun b => loop.nodes.contains b)
    if executedLoopBlocks.isEmpty then st
    else
      let iterations := (getA st.loopIterations loopId).getD 0
      if iterations < MAX_ITERATIONS then
        match executedLoopBlocks.find? (fun blockId =>
            match w.blocks.find? (fun b => b.id == blockId) with
            | some b => b.metadata.type == some "evaluator"
            | none => false) with
        | some evaluatorInLoop =>
            match getA st.evaluatorDecisions evaluatorInLoop with
            | some chosenPath =>
                if chosenPath = "" then st
                else if loop.nodes.contains chosenPath then
                  let inDeg' := resetLoopDegrees w loopId st.inDegree
                  let newQueue := loop.nodes.foldl (fun q blockId =>
                    if getA inDeg' blockId == some 0 then q ++ [blockId] else q) st.queue
                  { st with
                    inDegree := inDeg', queue := newQueue,
                    loopIterations := (setA st.loopIterations loopId (iterations + 1)) }
                else st
            | none => st
        | none => st
      else st) st

/-- One iteration of the scheduler's `while (queue.length > 0)` loop. -/
def stepLayer (w : SerializedWorkflow) (collab : Collab) (env : List (String × String))
    (st : SchedSt) : Except (String × Ctx) SchedSt :=
  let currentLayer := st.queue
  let st0 := { st with queue := [] }
  let executableBlocks := currentLayer.filter (layerFilter w st0)
  match execLayerSeq w collab env executableBlocks st0 with
  | .error e => .error e
  | .ok st1 =>
      let st2 := processOutgoing w st1 executableBlocks
      .ok (loopReconcile w st2 executableBlocks)

/-- The fueled scheduler loop; `none` models non-termination within the fuel. -/
def runLoop (w : SerializedWorkflow) (collab : Collab) (env : List (String × String)) :
    Nat → SchedSt → Option (Except (String × Ctx) (Js × Ctx))
  | 0, st =>
      if st.queue.isEmpty then some (.ok (st.lastOutput, st.ctx)) else none
  | n + 1, st =>
      if st.queue.isEmpty then some (.ok (st.lastOutput, st.ctx))
      else
        match stepLayer w collab env st with
        | .error e => some (.error e)
        | .ok st' => runLoop w collab env n st'

/-- The initial scheduler state: loop counters at zero, counted in-degrees,
and the zero-degree blocks seeded into the queue. -/
def initState (w : SerializedWorkflow) (ctx : Ctx) : SchedSt :=
  let inDeg := initInDegree w
  { inDegree := inDeg,
    queue := inDeg.filterMap (fun p => if p.2 = 0 then some p.1 else none),
    routerDecisions := [], evaluatorDecisions := [], activeConditionalPaths := [],
    loopIterations := w.loops.map (fun p => (p.1, 0)),
    lastOutput := .obj (.cons "response" (.obj .nil) .nil),
    ctx := ctx }

/-- `executeInParallel`. -/
def executeInParallel (w : SerializedWorkflow) (collab : Collab)
    (env : List (String × String)) (fuel : Nat) (ctx : Ctx) :
    Option (Except (String × Ctx) (Js × Ctx)) :=
  runLoop w collab env fuel (initState w ctx)

/-- The fresh execution context built by `execute`: pre-populated block states,
empty logs, and the clock advanced past the initial `new Date()`. -/
def initialCtx (initialBlockStates : List (String × Js)) : Ctx :=
  { blockStates := initialBlockStates.foldl (fun m q => setA m q.1 q.2) [],
    blockLogs := [], clock := 1 }

/-- `execute`: the top-level entry point; never raises — every dispatch error
is converted into a failed `ExecutionResult` carrying the logs accumulated so
far.  `none` models non-termination within the fuel. -/
def execute (w : SerializedWorkflow) (collab : Collab)
    (initialBlockStates : List (String × Js)) (env : List (String × String))
    (fuel : Nat) : Option ExecutionResult :=
  let startTime := 0
  let ctx0 : Ctx := initialCtx initialBlockStates
  match executeInParallel w collab env fuel ctx0 with
  | none => none
  | some (.ok (lastOutput, ctx)) =>
      let endTime := ctx.clock
      some { success := true, output := lastOutput, error := none,
             metadata := some { duration := endTime - startTime, startTime := startTime,
                                endTime := endTime },
             logs := ctx.blockLogs }
  | some (.error (msg, ctx)) =>
      some { success := false, output := .obj (.cons "response" (.obj .nil) .nil),
             error := some (if msg = "" then "Workflow execution failed" else msg),
             metadata := none, logs := ctx.blockLogs }

end Executor

/-! ## Concrete fixtures used by the claim theorems -/

namespace Fixtures

/-- A tool configuration used by the concrete workflows. -/
def toolCfg : ToolConfigS := { id := "t", name := "T", description := "" }

/-- A collaborator bundle whose tool always succeeds and whose provider always
answers `"a"`. -/
def okCollab : Collab :=
  { getProviderFromModel := fun _ => "p",
    executeProviderRequest := fun _ => .ok { content := "a", model := "m" },
    getTool := fun _ => some toolCfg,
    executeTool := fun _ _ => .ok { success := true, output := .obj .nil },
    getAllBlocks := [],
    generateRouterPrompt := fun _ _ => "",
    generateEvaluatorPrompt := fun _ _ _ => "",
    evalExpr := fun _ _ => .ok .undef }

/-- C4 counterexample: a router block feeding a target that does not reference it. -/
def wRouterEdge : SerializedWorkflow :=
  { blocks := [
      { id := "r", metadata := { type := some "router" }, config := { tool := "t" } },
      { id := "t1", config := { tool := "t" } }],
    connections := [{ source := "r", target := "t1" }] }

/-- The single connection of `wRouterEdge`. -/
def routerConn : SerializedConnection := { source := "r", target := "t1" }

/-- C9 counterexample: a collaborator with an empty tool registry. -/
def noToolCollab : Collab := { okCollab with getTool := fun _ => none }

/-- C9 counterexample: a single plain tool block. -/
def wOneBlock : SerializedWorkflow :=
  { blocks := [{ id := "a", config := { tool := "t" } }], connections := [] }

/-- C7 counterexample: a disabled block. -/
def disabledBlock : SerializedBlock :=
  { id := "a", config := { tool := "t" }, enabled := false }

/-- C6: a router with two outgoing targets. -/
def wRouter : SerializedWorkflow :=
  { blocks := [
      { id := "r", metadata := { type := some "router" }, config := { tool := "t" } },
      { id := "t1", config := { tool := "t" } },
      { id := "t2", config := { tool := "t" } }],
    connections := [
      { source := "r", target := "t1" },
      { source := "r", target := "t2" }] }

/-- C6: a provider whose trimmed lowercased answer is a valid target id. -/
def routerGoodCollab : Collab :=
  { okCollab with executeProviderRequest := fun _ => .ok { content := "T1 ", model := "m" } }

/-- C6: a provider whose answer resolves to no target id. -/
def routerBadCollab : Collab :=
  { okCollab with executeProviderRequest := fun _ => .ok { content := "z", model := "m" } }

/-- C8: the two-block chain of the round-trip example — B's parameter is the
literal string `<A.response.value>`. -/
def wRT : SerializedWorkflow :=
  { blocks := [
      { id := "a", config := { tool := "t" } },
      { id := "b",
        config := { tool := "t",
                    params := .cons "param" (.str "<a.response.value>") .nil } }],
    connections := [{ source := "a", target := "b" }] }

/-- C8: the dependent block of the round-trip example. -/
def rtBlockB : SerializedBlock :=
  { id := "b",
    config := { tool := "t", params := .cons "param" (.str "<a.response.value>") .nil } }

/-- C8: a context where A's output is `{response:{value:"hi"}}`. -/
def rtCtx : Ctx :=
  { blockStates :=
      [("a", .obj (.cons "response" (.obj (.cons "value" (.str "hi") .nil)) .nil))],
    blockLogs := [], clock := 0 }

/-- C5: the claim's concrete conditions
`[{id:'a',title:'if',value:'x > 0'},{id:'b',title:'else',value:''}]`. -/
def condsJs : Js := .arr (.cons
  (.obj (.cons "id" (.str "a")
    (.cons "title" (.str "if") (.cons "value" (.str "x > 0") .nil))))
  (.cons (.obj (.cons "id" (.str "b")
    (.cons "title" (.str "else") (.cons "value" (.str "") .nil)))) .nil))

/-- C5: the serialized conditions parameter. -/
def condsStr : String := (condsJs.jsonStr).getD ""

/-- C5: a host expression evaluator behaving as JavaScript does on the
expressions in play (`x > 0` compares the scope's `x`; the empty expression
yields `undefined`; `(` is a syntax error). -/
def condCollab : Collab :=
  { okCollab with
    evalExpr := fun e scope =>
      if e = "x > 0" then
        match Executor.jsGetProp scope "x" with
        | .num n => .ok (.bool (0 < n))
        | _ => .ok (.bool false)
      else if e = "(" then .error "Unexpected end of input"
      else .ok .undef }

/-- C5: the condition block holding the concrete conditions. -/
def condBlock : SerializedBlock :=
  { id := "c", metadata := { type := some "condition" },
    config := { tool := "t", params := .cons "conditions" (.str condsStr) .nil } }

/-- C5: source → condition → two targets, each branch wired. -/
def wCond : SerializedWorkflow :=
  { blocks := [
      { id := "s", config := { tool := "t" } },
      condBlock,
      { id := "ta", config := { tool := "t" } },
      { id := "tb", config := { tool := "t" } }],
    connections := [
      { source := "s", target := "c" },
      { source := "c", target := "ta", sourceHandle := some "condition-a" },
      { source := "c", target := "tb", sourceHandle := some "condition-b" }] }

/-- C5: upstream output `{x: -1}`. -/
def condCtxNeg : Ctx :=
  { blockStates := [("s", .obj (.cons "x" (.num (-1)) .nil))], blockLogs := [], clock := 0 }

/-- C5 counterexample: the same conditions, but the `condition-a` branch is not
wired; upstream output `{x: 1}` makes the first `if` truthy. -/
def wCondNoA : SerializedWorkflow :=
  { blocks := [
      { id := "s", config := { tool := "t" } },
      condBlock,
      { id := "tb", config := { tool := "t" } }],
    connections := [
      { source := "s", target := "c" },
      { source := "c", target := "tb", sourceHandle := some "condition-b" }] }

/-- C5 counterexample: upstream output `{x: 1}`. -/
def condCtxPos : Ctx :=
  { blockStates := [("s", .obj (.cons "x" (.num 1) .nil))], blockLogs := [], clock := 0 }

/-- C5 counterexample: a single `else` condition whose value is the invalid
expression `(`. -/
def condsBadElseJs : Js := .arr (.cons
  (.obj (.cons "id" (.str "b")
    (.cons "title" (.str "else") (.cons "value" (.str "(") .nil)))) .nil)

/-- C5 counterexample: the condition block holding the invalid `else`. -/
def condBadElseBlock : SerializedBlock :=
  { id := "c", metadata := { type := some "condition" },
    config := { tool := "t",
                params := .cons "conditions" (.str ((condsBadElseJs.jsonStr).getD "")) .nil } }

/-- C5 counterexample: source → condition → else target. -/
def wCondBadElse : SerializedWorkflow :=
  { blocks := [
      { id := "s", config := { tool := "t" } },
      condBadElseBlock,
      { id := "tb", config := { tool := "t" } }],
    connections := [
      { source := "s", target := "c" },
      { source := "c", target := "tb", sourceHandle := some "condition-b" }] }

/-- C5 witness: a single non-matching `if` with its branch wired. -/
def condsOnlyIfJs : Js := .arr (.cons
  (.obj (.cons "id" (.str "a")
    (.cons "title" (.str "if") (.cons "value" (.str "x > 0") .nil)))) .nil)

/-- C5 witness: the condition block holding only the `if`. -/
def condOnlyIfBlock : SerializedBlock :=
  { id := "c", metadata := { type := some "condition" },
    config := { tool := "t",
                params := .cons "conditions" (.str ((condsOnlyIfJs.jsonStr).getD "")) .nil } }

/-- C5 witness: source → condition → if target. -/
def wCondOnlyIf : SerializedWorkflow :=
  { blocks := [
      { id := "s", config := { tool := "t" } },
      condOnlyIfBlock,
      { id := "ta", config := { tool := "t" } }],
    connections := [
      { source := "s", target := "c" },
      { source := "c", target := "ta", sourceHandle := some "condition-a" }] }

/-- C3: a declared two-node loop (tool block `a`, evaluator `e`) with exit
target `x` whose parameters reference the evaluator. -/
def wLoop : SerializedWorkflow :=
  { blocks := [
      { id := "a", config := { tool := "t" } },
      { id := "e", metadata := { type := some "evaluator" }, config := { tool := "t" } },
      { id := "x",
        config := { tool := "t",
                    params := .cons "p" (.str "<e.response.content>") .nil } }],
    connections := [
      { source := "a", target := "e" },
      { source := "e", target := "a" },
      { source := "e", target := "x" }],
    loops := [("l1", { nodes := ["a", "e"] })] }

/-- C3: a provider whose evaluator always selects the in-loop target `a`. -/
def loopCollab : Collab :=
  { okCollab with executeProviderRequest := fun _ => .ok { content := "a", model := "m" } }

/-- C10: an evaluator with a self-edge inside a declared loop. -/
def wSelf : SerializedWorkflow :=
  { blocks := [
      { id := "e", metadata := { type := some "evaluator" }, config := { tool := "t" } }],
    connections := [{ source := "e", target := "e" }],
    loops := [("l1", { nodes := ["e"] })] }

/-- C10: a provider that always answers `e` (the evaluator's own id). -/
def selfCollab : Collab :=
  { okCollab with executeProviderRequest := fun _ => .ok { content := "e", model := "m" } }

/-- C10: the decision record computed by the self-loop evaluator. -/
def dSelf : Executor.DecisionOut :=
  { content := .undef, model := "m", tokensPrompt := 0, tokensCompletion := 0,
    tokensTotal := 0,
    selectedPath := { blockId := "e", blockType := "evaluator",
                      blockTitle := "Untitled Block" } }

/-- C10: the output produced and stored by the self-loop evaluator. -/
def oSelf : Js := .obj (.cons "response" (Executor.decisionResultJs dSelf) .nil)

/-- C10: the log entry appended by a dispatch of the self-loop evaluator whose
start reads clock `c`. -/
def elogSelf (c : Nat) : BlockLog :=
  { blockId := "e", blockTitle := "", blockType := "evaluator", startedAt := c,
    endedAt := c + 1, durationMs := c + 1 - c, success := true,
    output := some oSelf, error := none }

/-- C10: the stable scheduler-state family the self-loop run reaches after two
steps; only the logs and the clock keep changing from then on. -/
def sSelf (lgs : List BlockLog) (c : Nat) : Executor.SchedSt :=
  { inDegree := [("e", 1)], queue := ["e"], routerDecisions := [],
    evaluatorDecisions := [("e", "e")], activeConditionalPaths := [],
    loopIterations := [("l1", 2)], lastOutput := oSelf,
    ctx := { blockStates := [("e", oSelf)], blockLogs := lgs, clock := c } }

/-- C2 counterexample: a disabled block feeding an enabled one. -/
def wDis : SerializedWorkflow :=
  { blocks := [
      { id := "a", enabled := false, config := { tool := "t" } },
      { id := "b", config := { tool := "t" } }],
    connections := [{ source := "a", target := "b" }] }

/-- C2 witness: a plain enabled two-block chain. -/
def wChain : SerializedWorkflow :=
  { blocks := [
      { id := "a", config := { tool := "t" } },
      { id := "b", config := { tool := "t" } }],
    connections := [{ source := "a", target := "b" }] }

end Fixtures

/-! ## Vocabulary for the acyclic-scheduling claim (C2) -/

namespace Kahn

/-- The number of declared connections into `id`. -/
def indegTL (conns : List SerializedConnection) (id : String) : Nat :=
  (conns.filter (fun c => c.target == id)).length

/-- The number of declared connections into `id` whose source lies in `C`. -/
def indegFromL (conns : List SerializedConnection) (C : List String) (id : String) :
    Nat :=
  (conns.filter (fun c => c.target == id && C.contains c.source)).length

/-- The dependency sources of `id`: the sources of the connections into it. -/
def predsL (conns : List SerializedConnection) (id : String) : List String :=
  (conns.filter (fun c => c.target == id)).map (·.source)

/-- The workflow-hygiene hypotheses of the corrected claim C2: no declared
loops, no decision blocks, every block enabled, duplicate-free block ids,
declared connection endpoints, and no condition markers on connections. -/
def Plain (w : SerializedWorkflow) : Prop :=
  w.loops = [] ∧
  (∀ b ∈ w.blocks, b.metadata.type ≠ some "router" ∧
    b.metadata.type ≠ some "evaluator" ∧ b.metadata.type ≠ some "condition") ∧
  (∀ b ∈ w.blocks, b.enabled = true) ∧
  (w.blocks.map (·.id)).Nodup ∧
  (∀ c ∈ w.connections, c.source ∈ w.blocks.map (·.id) ∧
    c.target ∈ w.blocks.map (·.id)) ∧
  (∀ c ∈ w.connections, c.condition = false ∧
    Executor.handleIsCondition c.sourceHandle = false)

/-- The scheduler invariant for plain workflows. `D` — the block ids logged so
far, in order — is duplicate-free; the queue holds exactly the undispatched
blocks all of whose dependencies are dispatched; the stored in-degrees count
the declared in-edges not yet satisfied by a dispatched source; and the log
respects the connection order. -/
structure Inv (w : SerializedWorkflow) (st : Executor.SchedSt) : Prop where
  nodupD : (st.ctx.blockLogs.map (·.blockId)).Nodup
  dSub : ∀ d ∈ st.ctx.blockLogs.map (·.blockId), d ∈ w.blocks.map (·.id)
  nodupQ : st.queue.Nodup
  qSub : ∀ q ∈ st.queue, q ∈ w.blocks.map (·.id)
  qFresh : ∀ q ∈ st.queue, q ∉ st.ctx.blockLogs.map (·.blockId)
  rdNil : st.routerDecisions = []
  edNil : st.evaluatorDecisions = []
  acNil : st.activeConditionalPaths = []
  deg : ∀ id ∈ w.blocks.map (·.id), getA st.inDegree id =
    some ((indegTL w.connections id : Int) -
      (indegFromL w.connections (st.ctx.blockLogs.map (·.blockId)) id : Int))
  qReady : ∀ q ∈ st.queue, ∀ p ∈ predsL w.connections q,
    p ∈ st.ctx.blockLogs.map (·.blockId)
  complete : ∀ id ∈ w.blocks.map (·.id), id ∉ st.ctx.blockLogs.map (·.blockId) →
    (∀ p ∈ predsL w.connections id, p ∈ st.ctx.blockLogs.map (·.blockId)) →
    id ∈ st.queue
  ordered : ∀ c ∈ w.connections, c.target ∈ st.ctx.blockLogs.map (·.blockId) →
    ∃ l1 l2, st.ctx.blockLogs.map (·.blockId) = l1 ++ c.target :: l2 ∧ c.source ∈ l1
  logOk : ∀ l ∈ st.ctx.blockLogs, l.success = true

end Kahn

/-! ## Helper lemmas about `targetInfos` -/

theorem mapM_except_mem {α β : Type} (f : α → Except String β) :
    ∀ (l : List α) (out : List β), l.mapM f = .ok out →
      ∀ b ∈ out, ∃ a ∈ l, f a = .ok b := by
  intro l
  induction l with
  | nil =>
      intro out h b hb
      simp only [List.mapM_nil] at h
      cases h
      simp at hb
  | cons a t ih =>
      intro out h b hb
      simp only [List.mapM_cons] at h
      cases hfa : f a with
      | error e =>
          rw [hfa] at h
          simp [Bind.bind, Except.bind] at h
      | ok fa =>
          rw [hfa] at h
          cases hft : t.mapM f with
          | error e =>
              rw [hft] at h
              simp [Bind.bind, Except.bind, Pure.pure, Except.pure] at h
          | ok ft =>
              rw [hft] at h
              simp only [Bind.bind, Except.bind, Pure.pure, Except.pure] at h
              cases h
              simp only [List.mem_cons] at hb
              rcases hb with hb | hb
              · exact ⟨a, List.mem_cons_self a t, hb ▸ hfa⟩
              · obtain ⟨a', ha', hfa'⟩ := ih ft hft b hb
                exact ⟨a', List.mem_cons_of_mem a ha', hfa'⟩

theorem targetInfos_mem (w : SerializedWorkflow) (ctx : Ctx) (bid : String)
    (ts : List TargetInfo) (h : Executor.targetInfos w ctx bid = .ok ts) :
    ∀ ti ∈ ts, ∃ conn ∈ w.connections, conn.source = bid ∧ ti.id = conn.target := by
  intro ti hti
  unfold Executor.targetInfos at h
  obtain ⟨conn, hconn, hf⟩ := mapM_except_mem _ _ _ h ti hti
  have hmem : conn ∈ w.connections := List.mem_of_mem_filter hconn
  have hsrc : conn.source = bid := by
    have := List.of_mem_filter hconn
    simpa using this
  cases htb : w.blocks.find? (fun b => b.id == conn.target) with
  | none => rw [htb] at hf; cases hf
  | some tb =>
      rw [htb] at hf
      have htbid : tb.id = conn.target := by
        have := List.find?_some htb
        simpa using this
      cases hf
      exact ⟨conn, hmem, hsrc, htbid⟩

/-! ## Shared lemmas about the association-list maps -/

theorem getA_setA_self {α : Type} (m : List (String × α)) (k : String) (v : α) :
    getA (setA m k v) k = some v := by
  induction m with
  | nil => simp [setA, getA]
  | cons p t ih =>
      by_cases h : p.1 = k
      · simp [setA, getA, h]
      · simp [setA, getA, h, ih]

theorem getA_setA_ne {α : Type} (m : List (String × α)) (k k' : String) (v : α)
    (h : k ≠ k') : getA (setA m k v) k' = getA m k' := by
  induction m with
  | nil => simp [setA, getA, h]
  | cons p t ih =>
      by_cases hp : p.1 = k
      · subst hp
        simp only [setA, if_pos rfl]
        by_cases hp' : p.1 = k'
        · exact absurd hp' h
        · simp [getA, hp']
      · simp only [setA, if_neg hp]
        by_cases hp' : p.1 = k'
        · simp [getA, hp']
        · simp [getA, hp', ih]

theorem getA_map_zero (bs : List SerializedBlock) (id : String)
    (h : id ∈ bs.map (·.id)) :
    getA (bs.map (fun b => (b.id, (0 : Int)))) id = some 0 := by
  induction bs with
  | nil => simp at h
  | cons b t ih =>
      by_cases hb : b.id = id
      · simp [getA, hb]
      · simp only [List.map_cons, List.mem_cons] at h
        rcases h with h | h
        · exact absurd h.symm hb
        · simp [getA, hb, ih h]

/-! ## C4: the dependency-counting predicate -/

/-- The accumulated in-degree fold adds exactly the counted edges per target. -/
theorem initInDegree_fold (w : SerializedWorkflow) :
    ∀ (conns : List SerializedConnection) (m : List (String × Int)) (id : String) (d : Int),
      getA m id = some d →
      getA (conns.foldl (fun m conn =>
          if Executor.countEdgeB w conn then
            setA m conn.target (((getA m conn.target).getD 0) + 1)
          else m) m) id =
        some (d + Int.ofNat ((conns.filter
          (fun c => c.target == id && Executor.countEdgeB w c)).length)) := by
  intro conns
  induction conns with
  | nil => intro m id d h; simpa using h
  | cons c rest ih =>
      intro m id d h
      by_cases hc : Executor.countEdgeB w c
      · by_cases ht : c.target = id
        · have hget : getA m c.target = some d := ht ▸ h
          have hstep : getA (setA m c.target (((getA m c.target).getD 0) + 1)) id =
              some (d + 1) := by
            rw [ht] at hget ⊢
            rw [hget]
            simpa using getA_setA_self m id (d + 1)
          have := ih _ id (d + 1) hstep
          simp only [List.foldl_cons, hc, if_true]
          rw [this]
          simp only [List.filter_cons, ht, hc]
          simp
          omega
        · have hstep : getA (setA m c.target (((getA m c.target).getD 0) + 1)) id =
              some d := by
            rw [getA_setA_ne m c.target id _ ht]
            exact h
          have := ih _ id d hstep
          simp only [List.foldl_cons, hc, if_true]
          rw [this]
          simp only [List.filter_cons]
          have : (c.target == id) = false := by
            simp [ht]
          simp [this, hc]
      · have hcf : Executor.countEdgeB w c = false := by simpa using hc
        simp only [List.foldl_cons, hcf, Bool.false_eq_true, if_false]
        rw [ih m id d h]
        simp [List.filter_cons, hcf]

/-- C4 (amended): a connection is counted toward its target's in-degree iff it
carries no `condition` marker and it is not the case that its source block's
type is `evaluator` (routers are NOT special-cased) while the target block's
serialized parameters lack a textual reference to the source (`<` + source id
or `<` + normalized source title); moreover, for every declared block the
initial in-degree equals the number of counted connections targeting it. -/
theorem C4_theorem (w : SerializedWorkflow) (conn : SerializedConnection) :
    (Executor.countEdgeB w conn = true ↔
      (conn.condition = false ∧
        ∀ sb, w.blocks.find? (fun b => b.id == conn.source) = some sb →
          sb.metadata.type = some "evaluator" →
          ∀ tb, w.blocks.find? (fun b => b.id == conn.target) = some tb →
            (strContains (((Js.obj tb.config.params).jsonStr).getD "")
               ("<" ++ ((sb.metadata.title.map normalizeTitle).getD "undefined")) = true ∨
             strContains (((Js.obj tb.config.params).jsonStr).getD "")
               ("<" ++ sb.id) = true))) ∧
    ∀ id, id ∈ w.blocks.map (·.id) →
      getA (Executor.initInDegree w) id =
        some (Int.ofNat ((w.connections.filter
          (fun c => c.target == id && Executor.countEdgeB w c)).length)) := by
  constructor
  · unfold Executor.countEdgeB
    cases hcond : conn.condition with
    | true => simp
    | false =>
        simp only [Bool.false_eq_true, if_false]
        cases hsb : w.blocks.find? (fun b => b.id == conn.source) with
        | none => simp
        | some sb =>
            by_cases htype : sb.metadata.type = some "evaluator"
            · have htypeb : (sb.metadata.type == some "evaluator") = true := by
                simp [htype]
              dsimp only
              rw [htypeb]
              simp only [if_true]
              cases htb : w.blocks.find? (fun b => b.id == conn.target) with
              | none => simp
              | some tb =>
                  constructor
                  · intro hor
                    refine ⟨by trivial, ?_⟩
                    intro sb' hsb' _ tb' htb'
                    cases hsb'
                    cases htb'
                    exact Bool.or_eq_true_iff.mp hor
                  · rintro ⟨-, hall⟩
                    rcases hall sb rfl htype tb rfl with h | h
                    · exact Bool.or_eq_true_iff.mpr (Or.inl h)
                    · exact Bool.or_eq_true_iff.mpr (Or.inr h)
            · have htypeb : (sb.metadata.type == some "evaluator") = false := by
                simp [htype]
              dsimp only
              rw [htypeb]
              simp only [Bool.false_eq_true, if_false]
              constructor
              · intro _
                refine ⟨by trivial, ?_⟩
                intro sb' hsb' htype' tb htb'
                cases hsb'
                exact absurd htype' htype
              · intro _; trivial
  · intro id hid
    unfold Executor.initInDegree
    have := initInDegree_fold w w.connections
      (w.blocks.map (fun b => (b.id, (0 : Int)))) id 0 (getA_map_zero w.blocks id hid)
    rw [this]
    simp

/-- C4 counterexample: the claim counts router sources as special-cased, but the
code counts a router's outgoing edge toward the target's in-degree even when the
target's parameters do not reference the router. -/
theorem C4_counterexample :
    Executor.countEdgeB Fixtures.wRouterEdge Fixtures.routerConn = true ∧
    getA (Executor.initInDegree Fixtures.wRouterEdge) "t1" = some 1 ∧
    (Fixtures.wRouterEdge.blocks.find?
      (fun b => b.id == Fixtures.routerConn.source)).map (fun b => b.metadata.type) =
      some (some "router") ∧
    Fixtures.routerConn.condition = false ∧
    strContains
      (((Js.obj (((Fixtures.wRouterEdge.blocks.find?
        (fun b => b.id == Fixtures.routerConn.target)).map
          (fun b => b.config.params)).getD .nil)).jsonStr).getD "") "<r" = false :=
  ⟨rfl, rfl, rfl, rfl, rfl⟩

/-- C9 (amended): every `ExecutionResult` carries the success flag, final
output, optional error message and the full ordered logs taken from the run's
context; run metadata (duration, start, end) is present exactly when the run
succeeded — the failure branch omits it. -/
theorem C9_theorem (w : SerializedWorkflow) (collab : Collab)
    (init : List (String × Js)) (env : List (String × String)) (fuel : Nat)
    (r : ExecutionResult) (h : Executor.execute w collab init env fuel = some r) :
    (r.success = true →
      ∃ m, r.metadata = some m ∧ m.startTime = 0 ∧
        m.duration = m.endTime - m.startTime ∧ r.error = none) ∧
    (r.success = false → r.metadata = none ∧ ∃ msg, r.error = some msg) ∧
    (∀ msg ctx,
      Executor.executeInParallel w collab env fuel (Executor.initialCtx init) =
        some (.error (msg, ctx)) →
      r.success = false ∧ r.logs = ctx.blockLogs ∧
        r.error = some (if msg = "" then "Workflow execution failed" else msg)) ∧
    (∀ out ctx,
      Executor.executeInParallel w collab env fuel (Executor.initialCtx init) =
        some (.ok (out, ctx)) →
      r.success = true ∧ r.logs = ctx.blockLogs ∧ r.output = out ∧
        r.metadata = some { duration := ctx.clock - 0, startTime := 0,
                            endTime := ctx.clock }) := by
  simp only [Executor.execute] at h
  cases hrun : Executor.executeInParallel w collab env fuel (Executor.initialCtx init) with
  | none => rw [hrun] at h; cases h
  | some res =>
      rw [hrun] at h
      cases res with
      | ok p =>
          cases p with
          | mk out ctx =>
              cases h
              refine ⟨fun _ => ⟨_, rfl, rfl, rfl, rfl⟩, ?_, ?_, ?_⟩
              · intro hfalse
                simp at hfalse
              · intro msg ctx' herr
                cases herr
              · intro out' ctx' hok
                cases hok
                exact ⟨rfl, rfl, rfl, rfl⟩
      | error p =>
          cases p with
          | mk msg ctx =>
              cases h
              refine ⟨?_, fun _ => ⟨rfl, _, rfl⟩, ?_, ?_⟩
              · intro htrue
                simp at htrue
              · intro msg' ctx' herr
                cases herr
                exact ⟨rfl, rfl, rfl⟩
              · intro out' ctx' hok
                cases hok

/-- C1: `execute` never raises — when the layered run errors, the first
dispatch error becomes a failed result carrying exactly the logs accumulated at
the failure point; within a layer the first failing block fully determines the
error (the blocks after it are not dispatched), and a failing layer aborts the
scheduler loop immediately (no later layer executes). -/
theorem C1_theorem :
    (∀ (w : SerializedWorkflow) (collab : Collab) (init : List (String × Js))
        (env : List (String × String)) (fuel : Nat) (msg : String) (ctx : Ctx),
      Executor.executeInParallel w collab env fuel (Executor.initialCtx init) =
          some (.error (msg, ctx)) →
      Executor.execute w collab init env fuel =
        some { success := false,
               output := Js.obj (.cons "response" (.obj .nil) .nil),
               error := some (if msg = "" then "Workflow execution failed" else msg),
               metadata := none, logs := ctx.blockLogs }) ∧
    (∀ (w : SerializedWorkflow) (collab : Collab) (env : List (String × String))
        (bs : List String) (st : Executor.SchedSt) (e : String × Ctx),
      Executor.execLayerSeq w collab env bs st = .error e →
      ∃ bs1 b bs2 st1, bs = bs1 ++ b :: bs2 ∧
        Executor.execLayerSeq w collab env bs1 st = .ok st1 ∧
        Executor.execLayerSeq w collab env [b] st1 = .error e) ∧
    (∀ (w : SerializedWorkflow) (collab : Collab) (env : List (String × String))
        (n : Nat) (st : Executor.SchedSt) (e : String × Ctx),
      Executor.stepLayer w collab env st = .error e →
      st.queue ≠ [] →
      Executor.runLoop w collab env (n + 1) st = some (.error e)) := by
  refine ⟨?_, ?_, ?_⟩
  · intro w collab init env fuel msg ctx hrun
    simp only [Executor.execute]
    rw [hrun]
  · intro w collab env bs
    induction bs with
    | nil =>
        intro st e h
        simp [Executor.execLayerSeq] at h
    | cons b rest ih =>
        intro st e h
        cases hf : w.blocks.find? (fun bb => bb.id == b) with
        | none =>
            refine ⟨[], b, rest, st, rfl, rfl, ?_⟩
            simp only [Executor.execLayerSeq, hf] at h ⊢
            exact h
        | some block =>
            cases hr : Executor.resolveInputs w env block st.ctx with
            | error msg =>
                refine ⟨[], b, rest, st, rfl, rfl, ?_⟩
                simp only [Executor.execLayerSeq, hf, hr] at h ⊢
                exact h
            | ok inputs =>
                cases hx : Executor.executeBlock w collab env block inputs st.ctx with
                | error e' =>
                    refine ⟨[], b, rest, st, rfl, rfl, ?_⟩
                    simp only [Executor.execLayerSeq, hf, hr, hx] at h ⊢
                    exact h
                | ok p =>
                    obtain ⟨result, ctx'⟩ := p
                    simp only [Executor.execLayerSeq, hf, hr, hx] at h
                    obtain ⟨bs1, b', bs2, st1, hbs, hok, herr⟩ := ih _ _ h
                    refine ⟨b :: bs1, b', bs2, st1, by rw [hbs]; rfl, ?_, herr⟩
                    simp only [Executor.execLayerSeq, hf, hr, hx]
                    exact hok
  · intro w collab env n st e hstep hq
    have hqe : st.queue.isEmpty = false := by
      cases hql : st.queue with
      | nil => exact absurd hql hq
      | cons a t => simp [hql]
    rw [Executor.runLoop]
    simp [hqe, hstep]

/-- C1 witness: the abort behavior applied to a concrete failing run. -/
theorem C1_witness :
    ∃ msg ctx,
      Executor.executeInParallel Fixtures.wOneBlock Fixtures.noToolCollab [] 5
          (Executor.initialCtx []) = some (.error (msg, ctx)) ∧
      Executor.execute Fixtures.wOneBlock Fixtures.noToolCollab [] [] 5 =
        some { success := false, output := Js.obj (.cons "response" (.obj .nil) .nil),
               error := some (if msg = "" then "Workflow execution failed" else msg),
               metadata := none, logs := ctx.blockLogs } := by
  refine ⟨_, _, rfl, ?_⟩
  exact C1_theorem.1 Fixtures.wOneBlock Fixtures.noToolCollab [] [] 5 _ _ rfl

/-- C9 counterexample: a failed run's result carries no metadata, contradicting
the claim that every result carries run metadata. -/
theorem C9_counterexample :
    (Executor.execute Fixtures.wOneBlock Fixtures.noToolCollab [] [] 5).map
      (fun r => (r.success, r.metadata, r.error)) =
    some (false, none, some "Tool not found: t") := rfl

/-- C9 witness: the amended theorem applied to a concrete successful run. -/
theorem C9_witness :
    ∃ r, Executor.execute Fixtures.wOneBlock Fixtures.okCollab [] [] 5 = some r ∧
      ∃ m, r.metadata = some m ∧ m.startTime = 0 ∧
        m.duration = m.endTime - m.startTime ∧ r.error = none := by
  refine ⟨_, rfl, ?_⟩
  exact (C9_theorem Fixtures.wOneBlock Fixtures.okCollab [] [] 5 _ rfl).1 rfl

/-- C6: a router / evaluator decision succeeds only when the trimmed,
lowercased provider content exactly equals the id of one of the block's
immediate outgoing target blocks; any other value is a hard failure
(`Invalid routing decision: <v>` / `Invalid evaluation decision: <v>`), and a
concrete run with an invalid router answer fails with no block beyond the
router dispatched. -/
theorem C6_theorem :
    (∀ (w : SerializedWorkflow) (collab : Collab) (env : List (String × String))
        (block : SerializedBlock) (ctx : Ctx) (d : Executor.DecisionOut),
      Executor.executeRouterBlock w collab env block ctx = .ok d →
      (∃ conn ∈ w.connections, conn.source = block.id ∧
        d.selectedPath.blockId = conn.target) ∧
      ∃ req resp, collab.executeProviderRequest req = .ok resp ∧
        d.selectedPath.blockId = strToLower (strTrim resp.content)) ∧
    (∀ (w : SerializedWorkflow) (env : List (String × String))
        (block : SerializedBlock) (ctx : Ctx) (resp : ProviderResponse)
        (collab : Collab) (ri : JsObj) (ts : List TargetInfo),
      collab.executeProviderRequest = (fun _ => .ok resp) →
      Executor.resolveInputs w env block ctx = .ok ri →
      Executor.targetInfos w ctx block.id = .ok ts →
      (∀ ti ∈ ts, ti.id ≠ strToLower (strTrim resp.content)) →
      Executor.executeRouterBlock w collab env block ctx =
        .error ("Invalid routing decision: " ++ strToLower (strTrim resp.content))) ∧
    (∀ (w : SerializedWorkflow) (collab : Collab) (env : List (String × String))
        (block : SerializedBlock) (ctx : Ctx) (d : Executor.DecisionOut) (ctx' : Ctx),
      Executor.executeEvaluatorBlock w collab env block ctx = .ok (d, ctx') →
      (∃ conn ∈ w.connections, conn.source = block.id ∧
        d.selectedPath.blockId = conn.target) ∧
      ∃ req resp, collab.executeProviderRequest req = .ok resp ∧
        d.selectedPath.blockId = strToLower (strTrim resp.content)) ∧
    (∀ (w : SerializedWorkflow) (env : List (String × String))
        (block : SerializedBlock) (ctx : Ctx) (resp : ProviderResponse)
        (collab : Collab) (ri : JsObj) (ts : List TargetInfo),
      collab.executeProviderRequest = (fun _ => .ok resp) →
      Executor.resolveInputs w env block ctx = .ok ri →
      Executor.targetInfos w ctx block.id = .ok ts →
      (∀ ti ∈ ts, ti.id ≠ strToLower (strTrim resp.content)) →
      Executor.executeEvaluatorBlock w collab env block ctx =
        .error ("Invalid evaluation decision: " ++ strToLower (strTrim resp.content))) ∧
    (Executor.execute Fixtures.wRouter Fixtures.routerBadCollab [] [] 5).map
      (fun r => (r.success, r.error, r.logs.map (·.blockId))) =
      some (false, some "Invalid routing decision: z", ["r"]) := by
  refine ⟨?_, ?_, ?_, ?_, ?_⟩
  · intro w collab env block ctx d h
    simp only [Executor.executeRouterBlock] at h
    cases hres : Executor.resolveInputs w env block ctx with
    | error e => simp only [hres] at h; exact Except.noConfusion h
    | ok ri =>
        simp only [hres] at h
        cases hts : Executor.targetInfos w ctx block.id with
        | error e => simp only [hts] at h; exact Except.noConfusion h
        | ok ts =>
            simp only [hts] at h
            split at h
            · simp at h
            · rename_i resp hp
              split at h
              · simp at h
              · rename_i cb hfind
                cases h
                have hcb : cb.id = strToLower (strTrim resp.content) := by
                  have := List.find?_some hfind
                  simpa using this
                have hmem : cb ∈ ts := List.mem_of_find?_eq_some hfind
                obtain ⟨conn, hconn, hsrc, hid⟩ :=
                  targetInfos_mem w ctx block.id ts hts cb hmem
                exact ⟨⟨conn, hconn, hsrc, by simpa using hid⟩,
                  ⟨_, resp, hp, by simpa using hcb⟩⟩
  · intro w env block ctx resp collab ri ts hprov hres hts hnot
    simp only [Executor.executeRouterBlock, hres, hts, hprov]
    have hfind : ts.find? (fun b => b.id == strToLower (strTrim resp.content)) = none := by
      rw [List.find?_eq_none]
      intro ti hti
      simpa using hnot ti hti
    simp only [hfind]
  · intro w collab env block ctx d ctx' h
    simp only [Executor.executeEvaluatorBlock] at h
    cases hres : Executor.resolveInputs w env block ctx with
    | error e => simp only [hres] at h; exact Except.noConfusion h
    | ok ri =>
        simp only [hres] at h
        cases hts : Executor.targetInfos w ctx block.id with
        | error e => simp only [hts] at h; exact Except.noConfusion h
        | ok ts =>
            simp only [hts] at h
            split at h
            · simp at h
            · rename_i resp hp
              split at h
              · simp at h
              · rename_i cb hfind
                cases h
                have hcb : cb.id = strToLower (strTrim resp.content) := by
                  have := List.find?_some hfind
                  simpa using this
                have hmem : cb ∈ ts := List.mem_of_find?_eq_some hfind
                obtain ⟨conn, hconn, hsrc, hid⟩ :=
                  targetInfos_mem w ctx block.id ts hts cb hmem
                exact ⟨⟨conn, hconn, hsrc, by simpa using hid⟩,
                  ⟨_, resp, hp, by simpa using hcb⟩⟩
  · intro w env block ctx resp collab ri ts hprov hres hts hnot
    simp only [Executor.executeEvaluatorBlock, hres, hts, hprov]
    have hfind : ts.find? (fun b => b.id == strToLower (strTrim resp.content)) = none := by
      rw [List.find?_eq_none]
      intro ti hti
      simpa using hnot ti hti
    simp only [hfind]
  · rfl

/-- C6 witness: the decision characterization applied to a concrete successful
router run and to a concrete invalid decision. -/
theorem C6_witness :
    (∃ d, Executor.executeRouterBlock Fixtures.wRouter Fixtures.routerGoodCollab []
        (Fixtures.wRouter.blocks.headD { id := "?", config := { tool := "t" } })
        (Executor.initialCtx []) = .ok d ∧
      ∃ conn ∈ Fixtures.wRouter.connections, conn.source = "r" ∧
        d.selectedPath.blockId = conn.target) ∧
    Executor.executeRouterBlock Fixtures.wRouter Fixtures.routerBadCollab []
        (Fixtures.wRouter.blocks.headD { id := "?", config := { tool := "t" } })
        (Executor.initialCtx []) = .error "Invalid routing decision: z" := by
  constructor
  · refine ⟨_, rfl, ?_⟩
    have h := (C6_theorem.1 Fixtures.wRouter Fixtures.routerGoodCollab []
      (Fixtures.wRouter.blocks.headD { id := "?", config := { tool := "t" } })
      (Executor.initialCtx []) _ rfl).1
    simpa using h
  · exact C6_theorem.2.1 Fixtures.wRouter []
      (Fixtures.wRouter.blocks.headD { id := "?", config := { tool := "t" } })
      (Executor.initialCtx []) { content := "z", model := "m" }
      Fixtures.routerBadCollab _ _ rfl rfl rfl
      (by intro ti hti; fin_cases hti <;> decide)

/-! ## Context-preservation lemmas for the block dispatcher -/

theorem executeEvaluatorBlock_ctx (w : SerializedWorkflow) (collab : Collab)
    (env : List (String × String)) (block : SerializedBlock) (ctx : Ctx)
    (d : Executor.DecisionOut) (ctx' : Ctx)
    (h : Executor.executeEvaluatorBlock w collab env block ctx = .ok (d, ctx')) :
    ctx'.blockLogs = ctx.blockLogs ∧ ctx'.clock = ctx.clock := by
  simp only [Executor.executeEvaluatorBlock] at h
  split at h
  · exact Except.noConfusion h
  · split at h
    · exact Except.noConfusion h
    · split at h
      · exact Except.noConfusion h
      · split at h
        · exact Except.noConfusion h
        · cases h
          exact ⟨rfl, rfl⟩

theorem executeConditionalBlock_ctx (w : SerializedWorkflow) (collab : Collab)
    (env : List (String × String)) (block : SerializedBlock) (ctx : Ctx)
    (r : Executor.CondOut) (ctx' : Ctx)
    (h : Executor.executeConditionalBlock w collab env block ctx = .ok (r, ctx')) :
    ctx'.blockLogs = ctx.blockLogs ∧ ctx'.clock = ctx.clock := by
  simp only [Executor.executeConditionalBlock] at h
  split at h
  · exact Except.noConfusion h
  · split at h
    · exact Except.noConfusion h
    · split at h
      · exact Except.noConfusion h
      · split at h
        · exact Except.noConfusion h
        · split at h
          · exact Except.noConfusion h
          · split at h
            · exact Except.noConfusion h
            · split at h
              · exact Except.noConfusion h
              · split at h
                · exact Except.noConfusion h
                · cases h
                  exact ⟨rfl, rfl⟩

theorem executeBlockCore_ctx (w : SerializedWorkflow) (collab : Collab)
    (env : List (String × String)) (block : SerializedBlock) (inputs : JsObj)
    (ctx : Ctx) (out : Js) (ctx2 : Ctx)
    (h : Executor.executeBlockCore w collab env block inputs ctx = .ok (out, ctx2)) :
    ctx2.blockLogs = ctx.blockLogs ∧ ctx2.clock = ctx.clock := by
  simp only [Executor.executeBlockCore] at h
  split at h
  · -- router
    split at h
    · exact Except.noConfusion h
    · cases h; exact ⟨rfl, rfl⟩
  · split at h
    · -- evaluator
      split at h
      · exact Except.noConfusion h
      · rename_i d ctxe heq
        cases h
        exact executeEvaluatorBlock_ctx w collab env block ctx d _ heq
    · split at h
      · -- condition
        split at h
        · exact Except.noConfusion h
        · rename_i cr ctxe heq
          cases h
          exact executeConditionalBlock_ctx w collab env block ctx cr _ heq
      · split at h
        · -- agent
          split at h
          · exact Except.noConfusion h
          · cases h; exact ⟨rfl, rfl⟩
        · -- tool
          split at h
          · exact Except.noConfusion h
          · cases h; exact ⟨rfl, rfl⟩

/-- The success case of `executeBlock`: exactly one log entry is appended,
carrying the block identity, timing, success flag and output. -/
theorem executeBlock_ok_log (w : SerializedWorkflow) (collab : Collab)
    (env : List (String × String)) (block : SerializedBlock) (inputs : JsObj)
    (ctx : Ctx) (out : Js) (ctx' : Ctx)
    (hen : block.enabled = true)
    (h : Executor.executeBlock w collab env block inputs ctx = .ok (out, ctx')) :
    ctx'.blockLogs = ctx.blockLogs ++
      [{ blockId := block.id, blockTitle := block.metadata.title.getD "",
         blockType := block.metadata.type.getD "", startedAt := ctx.clock,
         endedAt := ctx.clock + 1, durationMs := 1, success := true,
         output := some out, error := none }] ∧
    ctx'.clock = ctx.clock + 2 := by
  simp only [Executor.executeBlock, hen, Bool.true_eq_false, if_false] at h
  cases hcore : Executor.executeBlockCore w collab env block inputs
      { ctx with clock := ctx.clock + 1 } with
  | error msg => rw [hcore] at h; exact Except.noConfusion h
  | ok p =>
      obtain ⟨out2, ctx2⟩ := p
      rw [hcore] at h
      obtain ⟨hlogs, hclock⟩ :=
        executeBlockCore_ctx w collab env block inputs _ out2 ctx2 hcore
      cases h
      refine ⟨?_, ?_⟩ <;> simp [hlogs, hclock]

/-- The failure case of `executeBlock`: the failure log is appended before the
error is propagated (the error carries the context holding it). -/
theorem executeBlock_err_log (w : SerializedWorkflow) (collab : Collab)
    (env : List (String × String)) (block : SerializedBlock) (inputs : JsObj)
    (ctx : Ctx) (msg : String) (ctx' : Ctx)
    (hen : block.enabled = true)
    (h : Executor.executeBlock w collab env block inputs ctx = .error (msg, ctx')) :
    ctx'.blockLogs = ctx.blockLogs ++
      [{ blockId := block.id, blockTitle := block.metadata.title.getD "",
         blockType := block.metadata.type.getD "", startedAt := ctx.clock,
         endedAt := ctx.clock + 1, durationMs := 1, success := false,
         output := none,
         error := some (if msg = "" then "Block execution failed" else msg) }] ∧
    ctx'.clock = ctx.clock + 2 := by
  simp only [Executor.executeBlock, hen, Bool.true_eq_false, if_false] at h
  cases hcore : Executor.executeBlockCore w collab env block inputs
      { ctx with clock := ctx.clock + 1 } with
  | ok p => rw [hcore] at h; exact Except.noConfusion h
  | error msg2 =>
      rw [hcore] at h
      cases h
      refine ⟨?_, ?_⟩ <;> simp

/-- The disabled refusal of `executeBlock`: it throws before the log is
created, so the context — in particular `blockLogs` — is unchanged. -/
theorem executeBlock_disabled (w : SerializedWorkflow) (collab : Collab)
    (env : List (String × String)) (block : SerializedBlock) (inputs : JsObj)
    (ctx : Ctx) (hdis : block.enabled = false) :
    Executor.executeBlock w collab env block inputs ctx =
      .error ("Cannot execute disabled block: " ++
        Executor.orElseStr block.metadata.title block.id, ctx) := by
  simp [Executor.executeBlock, hdis]

/-! ## The clock / log-ordering invariant -/

/-- `ctxInv`: all recorded start times lie below the clock, and the log列 is
ordered by start time. -/
def ctxInv (ctx : Ctx) : Prop :=
  (∀ l ∈ ctx.blockLogs, l.startedAt < ctx.clock) ∧
  ctx.blockLogs.Pairwise (fun a b => a.startedAt ≤ b.startedAt)

theorem ctxInv_of (ctx ctx' : Ctx) (l : BlockLog) (h : ctxInv ctx)
    (hlogs : ctx'.blockLogs = ctx.blockLogs ++ [l]) (hst : l.startedAt = ctx.clock)
    (hc : ctx.clock < ctx'.clock) : ctxInv ctx' := by
  obtain ⟨h1, h2⟩ := h
  constructor
  · intro x hx
    rw [hlogs] at hx
    simp only [List.mem_append, List.mem_singleton] at hx
    rcases hx with hx | hx
    · exact lt_trans (h1 x hx) hc
    · subst hx; rw [hst]; exact hc
  · rw [hlogs, List.pairwise_append]
    refine ⟨h2, List.pairwise_singleton _ _, ?_⟩
    intro a ha b hb
    simp only [List.mem_singleton] at hb
    subst hb
    rw [hst]
    exact le_of_lt (h1 a ha)

theorem executeBlock_inv (w : SerializedWorkflow) (collab : Collab)
    (env : List (String × String)) (block : SerializedBlock) (inputs : JsObj)
    (ctx : Ctx) (h : ctxInv ctx) :
    (∀ out ctx', Executor.executeBlock w collab env block inputs ctx = .ok (out, ctx') →
      ctxInv ctx') ∧
    (∀ msg ctx', Executor.executeBlock w collab env block inputs ctx = .error (msg, ctx') →
      ctxInv ctx') := by
  constructor
  · intro out ctx' hok
    cases hen : block.enabled with
    | false =>
        rw [executeBlock_disabled w collab env block inputs ctx hen] at hok
        exact Except.noConfusion hok
    | true =>
        obtain ⟨hl, hc⟩ := executeBlock_ok_log w collab env block inputs ctx out ctx' hen hok
        exact ctxInv_of ctx ctx' _ h hl rfl (by omega)
  · intro msg ctx' herr
    cases hen : block.enabled with
    | false =>
        rw [executeBlock_disabled w collab env block inputs ctx hen] at herr
        cases herr
        exact h
    | true =>
        obtain ⟨hl, hc⟩ := executeBlock_err_log w collab env block inputs ctx msg ctx' hen herr
        exact ctxInv_of ctx ctx' _ h hl rfl (by omega)

theorem execLayerSeq_inv (w : SerializedWorkflow) (collab : Collab)
    (env : List (String × String)) :
    ∀ (bs : List String) (st : Executor.SchedSt), ctxInv st.ctx →
      (∀ st', Executor.execLayerSeq w collab env bs st = .ok st' → ctxInv st'.ctx) ∧
      (∀ e, Executor.execLayerSeq w collab env bs st = .error e → ctxInv e.2) := by
  intro bs
  induction bs with
  | nil =>
      intro st h
      constructor
      · intro st' hok
        simp only [Executor.execLayerSeq] at hok
        cases hok
        exact h
      · intro e herr
        simp only [Executor.execLayerSeq] at herr
        exact Except.noConfusion herr
  | cons b rest ih =>
      intro st h
      constructor
      · intro st' hrun
        cases hf : w.blocks.find? (fun bb => bb.id == b) with
        | none =>
            simp only [Executor.execLayerSeq, hf] at hrun
            exact Except.noConfusion hrun
        | some block =>
            cases hr : Executor.resolveInputs w env block st.ctx with
            | error msg =>
                simp only [Executor.execLayerSeq, hf, hr] at hrun
                exact Except.noConfusion hrun
            | ok inputs =>
                cases hx : Executor.executeBlock w collab env block inputs st.ctx with
                | error e' =>
                    simp only [Executor.execLayerSeq, hf, hr, hx] at hrun
                    exact Except.noConfusion hrun
                | ok p =>
                    obtain ⟨result, ctx'⟩ := p
                    simp only [Executor.execLayerSeq, hf, hr, hx] at hrun
                    have hinv' : ctxInv ctx' :=
                      (executeBlock_inv w collab env block inputs st.ctx h).1 result ctx' hx
                    have : ctxInv ({ ctx' with
                        blockStates := (setA ctx'.blockStates block.id result) } : Ctx) := by
                      exact hinv'
                    refine (ih _ ?_).1 st' hrun
                    repeat' split
                    all_goals exact this
      · intro e hrun
        cases hf : w.blocks.find? (fun bb => bb.id == b) with
        | none =>
            simp only [Executor.execLayerSeq, hf] at hrun
            cases hrun
            exact h
        | some block =>
            cases hr : Executor.resolveInputs w env block st.ctx with
            | error msg =>
                simp only [Executor.execLayerSeq, hf, hr] at hrun
                cases hrun
                exact h
            | ok inputs =>
                cases hx : Executor.executeBlock w collab env block inputs st.ctx with
                | error e2 =>
                    simp only [Executor.execLayerSeq, hf, hr, hx] at hrun
                    cases hrun
                    exact (executeBlock_inv w collab env block inputs st.ctx h).2 e.1 e.2
                      (by simpa using hx)
                | ok p =>
                    obtain ⟨result, ctx'⟩ := p
                    simp only [Executor.execLayerSeq, hf, hr, hx] at hrun
                    have hinv' : ctxInv ctx' :=
                      (executeBlock_inv w collab env block inputs st.ctx h).1 result ctx' hx
                    have hccc : ctxInv ({ ctx' with
                        blockStates := (setA ctx'.blockStates block.id result) } : Ctx) := by
                      exact hinv'
                    refine (ih _ ?_).2 e hrun
                    repeat' split
                    all_goals exact hccc

theorem decTarget_ctx (t : String) (st : Executor.SchedSt) :
    (Executor.decTarget t st).ctx = st.ctx := by
  simp only [Executor.decTarget]
  split <;> rfl

theorem processConn_ctx (w : SerializedWorkflow) (fid : String)
    (st : Executor.SchedSt) (conn : SerializedConnection) :
    (Executor.processConn w fid st conn).ctx = st.ctx := by
  simp only [Executor.processConn]
  repeat' split
  all_goals first | rfl | exact decTarget_ctx _ _

theorem foldl_ctx_const {α : Type} (f : Executor.SchedSt → α → Executor.SchedSt)
    (hf : ∀ st x, (f st x).ctx = st.ctx) :
    ∀ (l : List α) (st : Executor.SchedSt), (l.foldl f st).ctx = st.ctx := by
  intro l
  induction l with
  | nil => intro st; rfl
  | cons a t ih => intro st; rw [List.foldl_cons, ih, hf]

theorem processOutgoing_ctx (w : SerializedWorkflow) (st : Executor.SchedSt)
    (L : List String) : (Executor.processOutgoing w st L).ctx = st.ctx := by
  unfold Executor.processOutgoing
  exact foldl_ctx_const _
    (fun st f => foldl_ctx_const _ (fun st c => processConn_ctx w f st c) _ st) L st

theorem loopReconcile_ctx (w : SerializedWorkflow) (st : Executor.SchedSt)
    (L : List String) : (Executor.loopReconcile w st L).ctx = st.ctx := by
  unfold Executor.loopReconcile
  refine foldl_ctx_const _ ?_ w.loops st
  intro st p
  dsimp only
  repeat' split
  all_goals rfl

theorem stepLayer_inv (w : SerializedWorkflow) (collab : Collab)
    (env : List (String × String)) (st : Executor.SchedSt) (h : ctxInv st.ctx) :
    (∀ st', Executor.stepLayer w collab env st = .ok st' → ctxInv st'.ctx) ∧
    (∀ e, Executor.stepLayer w collab env st = .error e → ctxInv e.2) := by
  constructor
  · intro st' hrun
    simp only [Executor.stepLayer] at hrun
    cases hseq : Executor.execLayerSeq w collab env
        (List.filter (Executor.layerFilter w { st with queue := [] })
          st.queue) { st with queue := [] } with
    | error e => rw [hseq] at hrun; exact Except.noConfusion hrun
    | ok st1 =>
        rw [hseq] at hrun
        cases hrun
        have h1 : ctxInv st1.ctx :=
          (execLayerSeq_inv w collab env _ { st with queue := [] } h).1 st1 hseq
        rw [loopReconcile_ctx, processOutgoing_ctx]
        exact h1
  · intro e hrun
    simp only [Executor.stepLayer] at hrun
    cases hseq : Executor.execLayerSeq w collab env
        (List.filter (Executor.layerFilter w { st with queue := [] })
          st.queue) { st with queue := [] } with
    | error e2 =>
        rw [hseq] at hrun
        cases hrun
        exact (execLayerSeq_inv w collab env _ { st with queue := [] } h).2 _ hseq
    | ok st1 => rw [hseq] at hrun; exact Except.noConfusion hrun

theorem runLoop_inv (w : SerializedWorkflow) (collab : Collab)
    (env : List (String × String)) :
    ∀ (fuel : Nat) (st : Executor.SchedSt), ctxInv st.ctx →
      (∀ out ctx, Executor.runLoop w collab env fuel st = some (.ok (out, ctx)) →
        ctxInv ctx) ∧
      (∀ e, Executor.runLoop w collab env fuel st = some (.error e) → ctxInv e.2) := by
  intro fuel
  induction fuel with
  | zero =>
      intro st h
      constructor
      · intro out ctx hr
        simp only [Executor.runLoop] at hr
        split at hr
        · cases hr; exact h
        · exact Option.noConfusion hr
      · intro e hr
        simp only [Executor.runLoop] at hr
        split at hr
        · cases hr
        · exact Option.noConfusion hr
  | succ n ih =>
      intro st h
      constructor
      · intro out ctx hr
        simp only [Executor.runLoop] at hr
        split at hr
        · cases hr; exact h
        · cases hstep : Executor.stepLayer w collab env st with
          | error e => rw [hstep] at hr; cases hr
          | ok st' =>
              rw [hstep] at hr
              exact (ih st' ((stepLayer_inv w collab env st h).1 st' hstep)).1 out ctx hr
      · intro e hr
        simp only [Executor.runLoop] at hr
        split at hr
        · cases hr
        · cases hstep : Executor.stepLayer w collab env st with
          | error e2 =>
              rw [hstep] at hr
              cases hr
              exact (stepLayer_inv w collab env st h).2 _ hstep
          | ok st' =>
              rw [hstep] at hr
              exact (ih st' ((stepLayer_inv w collab env st h).1 st' hstep)).2 e hr

theorem initState_inv (w : SerializedWorkflow) (init : List (String × Js)) :
    ctxInv (Executor.initState w (Executor.initialCtx init)).ctx := by
  constructor
  · intro l hl
    simp [Executor.initState, Executor.initialCtx] at hl
  · simp [Executor.initState, Executor.initialCtx]

/-- C7 (amended): every invocation of `executeBlock` on an enabled block
appends exactly one BlockLog entry carrying block id/title/type, start and end
timestamps, duration, success flag, and either the output (on success) or the
error message (on failure); on failure the log is appended before the error is
propagated. A refused disabled block, however, throws before the log is
created and appends nothing. Across a whole run, blockLogs remain ordered by
start time. -/
theorem C7_theorem :
    (∀ (w : SerializedWorkflow) (collab : Collab) (env : List (String × String))
        (block : SerializedBlock) (inputs : JsObj) (ctx : Ctx),
      block.enabled = false →
      Executor.executeBlock w collab env block inputs ctx =
        .error ("Cannot execute disabled block: " ++
          Executor.orElseStr block.metadata.title block.id, ctx)) ∧
    (∀ (w : SerializedWorkflow) (collab : Collab) (env : List (String × String))
        (block : SerializedBlock) (inputs : JsObj) (ctx : Ctx) (out : Js) (ctx' : Ctx),
      block.enabled = true →
      Executor.executeBlock w collab env block inputs ctx = .ok (out, ctx') →
      ctx'.blockLogs = ctx.blockLogs ++
        [{ blockId := block.id, blockTitle := block.metadata.title.getD "",
           blockType := block.metadata.type.getD "", startedAt := ctx.clock,
           endedAt := ctx.clock + 1, durationMs := 1, success := true,
           output := some out, error := none }]) ∧
    (∀ (w : SerializedWorkflow) (collab : Collab) (env : List (String × String))
        (block : SerializedBlock) (inputs : JsObj) (ctx : Ctx) (msg : String) (ctx' : Ctx),
      block.enabled = true →
      Executor.executeBlock w collab env block inputs ctx = .error (msg, ctx') →
      ctx'.blockLogs = ctx.blockLogs ++
        [{ blockId := block.id, blockTitle := block.metadata.title.getD "",
           blockType := block.metadata.type.getD "", startedAt := ctx.clock,
           endedAt := ctx.clock + 1, durationMs := 1, success := false,
           output := none,
           error := some (if msg = "" then "Block execution failed" else msg) }]) ∧
    (∀ (w : SerializedWorkflow) (collab : Collab) (init : List (String × Js))
        (env : List (String × String)) (fuel : Nat) (r : ExecutionResult),
      Executor.execute w collab init env fuel = some r →
      r.logs.Pairwise (fun a b => a.startedAt ≤ b.startedAt)) := by
  refine ⟨?_, ?_, ?_, ?_⟩
  · intro w collab env block inputs ctx hdis
    exact executeBlock_disabled w collab env block inputs ctx hdis
  · intro w collab env block inputs ctx out ctx' hen hok
    exact (executeBlock_ok_log w collab env block inputs ctx out ctx' hen hok).1
  · intro w collab env block inputs ctx msg ctx' hen herr
    exact (executeBlock_err_log w collab env block inputs ctx msg ctx' hen herr).1
  · intro w collab init env fuel r hr
    simp only [Executor.execute] at hr
    cases hrun : Executor.executeInParallel w collab env fuel (Executor.initialCtx init) with
    | none => rw [hrun] at hr; exact Option.noConfusion hr
    | some res =>
        rw [hrun] at hr
        unfold Executor.executeInParallel at hrun
        cases res with
        | ok p =>
            obtain ⟨out, ctx⟩ := p
            cases hr
            exact ((runLoop_inv w collab env fuel _ (initState_inv w init)).1
              out ctx hrun).2
        | error e =>
            obtain ⟨msg, ctx⟩ := e
            cases hr
            exact ((runLoop_inv w collab env fuel _ (initState_inv w init)).2
              (msg, ctx) hrun).2

/-- C7 counterexample: a refused disabled block appends no BlockLog at all —
the context comes back with its logs unchanged (empty), contradicting the
claim that every invocation, including refused disabled blocks, appends
exactly one entry. -/
theorem C7_counterexample :
    (match Executor.executeBlock Fixtures.wOneBlock Fixtures.okCollab []
        Fixtures.disabledBlock .nil (Executor.initialCtx []) with
     | .error (msg, ctx') => (msg, ctx'.blockLogs.length)
     | .ok _ => ("", 99)) = ("Cannot execute disabled block: a", 0) := rfl

/-- C7 witness: the logging contract applied to a concrete successful dispatch
and to the concrete disabled refusal. -/
theorem C7_witness :
    (∃ out ctx',
      Executor.executeBlock Fixtures.wOneBlock Fixtures.okCollab []
        (Fixtures.wOneBlock.blocks.headD Fixtures.disabledBlock) .nil
        (Executor.initialCtx []) = .ok (out, ctx') ∧
      ctx'.blockLogs = (Executor.initialCtx []).blockLogs ++
        [{ blockId := "a", blockTitle := "", blockType := "", startedAt := 1,
           endedAt := 2, durationMs := 1, success := true,
           output := some out, error := none }]) ∧
    Executor.executeBlock Fixtures.wOneBlock Fixtures.okCollab []
      Fixtures.disabledBlock .nil (Executor.initialCtx []) =
      .error ("Cannot execute disabled block: a", Executor.initialCtx []) := by
  constructor
  · refine ⟨_, _, rfl, ?_⟩
    exact C7_theorem.2.1 Fixtures.wOneBlock Fixtures.okCollab []
      (Fixtures.wOneBlock.blocks.headD Fixtures.disabledBlock) .nil
      (Executor.initialCtx []) _ _ rfl rfl
  · exact C7_theorem.1 Fixtures.wOneBlock Fixtures.okCollab []
      Fixtures.disabledBlock .nil (Executor.initialCtx []) rfl

/-! ## Helper lemmas for the input resolver (C8) -/

theorem envSubst_ok_iff (env : List (String × String)) :
    ∀ (ms : List String) (s : String),
      (∃ s', Executor.envSubst env s ms = .ok s') ↔
      (∀ m ∈ ms, ∃ v, getA env ((m.drop 2).dropRight 2) = some v) := by
  intro ms
  induction ms with
  | nil =>
      intro s
      constructor
      · intro _ m hm; simp at hm
      · intro _; exact ⟨s, rfl⟩
  | cons m ms ih =>
      intro s
      constructor
      · intro ⟨s', hs'⟩ m' hm'
        simp only [Executor.envSubst] at hs'
        cases hk : getA env ((m.drop 2).dropRight 2) with
        | none => rw [hk] at hs'; exact Except.noConfusion hs'
        | some v =>
            rw [hk] at hs'
            simp only [List.mem_cons] at hm'
            rcases hm' with hm' | hm'
            · subst hm'; exact ⟨v, hk⟩
            · exact (ih _).1 ⟨s', hs'⟩ m' hm'
      · intro hall
        have hk := hall m (List.mem_cons_self m ms)
        obtain ⟨v, hv⟩ := hk
        simp only [Executor.envSubst, hv]
        exact (ih _).2 (fun m' hm' => hall m' (List.mem_cons_of_mem m hm'))

theorem envSubst_err (env : List (String × String)) :
    ∀ (ms : List String) (s : String) (e : String),
      Executor.envSubst env s ms = .error e →
      ∃ m ∈ ms, getA env ((m.drop 2).dropRight 2) = none ∧
        e = "Environment variable \"" ++ (m.drop 2).dropRight 2 ++ "\" was not found." := by
  intro ms
  induction ms with
  | nil =>
      intro s e h
      simp only [Executor.envSubst] at h
      exact Except.noConfusion h
  | cons m ms ih =>
      intro s e h
      simp only [Executor.envSubst] at h
      cases hk : getA env ((m.drop 2).dropRight 2) with
      | none =>
          rw [hk] at h
          cases h
          exact ⟨m, List.mem_cons_self m ms, hk, rfl⟩
      | some v =>
          rw [hk] at h
          obtain ⟨m', hm', hk', he⟩ := ih _ e h
          exact ⟨m', List.mem_cons_of_mem m hm', hk', he⟩

theorem walkPath_ok_fold (bt p : String) :
    ∀ (parts : List String) (v r : Js),
      Executor.walkPath bt p v parts = .ok r → r = parts.foldl Executor.jsGetProp v := by
  intro parts
  induction parts with
  | nil =>
      intro v r h
      simp only [Executor.walkPath] at h
      cases h
      rfl
  | cons part rest ih =>
      intro v r h
      simp only [Executor.walkPath] at h
      split at h
      · exact Except.noConfusion h
      · exact ih _ r h

/-- C8: `resolveInputs` resolves block references by exact id first, then by
normalized title; failures (unresolved reference, disabled source, missing
state, non-object on the path, undefined result, unknown environment variable)
raise with the exact messages; an ordinary destination receives the literal
string form of the value; and a substituted string starting with `\x7b` or `[`
is JSON-parsed with silent fallback. -/
theorem C8_theorem :
    (Executor.resolveInputs Fixtures.wRT [] Fixtures.rtBlockB Fixtures.rtCtx =
      .ok (.cons "param" (.str "hi") .nil)) ∧
    (∀ (w : SerializedWorkflow) (ref : String) (b : SerializedBlock),
      Executor.blockById w ref = some b → b.id = ref) ∧
    (∀ (w : SerializedWorkflow) (n : String) (b : SerializedBlock),
      Executor.blockByName w n = some b → Executor.titleKey b = n) ∧
    (∀ (w : SerializedWorkflow) (block : SerializedBlock) (ctx : Ctx)
        (key cur m blockRef : String) (pathParts : List String),
      strSplitOnChar '.' ((m.drop 1).dropRight 1) = blockRef :: pathParts →
      Executor.blockById w blockRef = none →
      Executor.blockByName w (normalizeTitle blockRef) = none →
      Executor.resolveBlockRef w block ctx key cur m =
        .error ("Block reference \"" ++ blockRef ++ "\" was not found.")) ∧
    (∀ (w : SerializedWorkflow) (block : SerializedBlock) (ctx : Ctx)
        (key cur m blockRef : String) (pathParts : List String)
        (src : SerializedBlock),
      strSplitOnChar '.' ((m.drop 1).dropRight 1) = blockRef :: pathParts →
      Executor.blockById w blockRef = some src →
      src.enabled = false →
      Executor.resolveBlockRef w block ctx key cur m =
        .error ("Block \"" ++ Executor.titleStr src ++ "\" is disabled, and block \"" ++
          Executor.titleStr block ++ "\" depends on it.")) ∧
    (∀ (w : SerializedWorkflow) (block : SerializedBlock) (ctx : Ctx)
        (key cur m blockRef : String) (pathParts : List String)
        (src : SerializedBlock),
      strSplitOnChar '.' ((m.drop 1).dropRight 1) = blockRef :: pathParts →
      Executor.blockById w blockRef = some src →
      src.enabled = true →
      getA ctx.blockStates src.id = none →
      Executor.resolveBlockRef w block ctx key cur m =
        .error ("No state found for block \"" ++ Executor.titleStr src ++ "\" (ID: " ++
          src.id ++ ").")) ∧
    (∀ (bt p part : String) (rest : List String) (v : Js),
      (v.truthy = false ∨ v.isObjType = false) →
      Executor.walkPath bt p v (part :: rest) =
        .error ("Invalid path \"" ++ part ++ "\" in \"" ++ p ++ "\" for block \"" ++
          bt ++ "\".")) ∧
    (∀ (bt p : String) (parts : List String) (v r : Js),
      Executor.walkPath bt p v parts = .ok r → r = parts.foldl Executor.jsGetProp v) ∧
    (∀ (w : SerializedWorkflow) (block : SerializedBlock) (ctx : Ctx)
        (key cur m blockRef : String) (pathParts : List String)
        (src : SerializedBlock) (stv : Js),
      strSplitOnChar '.' ((m.drop 1).dropRight 1) = blockRef :: pathParts →
      Executor.blockById w blockRef = some src →
      src.enabled = true →
      getA ctx.blockStates src.id = some stv →
      stv.truthy = true →
      Executor.walkPath (Executor.titleStr block) ((m.drop 1).dropRight 1) stv pathParts =
        .ok .undef →
      Executor.resolveBlockRef w block ctx key cur m =
        .error ("No value found at path \"" ++ (m.drop 1).dropRight 1 ++ "\" in block \"" ++
          Executor.titleStr src ++ "\".")) ∧
    (∀ (w : SerializedWorkflow) (block : SerializedBlock) (ctx : Ctx)
        (key cur m blockRef : String) (pathParts : List String)
        (src : SerializedBlock) (stv : Js) (sv : String),
      strSplitOnChar '.' ((m.drop 1).dropRight 1) = blockRef :: pathParts →
      Executor.blockById w blockRef = some src →
      src.enabled = true →
      getA ctx.blockStates src.id = some stv →
      stv.truthy = true →
      Executor.walkPath (Executor.titleStr block) ((m.drop 1).dropRight 1) stv pathParts =
        .ok (.str sv) →
      (block.metadata.type == some "function" && key == "code") = false →
      (key == "context") = false →
      Executor.resolveBlockRef w block ctx key cur m =
        .ok (strReplaceFirst cur m sv)) ∧
    (∀ (env : List (String × String)) (ms : List String) (s : String),
      (∃ s', Executor.envSubst env s ms = .ok s') ↔
      (∀ m ∈ ms, ∃ v, getA env ((m.drop 2).dropRight 2) = some v)) ∧
    (∀ (env : List (String × String)) (ms : List String) (s e : String),
      Executor.envSubst env s ms = .error e →
      ∃ m ∈ ms, getA env ((m.drop 2).dropRight 2) = none ∧
        e = "Environment variable \"" ++ (m.drop 2).dropRight 2 ++ "\" was not found.") ∧
    (∀ (s : String) (j : Js),
      (strStartsWith s "\x7b" || strStartsWith s "[") = true → jsonParse s = some j →
      Executor.finalizeParam s = j) ∧
    (∀ s : String,
      (strStartsWith s "\x7b" || strStartsWith s "[") = true → jsonParse s = none →
      Executor.finalizeParam s = .str s) ∧
    (∀ s : String,
      (strStartsWith s "\x7b" || strStartsWith s "[") = false →
      Executor.finalizeParam s = .str s) := by
  refine ⟨rfl, ?_, ?_, ?_, ?_, ?_, ?_, ?_, ?_, ?_, ?_, ?_, ?_, ?_, ?_⟩
  · intro w ref b h
    unfold Executor.blockById at h
    have := List.find?_some h
    simpa using this
  · intro w n b h
    unfold Executor.blockByName at h
    have := List.find?_some h
    simpa using this
  · intro w block ctx key cur m blockRef pathParts hsplit hid hname
    simp [Executor.resolveBlockRef, hsplit, hid, hname]
  · intro w block ctx key cur m blockRef pathParts src hsplit hid hdis
    simp [Executor.resolveBlockRef, hsplit, hid, hdis]
  · intro w block ctx key cur m blockRef pathParts src hsplit hid hen hst
    simp [Executor.resolveBlockRef, hsplit, hid, hen, hst]
  · intro bt p part rest v hd
    rcases hd with h | h
    · simp [Executor.walkPath, h]
    · simp [Executor.walkPath, h]
  · intro bt p parts v r h
    exact walkPath_ok_fold bt p parts v r h
  · intro w block ctx key cur m blockRef pathParts src stv hsplit hid hen hst htr hwalk
    simp [Executor.resolveBlockRef, hsplit, hid, hen, hst, htr, hwalk]
  · intro w block ctx key cur m blockRef pathParts src stv sv hsplit hid hen hst htr
      hwalk hfc hctx
    simp [Executor.resolveBlockRef, hsplit, hid, hen, hst, htr, hwalk, hfc, hctx,
      Js.isObjType, Js.jsToString]
  · exact envSubst_ok_iff
  · exact envSubst_err
  · intro s j hs hj
    simp [Executor.finalizeParam, hs, hj]
  · intro s hs hj
    simp [Executor.finalizeParam, hs, hj]
  · intro s hs
    simp [Executor.finalizeParam, hs]

/-- C8 witness: the literal-string substitution applied at the round-trip
instance — `<A.response.value>` resolves to exactly the string `hi`. -/
theorem C8_witness :
    Executor.resolveBlockRef Fixtures.wRT Fixtures.rtBlockB Fixtures.rtCtx "param"
      "<a.response.value>" "<a.response.value>" =
      .ok (strReplaceFirst "<a.response.value>" "<a.response.value>" "hi") := by
  exact C8_theorem.2.2.2.2.2.2.2.2.2.1 Fixtures.wRT Fixtures.rtBlockB Fixtures.rtCtx
    "param" "<a.response.value>" "<a.response.value>" "a" ["response", "value"]
    { id := "a", config := { tool := "t" } }
    (.obj (.cons "response" (.obj (.cons "value" (.str "hi") .nil)) .nil)) "hi"
    rfl rfl rfl rfl rfl rfl rfl rfl

/-! ## Helper lemmas for the conditional evaluator (C5) -/

theorem condLoop_some (w : SerializedWorkflow) (collab : Collab)
    (env : List (String × String)) (block : SerializedBlock) (ctx : Ctx)
    (outgoing : List SerializedConnection) (src : Js) :
    (conds : JsArr) → (met met' : Js) → (conn : SerializedConnection) → (c : Js) →
    Executor.condLoop w collab env block ctx outgoing src conds met =
      .ok (met', some (conn, c)) →
    (outgoing.find? (fun cn => cn.sourceHandle ==
        some ("condition-" ++ (Executor.jsGetProp c "id").jsToString)) = some conn) ∧
    ((((Executor.jsEqStr (Executor.jsGetProp c "title") "if" ||
        Executor.jsEqStr (Executor.jsGetProp c "title") "else if") &&
        met'.truthy) = true) ∨
      Executor.jsEqStr (Executor.jsGetProp c "title") "else" = true) ∧
    c ∈ conds.toList
  | .nil, met, met', conn, c, h => by
      simp only [Executor.condLoop] at h
      simp at h
  | .cons c0 rest, met, met', conn, c, h => by
      simp only [Executor.condLoop] at h
      split at h
      · exact Except.noConfusion h
      · split at h
        · exact Except.noConfusion h
        · rename_i met2 hev
          split at h
          · rename_i conn0 hfind
            split at h
            · rename_i hcond
              cases h
              exact ⟨hfind, Or.inl hcond, by simp [JsArr.toList]⟩
            · split at h
              · rename_i hcond1 hcond2
                cases h
                exact ⟨hfind, Or.inr hcond2, by simp [JsArr.toList]⟩
              · have := condLoop_some w collab env block ctx outgoing src rest
                  met2 met' conn c h
                exact ⟨this.1, this.2.1, by
                  simp only [JsArr.toList, List.mem_cons]
                  exact Or.inr this.2.2⟩
          · have := condLoop_some w collab env block ctx outgoing src rest
              met2 met' conn c h
            exact ⟨this.1, this.2.1, by
              simp only [JsArr.toList, List.mem_cons]
              exact Or.inr this.2.2⟩

theorem condLoop_none (w : SerializedWorkflow) (collab : Collab)
    (env : List (String × String)) (block : SerializedBlock) (ctx : Ctx)
    (outgoing : List SerializedConnection) (src : Js) :
    (conds : JsArr) → (met met' : Js) →
    Executor.condLoop w collab env block ctx outgoing src conds met =
      .ok (met', none) →
    ∀ c ∈ conds.toList,
      (outgoing.find? (fun cn => cn.sourceHandle ==
          some ("condition-" ++ (Executor.jsGetProp c "id").jsToString))).isSome = true →
      Executor.jsEqStr (Executor.jsGetProp c "title") "else" = false
  | .nil, met, met', h => by
      intro c hc
      simp [JsArr.toList] at hc
  | .cons c0 rest, met, met', h => by
      intro c hc hfound
      simp only [Executor.condLoop] at h
      split at h
      · exact Except.noConfusion h
      · split at h
        · exact Except.noConfusion h
        · rename_i met2 hev
          split at h
          · rename_i conn0 hfind
            split at h
            · simp at h
            · split at h
              · simp at h
              · rename_i hcond1 hcond2
                simp only [JsArr.toList, List.mem_cons] at hc
                rcases hc with hc | hc
                · subst hc
                  simpa using hcond2
                · exact condLoop_none w collab env block ctx outgoing src rest
                    met2 met' h c hc hfound
          · rename_i hfind
            simp only [JsArr.toList, List.mem_cons] at hc
            rcases hc with hc | hc
            · subst hc
              rw [hfind] at hfound
              simp at hfound
            · exact condLoop_none w collab env block ctx outgoing src rest
                met2 met' h c hc hfound

/-- C5 (amended): the conditional evaluator walks the ordered condition list,
evaluating every reached condition's value as an expression (including `else`,
whose evaluation errors fail the block); among conditions that HAVE an
outgoing `condition-<id>` connection it selects the first whose title is
`if`/`else if` with truthy value, or whose title is `else`; conditions without
such a connection are skipped rather than failing; if nothing is selected the
block fails with the no-matching-path error. In the claim's concrete instance
with upstream `{x: -1}`, branch `b` is selected. -/
theorem C5_theorem :
    (∃ r ctx', Executor.executeConditionalBlock Fixtures.wCond Fixtures.condCollab []
        Fixtures.condBlock Fixtures.condCtxNeg = .ok (r, ctx') ∧
      r.selectedConditionId = Js.str "b" ∧ r.selectedPath.blockId = "tb") ∧
    (∀ (w : SerializedWorkflow) (collab : Collab) (env : List (String × String))
        (block : SerializedBlock) (ctx : Ctx) (outgoing : List SerializedConnection)
        (src : Js) (conds : JsArr) (met met' : Js) (conn : SerializedConnection) (c : Js),
      Executor.condLoop w collab env block ctx outgoing src conds met =
        .ok (met', some (conn, c)) →
      (outgoing.find? (fun cn => cn.sourceHandle ==
          some ("condition-" ++ (Executor.jsGetProp c "id").jsToString)) = some conn) ∧
      ((((Executor.jsEqStr (Executor.jsGetProp c "title") "if" ||
          Executor.jsEqStr (Executor.jsGetProp c "title") "else if") &&
          met'.truthy) = true) ∨
        Executor.jsEqStr (Executor.jsGetProp c "title") "else" = true) ∧
      c ∈ conds.toList) ∧
    (∀ (w : SerializedWorkflow) (collab : Collab) (env : List (String × String))
        (block : SerializedBlock) (ctx : Ctx) (outgoing : List SerializedConnection)
        (src : Js) (conds : JsArr) (met met' : Js),
      Executor.condLoop w collab env block ctx outgoing src conds met =
        .ok (met', none) →
      ∀ c ∈ conds.toList,
        (outgoing.find? (fun cn => cn.sourceHandle ==
            some ("condition-" ++ (Executor.jsGetProp c "id").jsToString))).isSome = true →
        Executor.jsEqStr (Executor.jsGetProp c "title") "else" = false) ∧
    (∀ (w : SerializedWorkflow) (collab : Collab) (env : List (String × String))
        (block : SerializedBlock) (ctx : Ctx) (cs : String) (conds : JsArr)
        (sid : String) (sov met : Js),
      block.config.params.get "conditions" = .str cs →
      jsonParse cs = some (.arr conds) →
      (w.connections.find? (fun c => c.target == block.id)).map (·.source) = some sid →
      getA ctx.blockStates sid = some sov →
      sov.truthy = true →
      Executor.condLoop w collab env block ctx
        (w.connections.filter (fun c => c.source == block.id)) sov conds .undef =
        .ok (met, none) →
      Executor.executeConditionalBlock w collab env block ctx =
        .error ("No matching path found for condition block " ++ block.id)) := by
  refine ⟨⟨_, _, rfl, rfl, rfl⟩, ?_, ?_, ?_⟩
  · intro w collab env block ctx outgoing src conds met met' conn c h
    exact condLoop_some w collab env block ctx outgoing src conds met met' conn c h
  · intro w collab env block ctx outgoing src conds met met' h
    exact condLoop_none w collab env block ctx outgoing src conds met met' h
  · intro w collab env block ctx cs conds sid sov met hconds hparse hsrc hst htr hloop
    simp [Executor.executeConditionalBlock, hconds, hparse, hsrc, hst, htr, hloop]

/-- C5 counterexample: (i) when the first condition (`if`, truthy) has no
`condition-a` connection, the code silently skips it and selects the wired
`else` — no hard failure, contradicting "absence is a hard failure" for the
selected condition; (ii) an `else` whose value is an invalid expression makes
the block fail — its value IS evaluated as an expression, contradicting the
claim that `else` is selected without evaluation. -/
theorem C5_counterexample :
    (∃ r ctx', Executor.executeConditionalBlock Fixtures.wCondNoA Fixtures.condCollab []
        Fixtures.condBlock Fixtures.condCtxPos = .ok (r, ctx') ∧
      r.selectedConditionId = Js.str "b") ∧
    Executor.executeConditionalBlock Fixtures.wCondBadElse Fixtures.condCollab []
        Fixtures.condBadElseBlock Fixtures.condCtxPos =
      .error "Failed to evaluate condition: Unexpected end of input" :=
  ⟨⟨_, _, rfl, rfl⟩, rfl⟩

/-- C5 witness: the no-matching-path conclusion applied to a concrete run with
a single non-matching `if`. -/
theorem C5_witness :
    Executor.executeConditionalBlock Fixtures.wCondOnlyIf Fixtures.condCollab []
        Fixtures.condOnlyIfBlock Fixtures.condCtxNeg =
      .error "No matching path found for condition block c" := by
  exact C5_theorem.2.2.2 Fixtures.wCondOnlyIf Fixtures.condCollab []
    Fixtures.condOnlyIfBlock Fixtures.condCtxNeg ((Fixtures.condsOnlyIfJs.jsonStr).getD "")
    (match Fixtures.condsOnlyIfJs with | .arr items => items | _ => .nil)
    "s" (.obj (.cons "x" (.num (-1)) .nil)) (.bool false)
    rfl rfl rfl rfl rfl rfl

/-- C4 witness: the amended characterization evaluated at the concrete router
edge (counted, because the source is not an evaluator). -/
theorem C4_witness :
    Executor.countEdgeB Fixtures.wRouterEdge Fixtures.routerConn = true ∧
    getA (Executor.initInDegree Fixtures.wRouterEdge) "t1" = some 1 := by
  refine ⟨?_, ?_⟩
  · exact (C4_theorem Fixtures.wRouterEdge Fixtures.routerConn).1.mpr
      ⟨rfl, by
        intro sb hsb htype tb htb
        cases hsb
        simp at htype⟩
  · have := (C4_theorem Fixtures.wRouterEdge Fixtures.routerConn).2 "t1" (by simp [Fixtures.wRouterEdge])
    simpa using this

/-! ## Loop-iteration bound (C3) -/

/-- `setA` preserves a pointwise property if the inserted value has it. -/
theorem setA_all {α : Type} (Q : α → Prop) :
    ∀ (m : List (String × α)) (k : String) (v : α),
      (∀ p ∈ m, Q p.2) → Q v → ∀ p ∈ setA m k v, Q p.2 := by
  intro m
  induction m with
  | nil =>
      intro k v _ hv p hp
      simp only [setA, List.mem_singleton] at hp
      subst hp
      exact hv
  | cons q t ih =>
      intro k v hm hv p hp
      simp only [setA] at hp
      split at hp
      · cases hp with
        | head => exact hv
        | tail _ h => exact hm p (List.mem_cons_of_mem _ h)
      · cases hp with
        | head => exact hm q (List.mem_cons_self _ _)
        | tail _ h => exact ih k v (fun r hr => hm r (List.mem_cons_of_mem _ hr)) hv p h

/-- A fold preserves any invariant its step function preserves. -/
theorem foldl_all_inv {σ α : Type} (P : σ → Prop) (f : σ → α → σ)
    (hf : ∀ st x, P st → P (f st x)) :
    ∀ (l : List α) (st : σ), P st → P (l.foldl f st) := by
  intro l
  induction l with
  | nil => intro st h; exact h
  | cons a t ih => intro st h; rw [List.foldl_cons]; exact ih _ (hf st a h)

/-- A fold keeps any projection its step function keeps. -/
theorem foldl_proj_const {σ α β : Type} (proj : σ → β) (f : σ → α → σ)
    (hf : ∀ st x, proj (f st x) = proj st) :
    ∀ (l : List α) (st : σ), proj (l.foldl f st) = proj st := by
  intro l
  induction l with
  | nil => intro st; rfl
  | cons a t ih => intro st; rw [List.foldl_cons, ih, hf]

/-- Dispatching a layer never touches the loop-iteration counters. -/
theorem execLayerSeq_loopIter (w : SerializedWorkflow) (collab : Collab)
    (env : List (String × String)) :
    ∀ (bs : List String) (st st' : Executor.SchedSt),
      Executor.execLayerSeq w collab env bs st = .ok st' →
      st'.loopIterations = st.loopIterations := by
  intro bs
  induction bs with
  | nil =>
      intro st st' hrun
      simp only [Executor.execLayerSeq] at hrun
      cases hrun
      rfl
  | cons b rest ih =>
      intro st st' hrun
      cases hf : w.blocks.find? (fun bb => bb.id == b) with
      | none =>
          simp only [Executor.execLayerSeq, hf] at hrun
          exact Except.noConfusion hrun
      | some block =>
          cases hr : Executor.resolveInputs w env block st.ctx with
          | error msg =>
              simp only [Executor.execLayerSeq, hf, hr] at hrun
              exact Except.noConfusion hrun
          | ok inputs =>
              cases hx : Executor.executeBlock w collab env block inputs st.ctx with
              | error e' =>
                  simp only [Executor.execLayerSeq, hf, hr, hx] at hrun
                  exact Except.noConfusion hrun
              | ok p =>
                  obtain ⟨result, ctx'⟩ := p
                  simp only [Executor.execLayerSeq, hf, hr, hx] at hrun
                  rw [ih _ _ hrun]
                  repeat' split
                  all_goals rfl

/-- `decTarget` never touches the loop-iteration counters. -/
theorem decTarget_loopIter (t : String) (st : Executor.SchedSt) :
    (Executor.decTarget t st).loopIterations = st.loopIterations := by
  simp only [Executor.decTarget]
  split <;> rfl

/-- `processConn` never touches the loop-iteration counters. -/
theorem processConn_loopIter (w : SerializedWorkflow) (fid : String)
    (st : Executor.SchedSt) (conn : SerializedConnection) :
    (Executor.processConn w fid st conn).loopIterations = st.loopIterations := by
  simp only [Executor.processConn]
  repeat' split
  all_goals first | rfl | exact decTarget_loopIter _ _

/-- `processOutgoing` never touches the loop-iteration counters. -/
theorem processOutgoing_loopIter (w : SerializedWorkflow) (st : Executor.SchedSt)
    (L : List String) : (Executor.processOutgoing w st L).loopIterations =
      st.loopIterations := by
  unfold Executor.processOutgoing
  exact foldl_proj_const _ _
    (fun st f => foldl_proj_const _ _ (fun st c => processConn_loopIter w f st c) _ st) L st

/-- Loop reconciliation bumps a counter only when it is strictly below
`MAX_ITERATIONS`, so the bound `MAX_ITERATIONS` is preserved. -/
theorem loopReconcile_iterBound (w : SerializedWorkflow) (L : List String) :
    ∀ (st : Executor.SchedSt),
      (∀ p ∈ st.loopIterations, p.2 ≤ Executor.MAX_ITERATIONS) →
      ∀ p ∈ (Executor.loopReconcile w st L).loopIterations,
        p.2 ≤ Executor.MAX_ITERATIONS := by
  intro st h
  unfold Executor.loopReconcile
  refine foldl_all_inv
    (fun s => ∀ p ∈ s.loopIterations, p.2 ≤ Executor.MAX_ITERATIONS) _ ?_ w.loops st h
  intro s q hs
  dsimp only
  split
  · exact hs
  · split
    · split
      · split
        · split
          · exact hs
          · split
            · exact setA_all (fun v => v ≤ Executor.MAX_ITERATIONS) _ _ _ hs
                (Nat.succ_le_of_lt (by assumption))
            · exact hs
        · exact hs
      · exact hs
    · exact hs

/-- One scheduler step keeps every loop counter at or below `MAX_ITERATIONS`. -/
theorem stepLayer_iterBound (w : SerializedWorkflow) (collab : Collab)
    (env : List (String × String)) (st st' : Executor.SchedSt)
    (h : ∀ p ∈ st.loopIterations, p.2 ≤ Executor.MAX_ITERATIONS)
    (hrun : Executor.stepLayer w collab env st = .ok st') :
    ∀ p ∈ st'.loopIterations, p.2 ≤ Executor.MAX_ITERATIONS := by
  simp only [Executor.stepLayer] at hrun
  cases hseq : Executor.execLayerSeq w collab env
      (List.filter (Executor.layerFilter w { st with queue := [] })
        st.queue) { st with queue := [] } with
  | error e => rw [hseq] at hrun; exact Except.noConfusion hrun
  | ok st1 =>
      rw [hseq] at hrun
      cases hrun
      refine loopReconcile_iterBound w _ _ ?_
      rw [processOutgoing_loopIter, execLayerSeq_loopIter w collab env _ _ _ hseq]
      exact h

/-- C3: the loop-iteration counter itself never exceeds the default bound
`MAX_ITERATIONS = 2` — counters start at `0` and every scheduler step
preserves the bound — but the claim that each loop-body block is dispatched
at most twice and that the run then proceeds along the exit edge is false: in
the reference run (tool block `a` and evaluator `e` in a declared loop, the
evaluator always choosing `a`, exit edge `e → x`), the logged dispatch
sequence is `a, e, a, e, a, e, a` — the body block `a` runs four times, the
evaluator three, and the run terminates successfully without ever dispatching
the exit target `x`, because the evaluator's chosen in-loop target is pushed
to the queue directly, outside the iteration accounting. -/
theorem C3_theorem :
    (∀ (w : SerializedWorkflow) (collab : Collab) (env : List (String × String))
        (st st' : Executor.SchedSt),
        (∀ p ∈ st.loopIterations, p.2 ≤ Executor.MAX_ITERATIONS) →
        Executor.stepLayer w collab env st = .ok st' →
        ∀ p ∈ st'.loopIterations, p.2 ≤ Executor.MAX_ITERATIONS) ∧
    (∀ (w : SerializedWorkflow) (ctx : Ctx),
        ∀ p ∈ (Executor.initState w ctx).loopIterations, p.2 = 0) ∧
    (Executor.execute Fixtures.wLoop Fixtures.loopCollab [] [] 30).map
        (fun r => (r.success, r.logs.map (·.blockId)))
      = some (true, ["a", "e", "a", "e", "a", "e", "a"]) := by
  refine ⟨stepLayer_iterBound, ?_, rfl⟩
  intro w ctx p hp
  simp only [Executor.initState, List.mem_map] at hp
  obtain ⟨q, _, hq⟩ := hp
  cases hq
  rfl

/-- C3 counterexample: in the reference loop run the loop-body block `a` is
dispatched four times (a third dispatch does occur) and the exit target `x`
is never dispatched. -/
theorem C3_counterexample :
    (Executor.execute Fixtures.wLoop Fixtures.loopCollab [] [] 30).map
        (fun r => ((r.logs.map (·.blockId)).count "a", (r.logs.map (·.blockId)).count "x"))
      = some (4, 0) := rfl

/-- C3 witness: the counter-bound conjunct applied to the first scheduler step
of the reference loop workflow. -/
theorem C3_witness :
    ∃ st', Executor.stepLayer Fixtures.wLoop Fixtures.loopCollab []
        (Executor.initState Fixtures.wLoop (Executor.initialCtx [])) = .ok st' ∧
      ∀ p ∈ st'.loopIterations, p.2 ≤ Executor.MAX_ITERATIONS := by
  refine ⟨_, rfl, ?_⟩
  exact C3_theorem.1 Fixtures.wLoop Fixtures.loopCollab []
    (Executor.initState Fixtures.wLoop (Executor.initialCtx [])) _ (by decide) rfl

/-! ## Non-termination of the self-loop evaluator (C10) -/

/-- One scheduler step from the stable self-loop state dispatches the
evaluator once more, appends one log, advances the clock by two, and returns
to the same state family — the queue holds `e` again. -/
theorem stepLayer_sSelf (lgs : List BlockLog) (c : Nat) :
    Executor.stepLayer Fixtures.wSelf Fixtures.selfCollab [] (Fixtures.sSelf lgs c) =
      .ok (Fixtures.sSelf (lgs ++ [Fixtures.elogSelf c]) (c + 2)) := rfl

/-- From the stable self-loop state the scheduler loop exhausts any fuel. -/
theorem runLoop_sSelf_none :
    ∀ (n : Nat) (lgs : List BlockLog) (c : Nat),
      Executor.runLoop Fixtures.wSelf Fixtures.selfCollab [] n
        (Fixtures.sSelf lgs c) = none := by
  intro n
  induction n with
  | zero => intro lgs c; rfl
  | succ n ih =>
      intro lgs c
      have hstep : Executor.runLoop Fixtures.wSelf Fixtures.selfCollab [] (n + 1)
          (Fixtures.sSelf lgs c) =
          Executor.runLoop Fixtures.wSelf Fixtures.selfCollab [] n
            (Fixtures.sSelf (lgs ++ [Fixtures.elogSelf c]) (c + 2)) := rfl
      rw [hstep]
      exact ih _ _

/-- `execute` returns `none` (non-termination) whenever the scheduler loop
exhausts its fuel. -/
theorem execute_none_of (w : SerializedWorkflow) (collab : Collab)
    (ibs : List (String × Js)) (env : List (String × String)) (fuel : Nat)
    (h : Executor.executeInParallel w collab env fuel (Executor.initialCtx ibs) = none) :
    Executor.execute w collab ibs env fuel = none := by
  simp only [Executor.execute]
  rw [h]

/-- C10: the scheduler's layer loop is NOT always finite. For the one-block
workflow whose evaluator `e` has a self-edge `e → e` and sits inside a
declared loop, with a provider that always answers `e`, every step re-enqueues
`e` (the evaluator's chosen in-loop target is pushed to the queue directly),
so the queue never empties and `execute` never returns: it exhausts every
fuel bound. The iteration counter stops at `MAX_ITERATIONS = 2`, but it only
gates the loop-reset path, not the direct re-enqueue. -/
theorem C10_theorem :
    ∀ (fuel : Nat),
      Executor.execute Fixtures.wSelf Fixtures.selfCollab [] [] fuel = none := by
  intro fuel
  match fuel with
  | 0 => rfl
  | 1 => rfl
  | n + 2 =>
      apply execute_none_of
      have h2 : Executor.executeInParallel Fixtures.wSelf Fixtures.selfCollab [] (n + 2)
          (Executor.initialCtx []) =
          Executor.runLoop Fixtures.wSelf Fixtures.selfCollab [] n
            (Fixtures.sSelf [Fixtures.elogSelf 1, Fixtures.elogSelf 3] 5) := rfl
      rw [h2]
      exact runLoop_sSelf_none n _ _

/-! ## C2: list and association-map helper lemmas -/

theorem kahn_contains_iff (l : List String) (a : String) :
    l.contains a = true ↔ a ∈ l := by simp

theorem getA_mem {α : Type} : ∀ (m : List (String × α)) (k : String) (v : α),
    getA m k = some v → (k, v) ∈ m := by
  intro m
  induction m with
  | nil => intro k v h; exact Option.noConfusion h
  | cons p t ih =>
      intro k v h
      obtain ⟨k', v'⟩ := p
      simp only [getA] at h
      split at h
      · rename_i hk
        cases h
        subst hk
        exact List.mem_cons_self _ _
      · exact List.mem_cons_of_mem _ (ih k v h)

theorem setA_keys_of_mem {α : Type} : ∀ (m : List (String × α)) (k : String) (v : α),
    k ∈ m.map Prod.fst → (setA m k v).map Prod.fst = m.map Prod.fst := by
  intro m
  induction m with
  | nil => intro k v h; simp at h
  | cons p t ih =>
      intro k v h
      obtain ⟨k', v'⟩ := p
      simp only [setA]
      split
      · simp
      · rename_i hk
        simp only [List.map_cons, List.mem_cons] at h
        rcases h with h | h
        · exact absurd h.symm hk
        · simp only [List.map_cons, ih k v h]

theorem find?_block_of_mem (bs : List SerializedBlock) :
    ∀ (q : String), q ∈ bs.map (·.id) →
      ∃ b, bs.find? (fun bb => bb.id == q) = some b ∧ b ∈ bs ∧ b.id = q := by
  induction bs with
  | nil => intro q h; simp at h
  | cons b t ih =>
      intro q h
      by_cases hb : b.id = q
      · exact ⟨b, List.find?_cons_of_pos _ (by simp [hb]), List.mem_cons_self _ _, hb⟩
      · simp only [List.map_cons, List.mem_cons] at h
        rcases h with h | h
        · exact absurd h.symm hb
        · obtain ⟨b', hf, hm, hid⟩ := ih q h
          refine ⟨b', ?_, List.mem_cons_of_mem _ hm, hid⟩
          rw [List.find?_cons_of_neg _ (by simp [hb])]
          exact hf

theorem zeroQueue_subset : ∀ (m : List (String × Int)),
    (m.filterMap (fun p => if p.2 = 0 then some p.1 else none)) ⊆ m.map Prod.fst := by
  intro m
  induction m with
  | nil => simp
  | cons p t ih =>
      by_cases hz : p.2 = 0
      · simp only [List.filterMap_cons, if_pos hz]
        intro x hx
        rcases List.mem_cons.mp hx with h | h
        · exact h ▸ List.mem_cons_self _ _
        · exact List.mem_cons_of_mem _ (ih h)
      · simp only [List.filterMap_cons, if_neg hz]
        exact fun x hx => List.mem_cons_of_mem _ (ih hx)

theorem zeroQueue_nodup : ∀ (m : List (String × Int)),
    (m.map Prod.fst).Nodup →
    (m.filterMap (fun p => if p.2 = 0 then some p.1 else none)).Nodup := by
  intro m
  induction m with
  | nil => intro _; simp
  | cons p t ih =>
      intro h
      simp only [List.map_cons, List.nodup_cons] at h
      by_cases hz : p.2 = 0
      · simp only [List.filterMap_cons, if_pos hz]
        exact List.nodup_cons.mpr ⟨fun hx => h.1 (zeroQueue_subset t hx), ih h.2⟩
      · simp only [List.filterMap_cons, if_neg hz]
        exact ih h.2

theorem filter_length_mono {α : Type} (p q : α → Bool) :
    ∀ (l : List α), (∀ a ∈ l, p a = true → q a = true) →
      (l.filter p).length ≤ (l.filter q).length := by
  intro l
  induction l with
  | nil => intro _; simp
  | cons a t ih =>
      intro h
      have ht := ih (fun x hx => h x (List.mem_cons_of_mem _ hx))
      by_cases hp : p a = true
      · have hq := h a (List.mem_cons_self _ _) hp
        simp only [List.filter_cons, hp, hq, if_true, List.length_cons]
        omega
      · have hp' : p a = false := by simpa using hp
        simp only [List.filter_cons, hp', Bool.false_eq_true, if_false]
        by_cases hq : q a = true
        · simp only [hq, if_true, List.length_cons]
          omega
        · have hq' : q a = false := by simpa using hq
          simp only [hq', Bool.false_eq_true, if_false]
          exact ht

theorem indegFromL_nil (conns : List SerializedConnection) (id : String) :
    Kahn.indegFromL conns [] id = 0 := by
  unfold Kahn.indegFromL
  induction conns with
  | nil => rfl
  | cons c t ih => simp [List.filter_cons, ih]

theorem indegFromL_le (conns : List SerializedConnection) (C : List String)
    (id : String) : Kahn.indegFromL conns C id ≤ Kahn.indegTL conns id := by
  unfold Kahn.indegFromL Kahn.indegTL
  refine filter_length_mono _ _ conns (fun c _ h => ?_)
  rw [Bool.and_eq_true] at h
  exact h.1

theorem indegFromL_append_le (conns : List SerializedConnection) (C C2 : List String)
    (id : String) :
    Kahn.indegFromL conns C id ≤ Kahn.indegFromL conns (C ++ C2) id := by
  unfold Kahn.indegFromL
  refine filter_length_mono _ _ conns (fun c _ h => ?_)
  rw [Bool.and_eq_true] at h ⊢
  obtain ⟨h1, h2⟩ := h
  refine ⟨h1, ?_⟩
  exact (kahn_contains_iff _ _).mpr
    (List.mem_append_left _ ((kahn_contains_iff _ _).mp h2))

theorem mem_predsL (conns : List SerializedConnection) (id p : String) :
    p ∈ Kahn.predsL conns id ↔ ∃ c ∈ conns, c.target = id ∧ c.source = p := by
  unfold Kahn.predsL
  simp only [List.mem_map, List.mem_filter, beq_iff_eq]
  constructor
  · rintro ⟨c, ⟨hc, htg⟩, hsrc⟩
    exact ⟨c, hc, htg, hsrc⟩
  · rintro ⟨c, hc, htg, hsrc⟩
    exact ⟨c, ⟨hc, htg⟩, hsrc⟩

theorem indegFromL_append_single (conns : List SerializedConnection) (C : List String)
    (f : String) (hf : f ∉ C) (id : String) :
    Kahn.indegFromL conns (C ++ [f]) id =
      Kahn.indegFromL conns C id +
        ((conns.filter (fun c => c.source == f)).map (·.target)).count id := by
  induction conns with
  | nil => rfl
  | cons c t ih =>
      unfold Kahn.indegFromL at ih ⊢
      by_cases ht : c.target = id
      · by_cases hs : c.source = f
        · have hC : C.contains c.source = false := by
            rw [hs]
            simpa using hf
          have h1 : (c.target == id && (C ++ [f]).contains c.source) = true := by
            rw [Bool.and_eq_true]
            exact ⟨by simp [ht], (kahn_contains_iff _ _).mpr (by simp [hs])⟩
          have h2 : (c.target == id && C.contains c.source) = false := by
            rw [hC, Bool.and_false]
          have h3 : (c.source == f) = true := by simp [hs]
          simp only [List.filter_cons, h1, h2, h3, if_true, Bool.false_eq_true, if_false,
            List.length_cons, List.map_cons, List.count_cons]
          rw [ih]
          simp [ht]
          omega
        · have hcontEq : ((C ++ [f]).contains c.source) = (C.contains c.source) := by
            by_cases hc : c.source ∈ C
            · rw [(kahn_contains_iff _ _).mpr (List.mem_append_left _ hc),
                (kahn_contains_iff _ _).mpr hc]
            · have hl : C.contains c.source = false := by simpa using hc
              have hr : (C ++ [f]).contains c.source = false := by
                simp only [Bool.eq_false_iff]
                intro hx
                rcases List.mem_append.mp ((kahn_contains_iff _ _).mp hx) with h | h
                · exact hc h
                · exact hs (List.mem_singleton.mp h)
              rw [hl, hr]
          have h3 : (c.source == f) = false := by simp [hs]
          simp only [List.filter_cons, hcontEq, h3, Bool.false_eq_true, if_false]
          by_cases hc : C.contains c.source = true
          · have h1 : (c.target == id && C.contains c.source) = true := by
              rw [Bool.and_eq_true]
              exact ⟨by simp [ht], hc⟩
            simp only [h1, if_true, List.length_cons]
            rw [ih]
            omega
          · have hc' : C.contains c.source = false := by simpa using hc
            have h1 : (c.target == id && C.contains c.source) = false := by
              rw [hc', Bool.and_false]
            simp only [h1, Bool.false_eq_true, if_false]
            exact ih
      · have h1 : ∀ (b : Bool), (c.target == id && b) = false := by
          intro b
          simp [ht]
        by_cases hs : (c.source == f) = true
        · simp only [List.filter_cons, h1, Bool.false_eq_true, if_false, hs, if_true,
            List.map_cons, List.count_cons]
          rw [ih]
          split
          · rename_i hx
            rw [beq_iff_eq] at hx
            exact absurd hx ht
          · omega
        · have hs' : (c.source == f) = false := by simpa using hs
          simp only [List.filter_cons, h1, Bool.false_eq_true, if_false, hs']
          exact ih

theorem indegFromL_eq_of_preds (conns : List SerializedConnection) (C : List String)
    (id : String) (h : ∀ p ∈ Kahn.predsL conns id, p ∈ C) :
    Kahn.indegFromL conns C id = Kahn.indegTL conns id := by
  unfold Kahn.indegFromL Kahn.indegTL
  congr 1
  refine List.filter_congr (fun c hc => ?_)
  by_cases ht : (c.target == id) = true
  · have hp : c.source ∈ C := h c.source
      ((mem_predsL conns id c.source).mpr ⟨c, hc, by simpa using ht, rfl⟩)
    rw [ht, (kahn_contains_iff _ _).mpr hp]
    rfl
  · have ht' : (c.target == id) = false := by simpa using ht
    rw [ht']
    rfl

theorem indegFromL_lt_of_missing (conns : List SerializedConnection)
    (C : List String) (id : String) (c : SerializedConnection) (hc : c ∈ conns)
    (htg : c.target = id) (hsrc : c.source ∉ C) :
    Kahn.indegFromL conns C id < Kahn.indegTL conns id := by
  obtain ⟨l1, l2, hsplit⟩ := List.append_of_mem hc
  subst hsplit
  unfold Kahn.indegFromL Kahn.indegTL
  simp only [List.filter_append, List.length_append, List.filter_cons]
  have hcs : C.contains c.source = false := by simpa using hsrc
  have hcond2 : (c.target == id) = true := by simp [htg]
  simp only [hcond2, Bool.true_and, hcs, Bool.false_eq_true, if_false, if_true,
    List.length_cons]
  have h1 := indegFromL_le l1 C id
  have h2 := indegFromL_le l2 C id
  unfold Kahn.indegFromL Kahn.indegTL at h1 h2
  omega

theorem preds_sub_of_indegFromL_eq (conns : List SerializedConnection)
    (C : List String) (id : String)
    (h : Kahn.indegFromL conns C id = Kahn.indegTL conns id) :
    ∀ p ∈ Kahn.predsL conns id, p ∈ C := by
  intro p hp
  by_contra hpc
  obtain ⟨c, hc, htg, hsrc⟩ := (mem_predsL conns id p).mp hp
  exact absurd h
    (Nat.ne_of_lt (indegFromL_lt_of_missing conns C id c hc htg (hsrc ▸ hpc)))

/-! ## C2: the in-degree decrement fold -/

theorem decTarget_fields (t : String) (st : Executor.SchedSt) :
    (Executor.decTarget t st).ctx = st.ctx ∧
    (Executor.decTarget t st).routerDecisions = st.routerDecisions ∧
    (Executor.decTarget t st).evaluatorDecisions = st.evaluatorDecisions ∧
    (Executor.decTarget t st).activeConditionalPaths = st.activeConditionalPaths := by
  refine ⟨?_, ?_, ?_, ?_⟩ <;> (simp only [Executor.decTarget]; split <;> rfl)

/-- Folding `decTarget` over a list of targets subtracts the number of
occurrences from each stored in-degree and enqueues exactly the targets whose
degree passes through zero, each once. -/
theorem decFold_spec (ids : List String) :
    ∀ (ts : List String) (st : Executor.SchedSt) (v : String → Int),
      (∀ id ∈ ids, getA st.inDegree id = some (v id)) →
      (∀ t ∈ ts, t ∈ ids) →
      (∀ id ∈ ids, getA (ts.foldl (fun s t => Executor.decTarget t s) st).inDegree id =
          some (v id - (ts.count id : Int))) ∧
      (∃ Q, (ts.foldl (fun s t => Executor.decTarget t s) st).queue = st.queue ++ Q ∧
        Q.Nodup ∧ (∀ x ∈ Q, x ∈ ids) ∧
        (∀ x ∈ ids, x ∈ Q ↔ (0 < v x ∧ v x ≤ (ts.count x : Int)))) ∧
      (ts.foldl (fun s t => Executor.decTarget t s) st).ctx = st.ctx ∧
      (ts.foldl (fun s t => Executor.decTarget t s) st).routerDecisions =
        st.routerDecisions ∧
      (ts.foldl (fun s t => Executor.decTarget t s) st).evaluatorDecisions =
        st.evaluatorDecisions ∧
      (ts.foldl (fun s t => Executor.decTarget t s) st).activeConditionalPaths =
        st.activeConditionalPaths := by
  intro ts
  induction ts with
  | nil =>
      intro st v hdeg hsub
      refine ⟨?_, ⟨[], by simp, by simp, by simp, ?_⟩, rfl, rfl, rfl, rfl⟩
      · intro id hid
        simpa using hdeg id hid
      · intro x hx
        simp only [List.foldl_nil, List.not_mem_nil, List.count_nil, false_iff,
          Int.natCast_zero]
        omega
  | cons a ts ih =>
      intro st v hdeg hsub
      have ha : a ∈ ids := hsub a (List.mem_cons_self _ _)
      have hva : getA st.inDegree a = some (v a) := hdeg a ha
      have hideg : (Executor.decTarget a st).inDegree = setA st.inDegree a (v a - 1) := by
        simp only [Executor.decTarget, hva, Option.getD_some]
        split <;> rfl
      have hq : (Executor.decTarget a st).queue =
          st.queue ++ (if v a - 1 = 0 then [a] else []) := by
        simp only [Executor.decTarget, hva, Option.getD_some]
        split <;> rename_i hz
        · rfl
        · simp
      have hdeg1 : ∀ id ∈ ids, getA (Executor.decTarget a st).inDegree id =
          some (if id = a then v a - 1 else v id) := by
        intro id hid
        rw [hideg]
        by_cases hia : id = a
        · rw [if_pos hia, hia]
          exact getA_setA_self _ _ _
        · rw [if_neg hia, getA_setA_ne _ _ _ _ (fun h => hia h.symm)]
          exact hdeg id hid
      obtain ⟨hdegF, ⟨Q, hQeq, hQnd, hQsub, hQmem⟩, hctxF, hrdF, hedF, hacF⟩ :=
        ih (Executor.decTarget a st) (fun id => if id = a then v a - 1 else v id)
          hdeg1 (fun t ht => hsub t (List.mem_cons_of_mem _ ht))
      have hfields := decTarget_fields a st
      rw [List.foldl_cons]
      refine ⟨?_, ?_, hctxF.trans hfields.1, hrdF.trans hfields.2.1,
        hedF.trans hfields.2.2.1, hacF.trans hfields.2.2.2⟩
      · intro id hid
        rw [hdegF id hid]
        by_cases hia : id = a
        · subst hia
          simp only [if_pos rfl, List.count_cons, beq_self_eq_true, if_true]
          congr 1
          push_cast
          omega
        · have hbeq2 : (a == id) = false := by
            simp only [beq_eq_false_iff_ne, ne_eq]
            exact fun h => hia h.symm
          simp only [if_neg hia, List.count_cons, hbeq2, Bool.false_eq_true, if_false]
          congr 1
      · refine ⟨(if v a - 1 = 0 then [a] else []) ++ Q, ?_, ?_, ?_, ?_⟩
        · rw [hQeq, hq, List.append_assoc]
        · by_cases hz : v a - 1 = 0
          · rw [if_pos hz]
            refine List.nodup_cons.mpr ⟨?_, hQnd⟩
            intro haQ
            have := (hQmem a ha).mp haQ
            rw [if_pos rfl] at this
            omega
          · rw [if_neg hz]
            simpa using hQnd
        · intro x hx
          rcases List.mem_append.mp hx with h | h
          · by_cases hz : v a - 1 = 0
            · rw [if_pos hz] at h
              rw [List.mem_singleton.mp h]
              exact ha
            · rw [if_neg hz] at h
              simp at h
          · exact hQsub x h
        · intro x hx
          have hmemQ := hQmem x hx
          by_cases hia : x = a
          · subst hia
            rw [if_pos rfl] at hmemQ
            constructor
            · intro hin
              rcases List.mem_append.mp hin with h | h
              · by_cases hz : v x - 1 = 0
                · simp only [List.count_cons, beq_self_eq_true, if_true]
                  push_cast
                  omega
                · rw [if_neg hz] at h
                  simp at h
              · have := hmemQ.mp h
                simp only [List.count_cons, beq_self_eq_true, if_true]
                push_cast
                omega
            · intro hcond
              simp only [List.count_cons, beq_self_eq_true, if_true] at hcond
              push_cast at hcond
              by_cases hz : v x - 1 = 0
              · exact List.mem_append_left _ (by rw [if_pos hz]; exact List.mem_singleton.mpr rfl)
              · refine List.mem_append_right _ (hmemQ.mpr ?_)
                omega
          · have hbeq : (a == x) = false := by
              simp only [beq_eq_false_iff_ne, ne_eq]
              exact fun h => hia h.symm
            rw [if_neg hia] at hmemQ
            simp only [List.count_cons, hbeq, Bool.false_eq_true, if_false]
            constructor
            · intro hin
              rcases List.mem_append.mp hin with h | h
              · by_cases hz : v a - 1 = 0
                · rw [if_pos hz] at h
                  exact absurd (List.mem_singleton.mp h) hia
                · rw [if_neg hz] at h
                  simp at h
              · exact hmemQ.mp h
            · intro hcond
              exact List.mem_append_right _ (hmemQ.mpr hcond)

/-! ## C2: processing the outgoing connections of a finished layer -/

/-- Under the plain hypotheses every connection is processed as a bare
in-degree decrement of its target. -/
theorem processConn_plain (w : SerializedWorkflow) (f : String)
    (conn : SerializedConnection) (hc : conn ∈ w.connections)
    (htypes : ∀ b ∈ w.blocks, b.metadata.type ≠ some "router" ∧
      b.metadata.type ≠ some "evaluator" ∧ b.metadata.type ≠ some "condition")
    (hsrc : conn.source ∈ w.blocks.map (·.id))
    (hnocond : Executor.handleIsCondition conn.sourceHandle = false)
    (st : Executor.SchedSt) :
    Executor.processConn w f st conn = Executor.decTarget conn.target st := by
  obtain ⟨sb, hfind, hmem, hid⟩ := find?_block_of_mem w.blocks conn.source hsrc
  have hty := htypes sb hmem
  have h1 : (sb.metadata.type == some "evaluator") = false := by
    simpa using hty.2.1
  have h2 : (sb.metadata.type == some "router") = false := by
    simpa using hty.1
  simp only [Executor.processConn, hfind, h1, h2, hnocond, Bool.false_eq_true, if_false,
    Bool.not_false, if_true]

theorem procConnFold_eq (w : SerializedWorkflow) (f : String)
    (htypes : ∀ b ∈ w.blocks, b.metadata.type ≠ some "router" ∧
      b.metadata.type ≠ some "evaluator" ∧ b.metadata.type ≠ some "condition")
    (hends : ∀ c ∈ w.connections, c.source ∈ w.blocks.map (·.id) ∧
      c.target ∈ w.blocks.map (·.id))
    (hnocond : ∀ c ∈ w.connections, c.condition = false ∧
      Executor.handleIsCondition c.sourceHandle = false) :
    ∀ (cs : List SerializedConnection) (st : Executor.SchedSt),
      (∀ c ∈ cs, c ∈ w.connections) →
      cs.foldl (Executor.processConn w f) st =
        (cs.map (·.target)).foldl (fun s t => Executor.decTarget t s) st := by
  intro cs
  induction cs with
  | nil => intro st _; rfl
  | cons c rest ih =>
      intro st hsub
      have hcw := hsub c (List.mem_cons_self _ _)
      rw [List.map_cons, List.foldl_cons, List.foldl_cons,
        processConn_plain w f c hcw htypes (hends c hcw).1 (hnocond c hcw).2]
      exact ih _ (fun x hx => hsub x (List.mem_cons_of_mem _ hx))

/-- Processing the outgoing connections of the finished layer `L` moves every
stored in-degree from "in-edges not yet satisfied by `C`" to "not yet
satisfied by `C ++ L`" and enqueues exactly the blocks whose last missing
dependency lies in `L`, each once. -/
theorem procOut_spec (w : SerializedWorkflow)
    (htypes : ∀ b ∈ w.blocks, b.metadata.type ≠ some "router" ∧
      b.metadata.type ≠ some "evaluator" ∧ b.metadata.type ≠ some "condition")
    (hends : ∀ c ∈ w.connections, c.source ∈ w.blocks.map (·.id) ∧
      c.target ∈ w.blocks.map (·.id))
    (hnocond : ∀ c ∈ w.connections, c.condition = false ∧
      Executor.handleIsCondition c.sourceHandle = false) :
    ∀ (L C : List String) (st : Executor.SchedSt),
      L.Nodup →
      (∀ f ∈ L, f ∉ C) →
      (∀ id ∈ w.blocks.map (·.id), getA st.inDegree id =
        some ((Kahn.indegTL w.connections id : Int) -
          (Kahn.indegFromL w.connections C id : Int))) →
      (∀ id ∈ w.blocks.map (·.id),
        getA (Executor.processOutgoing w st L).inDegree id =
          some ((Kahn.indegTL w.connections id : Int) -
            (Kahn.indegFromL w.connections (C ++ L) id : Int))) ∧
      (∃ Q, (Executor.processOutgoing w st L).queue = st.queue ++ Q ∧
        Q.Nodup ∧ (∀ x ∈ Q, x ∈ w.blocks.map (·.id)) ∧
        (∀ x ∈ w.blocks.map (·.id), x ∈ Q ↔
          (Kahn.indegFromL w.connections C x < Kahn.indegTL w.connections x ∧
           Kahn.indegFromL w.connections (C ++ L) x = Kahn.indegTL w.connections x))) ∧
      (Executor.processOutgoing w st L).ctx = st.ctx ∧
      (Executor.processOutgoing w st L).routerDecisions = st.routerDecisions ∧
      (Executor.processOutgoing w st L).evaluatorDecisions = st.evaluatorDecisions ∧
      (Executor.processOutgoing w st L).activeConditionalPaths =
        st.activeConditionalPaths := by
  intro L
  induction L with
  | nil =>
      intro C st _ _ hdeg
      refine ⟨?_, ⟨[], by simp [Executor.processOutgoing], by simp, by simp, ?_⟩,
        rfl, rfl, rfl, rfl⟩
      · intro id hid
        simpa [Executor.processOutgoing] using hdeg id hid
      · intro x hx
        simp only [List.not_mem_nil, false_iff, List.append_nil, not_and]
        intro hlt heq
        omega
  | cons f L ihL =>
      intro C st hnd hfresh hdeg
      have hffresh : f ∉ C := hfresh f (List.mem_cons_self _ _)
      have hndL : L.Nodup := (List.nodup_cons.mp hnd).2
      have hfL : f ∉ L := (List.nodup_cons.mp hnd).1
      -- the step for f is a fold of decrements over f's outgoing targets
      have hsubc : ∀ c ∈ w.connections.filter (fun c => c.source == f),
          c ∈ w.connections := fun c hc => (List.mem_filter.mp hc).1
      have hstep :
          (w.connections.filter (fun c => c.source == f)).foldl
            (Executor.processConn w f) st =
          ((w.connections.filter (fun c => c.source == f)).map (·.target)).foldl
            (fun s t => Executor.decTarget t s) st :=
        procConnFold_eq w f htypes hends hnocond _ st hsubc
      have htsub : ∀ t ∈ (w.connections.filter (fun c => c.source == f)).map (·.target),
          t ∈ w.blocks.map (·.id) := by
        intro t ht
        obtain ⟨c, hcf, hct⟩ := List.mem_map.mp ht
        exact hct ▸ (hends c (hsubc c hcf)).2
      obtain ⟨hdeg2, ⟨Qf, hQfeq, hQfnd, hQfsub, hQfmem⟩, hctx2, hrd2, hed2, hac2⟩ :=
        decFold_spec (w.blocks.map (·.id))
          ((w.connections.filter (fun c => c.source == f)).map (·.target)) st
          (fun id => (Kahn.indegTL w.connections id : Int) -
            (Kahn.indegFromL w.connections C id : Int)) hdeg htsub
      have hcount : ∀ id, Kahn.indegFromL w.connections (C ++ [f]) id =
          Kahn.indegFromL w.connections C id +
            ((w.connections.filter (fun c => c.source == f)).map (·.target)).count id :=
        fun id => indegFromL_append_single w.connections C f hffresh id
      set st2 := ((w.connections.filter (fun c => c.source == f)).map (·.target)).foldl
        (fun s t => Executor.decTarget t s) st with hst2
      have hdeg2' : ∀ id ∈ w.blocks.map (·.id), getA st2.inDegree id =
          some ((Kahn.indegTL w.connections id : Int) -
            (Kahn.indegFromL w.connections (C ++ [f]) id : Int)) := by
        intro id hid
        rw [hdeg2 id hid]
        congr 1
        rw [hcount id]
        push_cast
        ring
      have hfresh2 : ∀ g ∈ L, g ∉ C ++ [f] := by
        intro g hg hgc
        rcases List.mem_append.mp hgc with h | h
        · exact hfresh g (List.mem_cons_of_mem _ hg) h
        · exact hfL (List.mem_singleton.mp h ▸ hg)
      obtain ⟨hdegF, ⟨Q, hQeq, hQnd, hQsub, hQmem⟩, hctxF, hrdF, hedF, hacF⟩ :=
        ihL (C ++ [f]) st2 hndL hfresh2 hdeg2'
      have hout : Executor.processOutgoing w st (f :: L) =
          Executor.processOutgoing w st2 L := by
        unfold Executor.processOutgoing
        rw [List.foldl_cons, hstep]
      have happ : C ++ f :: L = (C ++ [f]) ++ L := by simp
      refine ⟨?_, ⟨Qf ++ Q, ?_, ?_, ?_, ?_⟩, ?_, ?_, ?_, ?_⟩
      · intro id hid
        rw [hout, hdegF id hid, happ]
      · rw [hout, hQeq, hQfeq, List.append_assoc]
      · rw [List.nodup_append]
        refine ⟨hQfnd, hQnd, ?_⟩
        intro x hxQf hxQ
        have h1 := (hQfmem x (hQfsub x hxQf)).mp hxQf
        have h2 := (hQmem x (hQfsub x hxQf)).mp hxQ
        have h3 := hcount x
        omega
      · intro x hx
        rcases List.mem_append.mp hx with h | h
        · exact hQfsub x h
        · exact hQsub x h
      · intro x hx
        rw [happ, List.mem_append, hQfmem x hx, hQmem x hx]
        have h3 := hcount x
        have h4 := indegFromL_le w.connections (C ++ [f]) x
        have h5 := indegFromL_append_le w.connections (C ++ [f]) L x
        have h6 := indegFromL_le w.connections ((C ++ [f]) ++ L) x
        omega
      · rw [hout, hctxF, hst2, hctx2]
      · rw [hout, hrdF, hst2, hrd2]
      · rw [hout, hedF, hst2, hed2]
      · rw [hout, hacF, hst2, hac2]

/-! ## C2: dispatching one layer under the plain hypotheses -/

/-- Under the plain hypotheses the executable-blocks filter accepts every
declared block. -/
theorem layerFilter_plain (w : SerializedWorkflow) (st : Executor.SchedSt)
    (hen : ∀ b ∈ w.blocks, b.enabled = true)
    (hrd : st.routerDecisions = []) (hed : st.evaluatorDecisions = [])
    (hac : st.activeConditionalPaths = [])
    (q : String) (hq : q ∈ w.blocks.map (·.id)) :
    Executor.layerFilter w st q = true := by
  obtain ⟨b, hfind, hbmem, hbid⟩ := find?_block_of_mem w.blocks q hq
  simp [Executor.layerFilter, hfind, hen b hbmem, hrd, hed, hac]

/-- With no declared loops the reconciliation pass is the identity. -/
theorem loopReconcile_nil (w : SerializedWorkflow) (hloops : w.loops = [])
    (st : Executor.SchedSt) (L : List String) :
    Executor.loopReconcile w st L = st := by
  unfold Executor.loopReconcile
  rw [hloops]
  rfl

/-- Under the plain hypotheses a whole layer dispatches without error,
touching only the context (one success log per block, in order) and the last
output. -/
theorem execLayerSeq_total (w : SerializedWorkflow) (collab : Collab)
    (env : List (String × String))
    (htypes : ∀ b ∈ w.blocks, b.metadata.type ≠ some "router" ∧
      b.metadata.type ≠ some "evaluator" ∧ b.metadata.type ≠ some "condition")
    (hen : ∀ b ∈ w.blocks, b.enabled = true)
    (hres : ∀ b ∈ w.blocks, ∀ ctx, ∃ i, Executor.resolveInputs w env b ctx = .ok i)
    (hexec : ∀ b ∈ w.blocks, ∀ i ctx, ∃ out ctx',
      Executor.executeBlock w collab env b i ctx = .ok (out, ctx')) :
    ∀ (bs : List String) (st : Executor.SchedSt),
      (∀ q ∈ bs, q ∈ w.blocks.map (·.id)) →
      ∃ st', Executor.execLayerSeq w collab env bs st = .ok st' ∧
        st'.inDegree = st.inDegree ∧ st'.queue = st.queue ∧
        st'.routerDecisions = st.routerDecisions ∧
        st'.evaluatorDecisions = st.evaluatorDecisions ∧
        st'.activeConditionalPaths = st.activeConditionalPaths ∧
        st'.ctx.blockLogs.map (·.blockId) = st.ctx.blockLogs.map (·.blockId) ++ bs ∧
        (∀ l ∈ st'.ctx.blockLogs, l ∈ st.ctx.blockLogs ∨ l.success = true) := by
  intro bs
  induction bs with
  | nil =>
      intro st _
      exact ⟨st, rfl, rfl, rfl, rfl, rfl, rfl, by simp, fun l hl => Or.inl hl⟩
  | cons q rest ih =>
      intro st hsub
      obtain ⟨b, hfind, hbmem, hbid⟩ := find?_block_of_mem w.blocks q
        (hsub q (List.mem_cons_self _ _))
      obtain ⟨i, hresi⟩ := hres b hbmem st.ctx
      obtain ⟨out, ctx', hexeci⟩ := hexec b hbmem i st.ctx
      obtain ⟨hlogs', _⟩ := executeBlock_ok_log w collab env b i st.ctx out ctx'
        (hen b hbmem) hexeci
      have hty := htypes b hbmem
      have ht1 : (b.metadata.type == some "router") = false := by simpa using hty.1
      have ht2 : (b.metadata.type == some "evaluator") = false := by simpa using hty.2.1
      have ht3 : (b.metadata.type == some "condition") = false := by simpa using hty.2.2
      have hstep : Executor.execLayerSeq w collab env (q :: rest) st =
          Executor.execLayerSeq w collab env rest
            { st with
              ctx := { ctx' with blockStates := setA ctx'.blockStates b.id out },
              lastOutput := out } := by
        simp only [Executor.execLayerSeq, hfind, hresi, hexeci, ht1, ht2, ht3,
          Bool.false_eq_true, if_false]
      obtain ⟨st', hrun, hdeg, hq2, hrd, hed, hac, hlogs, hlogOk⟩ :=
        ih { st with
              ctx := { ctx' with blockStates := setA ctx'.blockStates b.id out },
              lastOutput := out }
          (fun x hx => hsub x (List.mem_cons_of_mem _ hx))
      refine ⟨st', hstep ▸ hrun, hdeg, hq2, hrd, hed, hac, ?_, ?_⟩
      · rw [hlogs]
        show ctx'.blockLogs.map (·.blockId) ++ rest =
          st.ctx.blockLogs.map (·.blockId) ++ q :: rest
        rw [hlogs']
        simp [hbid]
      · intro l hl
        rcases hlogOk l hl with h | h
        · have h2 : l ∈ ctx'.blockLogs := h
          rw [hlogs'] at h2
          rcases List.mem_append.mp h2 with h3 | h3
          · exact Or.inl h3
          · refine Or.inr ?_
            rw [List.mem_singleton.mp h3]
        · exact Or.inr h

/-- One scheduler step under the plain hypotheses: it succeeds, dispatches
exactly the queued blocks — appending their ids to the log — and preserves
the invariant. -/
theorem stepLayer_plain (w : SerializedWorkflow) (collab : Collab)
    (env : List (String × String))
    (hloops : w.loops = [])
    (htypes : ∀ b ∈ w.blocks, b.metadata.type ≠ some "router" ∧
      b.metadata.type ≠ some "evaluator" ∧ b.metadata.type ≠ some "condition")
    (hen : ∀ b ∈ w.blocks, b.enabled = true)
    (hends : ∀ c ∈ w.connections, c.source ∈ w.blocks.map (·.id) ∧
      c.target ∈ w.blocks.map (·.id))
    (hnocond : ∀ c ∈ w.connections, c.condition = false ∧
      Executor.handleIsCondition c.sourceHandle = false)
    (hres : ∀ b ∈ w.blocks, ∀ ctx, ∃ i, Executor.resolveInputs w env b ctx = .ok i)
    (hexec : ∀ b ∈ w.blocks, ∀ i ctx, ∃ out ctx',
      Executor.executeBlock w collab env b i ctx = .ok (out, ctx'))
    (st : Executor.SchedSt) (hInv : Kahn.Inv w st) :
    ∃ st', Executor.stepLayer w collab env st = .ok st' ∧ Kahn.Inv w st' ∧
      st'.ctx.blockLogs.map (·.blockId) =
        st.ctx.blockLogs.map (·.blockId) ++ st.queue := by
  have hfil : List.filter (Executor.layerFilter w { st with queue := [] }) st.queue =
      st.queue :=
    List.filter_eq_self.mpr (fun q hq =>
      layerFilter_plain w { st with queue := [] } hen hInv.rdNil hInv.edNil hInv.acNil
        q (hInv.qSub q hq))
  obtain ⟨st1, hrun1, hdeg1, hq1, hrd1, hed1, hac1, hlogs1, hlogOk1⟩ :=
    execLayerSeq_total w collab env htypes hen hres hexec st.queue
      { st with queue := [] } hInv.qSub
  obtain ⟨hdegF, ⟨Q, hQeq, hQnd, hQsub, hQmem⟩, hctxF, hrdF, hedF, hacF⟩ :=
    procOut_spec w htypes hends hnocond st.queue (st.ctx.blockLogs.map (·.blockId)) st1
      hInv.nodupQ hInv.qFresh
      (by
        intro id hid
        rw [hdeg1]
        exact hInv.deg id hid)
  have hstep : Executor.stepLayer w collab env st =
      .ok (Executor.processOutgoing w st1 st.queue) := by
    simp only [Executor.stepLayer, hfil, hrun1, loopReconcile_nil w hloops]
  have hlogsEq : (Executor.processOutgoing w st1 st.queue).ctx.blockLogs.map (·.blockId) =
      st.ctx.blockLogs.map (·.blockId) ++ st.queue := by
    rw [hctxF, hlogs1]
  have hqEq : (Executor.processOutgoing w st1 st.queue).queue = Q := by
    rw [hQeq, hq1]
    rfl
  -- every id already dispatched or queued has all its dependencies dispatched
  have hpredsOld : ∀ x, x ∈ st.ctx.blockLogs.map (·.blockId) ∨ x ∈ st.queue →
      ∀ p ∈ Kahn.predsL w.connections x, p ∈ st.ctx.blockLogs.map (·.blockId) := by
    intro x hx p hp
    rcases hx with hx | hx
    · obtain ⟨c, hc, htg, hsrc⟩ := (mem_predsL w.connections x p).mp hp
      obtain ⟨l1, l2, hD, hs⟩ := hInv.ordered c hc (htg ▸ hx)
      rw [hD]
      exact hsrc ▸ List.mem_append_left _ hs
    · exact hInv.qReady x hx p hp
  have hfreshQ : ∀ x ∈ Q, x ∉ st.ctx.blockLogs.map (·.blockId) ++ st.queue := by
    intro x hxQ hxD
    have hm := (hQmem x (hQsub x hxQ)).mp hxQ
    have hall : ∀ p ∈ Kahn.predsL w.connections x,
        p ∈ st.ctx.blockLogs.map (·.blockId) :=
      hpredsOld x (List.mem_append.mp hxD)
    have := indegFromL_eq_of_preds w.connections _ x hall
    omega
  refine ⟨Executor.processOutgoing w st1 st.queue, hstep, ?_, hlogsEq⟩
  refine ⟨?_, ?_, ?_, ?_, ?_, ?_, ?_, ?_, ?_, ?_, ?_, ?_, ?_⟩
  · -- nodupD
    rw [hlogsEq, List.nodup_append]
    exact ⟨hInv.nodupD, hInv.nodupQ, fun a ha haq => hInv.qFresh a haq ha⟩
  · -- dSub
    rw [hlogsEq]
    intro d hd
    rcases List.mem_append.mp hd with h | h
    · exact hInv.dSub d h
    · exact hInv.qSub d h
  · -- nodupQ
    rw [hqEq]
    exact hQnd
  · -- qSub
    rw [hqEq]
    exact hQsub
  · -- qFresh
    rw [hqEq, hlogsEq]
    exact hfreshQ
  · rw [hrdF, hrd1]
    exact hInv.rdNil
  · rw [hedF, hed1]
    exact hInv.edNil
  · rw [hacF, hac1]
    exact hInv.acNil
  · -- deg
    rw [hlogsEq]
    exact hdegF
  · -- qReady
    rw [hqEq, hlogsEq]
    intro q hq p hp
    have hm := (hQmem q (hQsub q hq)).mp hq
    exact preds_sub_of_indegFromL_eq w.connections _ q hm.2 p hp
  · -- complete
    rw [hqEq, hlogsEq]
    intro id hid hnot hpreds
    have heq := indegFromL_eq_of_preds w.connections _ id hpreds
    refine (hQmem id hid).mpr ⟨?_, heq⟩
    have hle := indegFromL_le w.connections (st.ctx.blockLogs.map (·.blockId)) id
    rcases Nat.lt_or_ge (Kahn.indegFromL w.connections
        (st.ctx.blockLogs.map (·.blockId)) id) (Kahn.indegTL w.connections id) with
      hlt | hge
    · exact hlt
    · exfalso
      have heq0 : Kahn.indegFromL w.connections (st.ctx.blockLogs.map (·.blockId)) id =
          Kahn.indegTL w.connections id := le_antisymm hle hge
      have hq0 := hInv.complete id hid
        (fun hmem => hnot (List.mem_append_left _ hmem))
        (preds_sub_of_indegFromL_eq w.connections _ id heq0)
      exact hnot (List.mem_append_right _ hq0)
  · -- ordered
    rw [hlogsEq]
    intro c hc htg
    rcases List.mem_append.mp htg with h | h
    · obtain ⟨l1, l2, hD, hs⟩ := hInv.ordered c hc h
      refine ⟨l1, l2 ++ st.queue, ?_, hs⟩
      rw [hD]
      simp
    · obtain ⟨q1, q2, hsplit⟩ := List.append_of_mem h
      refine ⟨st.ctx.blockLogs.map (·.blockId) ++ q1, q2, ?_, ?_⟩
      · rw [hsplit]
        simp
      · have hsrcD : c.source ∈ st.ctx.blockLogs.map (·.blockId) :=
          hInv.qReady c.target h c.source
            ((mem_predsL w.connections c.target c.source).mpr ⟨c, hc, rfl, rfl⟩)
        exact List.mem_append_left _ hsrcD
  · -- logOk
    rw [hctxF]
    intro l hl
    rcases hlogOk1 l hl with h | h
    · exact hInv.logOk l h
    · exact h

/-- The scheduler loop under the plain hypotheses: with enough fuel it
returns successfully; the final log is duplicate-free, contains only declared
ids, is closed under readiness, respects the connection order, and every
entry is a success. -/
theorem runLoop_plain (w : SerializedWorkflow) (collab : Collab)
    (env : List (String × String))
    (hloops : w.loops = [])
    (htypes : ∀ b ∈ w.blocks, b.metadata.type ≠ some "router" ∧
      b.metadata.type ≠ some "evaluator" ∧ b.metadata.type ≠ some "condition")
    (hen : ∀ b ∈ w.blocks, b.enabled = true)
    (hends : ∀ c ∈ w.connections, c.source ∈ w.blocks.map (·.id) ∧
      c.target ∈ w.blocks.map (·.id))
    (hnocond : ∀ c ∈ w.connections, c.condition = false ∧
      Executor.handleIsCondition c.sourceHandle = false)
    (hres : ∀ b ∈ w.blocks, ∀ ctx, ∃ i, Executor.resolveInputs w env b ctx = .ok i)
    (hexec : ∀ b ∈ w.blocks, ∀ i ctx, ∃ out ctx',
      Executor.executeBlock w collab env b i ctx = .ok (out, ctx')) :
    ∀ (fuel : Nat) (st : Executor.SchedSt), Kahn.Inv w st →
      (w.blocks.map (·.id)).length <
        fuel + (st.ctx.blockLogs.map (·.blockId)).length →
      ∃ out ctx, Executor.runLoop w collab env fuel st = some (.ok (out, ctx)) ∧
        (ctx.blockLogs.map (·.blockId)).Nodup ∧
        (∀ d ∈ ctx.blockLogs.map (·.blockId), d ∈ w.blocks.map (·.id)) ∧
        (∀ id ∈ w.blocks.map (·.id),
          (∀ p ∈ Kahn.predsL w.connections id, p ∈ ctx.blockLogs.map (·.blockId)) →
          id ∈ ctx.blockLogs.map (·.blockId)) ∧
        (∀ c ∈ w.connections, c.target ∈ ctx.blockLogs.map (·.blockId) →
          ∃ l1 l2, ctx.blockLogs.map (·.blockId) = l1 ++ c.target :: l2 ∧
            c.source ∈ l1) ∧
        (∀ l ∈ ctx.blockLogs, l.success = true) := by
  intro fuel
  induction fuel with
  | zero =>
      intro st hInv hfuel
      exfalso
      have hle := (List.subperm_of_subset hInv.nodupD hInv.dSub).length_le
      omega
  | succ n ih =>
      intro st hInv hfuel
      by_cases hempty : st.queue.isEmpty = true
      · have hqnil : st.queue = [] := List.isEmpty_iff.mp hempty
        refine ⟨st.lastOutput, st.ctx, ?_, hInv.nodupD, hInv.dSub, ?_, hInv.ordered,
          hInv.logOk⟩
        · simp only [Executor.runLoop, hempty, if_true]
        · intro id hid hpreds
          by_cases hD : id ∈ st.ctx.blockLogs.map (·.blockId)
          · exact hD
          · exact absurd (hInv.complete id hid hD hpreds) (by rw [hqnil]; simp)
      · obtain ⟨st', hstep, hInv', hlogs'⟩ :=
          stepLayer_plain w collab env hloops htypes hen hends hnocond hres hexec st hInv
        have hqpos : 0 < st.queue.length := by
          cases hq : st.queue with
          | nil => rw [hq] at hempty; exact absurd rfl hempty
          | cons a t => simp [hq]
        have hrun : Executor.runLoop w collab env (n + 1) st =
            Executor.runLoop w collab env n st' := by
          have hempty' : st.queue.isEmpty = false := by
            simpa using hempty
          simp only [Executor.runLoop, hempty', Bool.false_eq_true, if_false, hstep]
        rw [hrun]
        refine ih st' hInv' ?_
        rw [hlogs']
        simp only [List.length_append]
        omega

/-! ## C2: the initial scheduler state -/

/-- Under the plain hypotheses every connection is counted. -/
theorem countEdgeB_plain (w : SerializedWorkflow) (c : SerializedConnection)
    (hc : c ∈ w.connections)
    (htypes : ∀ b ∈ w.blocks, b.metadata.type ≠ some "router" ∧
      b.metadata.type ≠ some "evaluator" ∧ b.metadata.type ≠ some "condition")
    (hends : ∀ c ∈ w.connections, c.source ∈ w.blocks.map (·.id) ∧
      c.target ∈ w.blocks.map (·.id))
    (hnocond : ∀ c ∈ w.connections, c.condition = false ∧
      Executor.handleIsCondition c.sourceHandle = false) :
    Executor.countEdgeB w c = true := by
  obtain ⟨sb, hfind, hmem, hid⟩ := find?_block_of_mem w.blocks c.source (hends c hc).1
  have h1 : (sb.metadata.type == some "evaluator") = false := by
    simpa using (htypes sb hmem).2.1
  simp only [Executor.countEdgeB, (hnocond c hc).1, Bool.false_eq_true, if_false,
    hfind, h1]

theorem getA_of_mem_nodup {α : Type} :
    ∀ (m : List (String × α)) (k : String) (v : α),
      (m.map Prod.fst).Nodup → (k, v) ∈ m → getA m k = some v := by
  intro m
  induction m with
  | nil => intro k v _ h; simp at h
  | cons p t ih =>
      intro k v hnd hmem
      obtain ⟨k', v'⟩ := p
      simp only [List.map_cons, List.nodup_cons] at hnd
      rcases List.mem_cons.mp hmem with h | h
      · cases h
        simp [getA]
      · have hk : k' ≠ k := by
          intro hkk
          exact hnd.1 (hkk ▸ List.mem_map.mpr ⟨(k, v), h, rfl⟩)
        simp only [getA, if_neg hk]
        exact ih k v hnd.2 h

theorem initInDegree_keys_aux (w : SerializedWorkflow) :
    ∀ (conns : List SerializedConnection) (m : List (String × Int)),
      (∀ c ∈ conns, c.target ∈ m.map Prod.fst) →
      ((conns.foldl (fun m conn =>
          if Executor.countEdgeB w conn then
            setA m conn.target (((getA m conn.target).getD 0) + 1)
          else m) m).map Prod.fst) = m.map Prod.fst := by
  intro conns
  induction conns with
  | nil => intro m _; rfl
  | cons c rest ih =>
      intro m hsub
      rw [List.foldl_cons]
      by_cases hc : Executor.countEdgeB w c = true
      · simp only [hc, if_true]
        have hkeys := setA_keys_of_mem m c.target (((getA m c.target).getD 0) + 1)
          (hsub c (List.mem_cons_self _ _))
        rw [ih _ (fun x hx => by
          rw [hkeys]
          exact hsub x (List.mem_cons_of_mem _ hx)), hkeys]
      · have hc' : Executor.countEdgeB w c = false := by simpa using hc
        simp only [hc', Bool.false_eq_true, if_false]
        exact ih _ (fun x hx => hsub x (List.mem_cons_of_mem _ hx))

theorem initInDegree_keys (w : SerializedWorkflow)
    (hends : ∀ c ∈ w.connections, c.source ∈ w.blocks.map (·.id) ∧
      c.target ∈ w.blocks.map (·.id)) :
    (Executor.initInDegree w).map Prod.fst = w.blocks.map (·.id) := by
  unfold Executor.initInDegree
  have hbase : (w.blocks.map (fun b => (b.id, (0 : Int)))).map Prod.fst =
      w.blocks.map (·.id) := by
    simp [List.map_map]
  rw [initInDegree_keys_aux w w.connections _ (fun c hc => by
    rw [hbase]
    exact (hends c hc).2), hbase]

theorem predsL_eq_nil_of_total_zero (conns : List SerializedConnection) (id : String)
    (h : Kahn.indegTL conns id = 0) : Kahn.predsL conns id = [] := by
  unfold Kahn.indegTL at h
  unfold Kahn.predsL
  rw [List.length_eq_zero.mp h]
  rfl

/-- The initial state of a plain workflow satisfies the scheduler invariant. -/
theorem initState_plain (w : SerializedWorkflow)
    (htypes : ∀ b ∈ w.blocks, b.metadata.type ≠ some "router" ∧
      b.metadata.type ≠ some "evaluator" ∧ b.metadata.type ≠ some "condition")
    (hnodup : (w.blocks.map (·.id)).Nodup)
    (hends : ∀ c ∈ w.connections, c.source ∈ w.blocks.map (·.id) ∧
      c.target ∈ w.blocks.map (·.id))
    (hnocond : ∀ c ∈ w.connections, c.condition = false ∧
      Executor.handleIsCondition c.sourceHandle = false)
    (ctx0 : Ctx) (hctx0 : ctx0.blockLogs = []) :
    Kahn.Inv w (Executor.initState w ctx0) := by
  have hkeys := initInDegree_keys w hends
  have hknd : ((Executor.initInDegree w).map Prod.fst).Nodup := by
    rw [hkeys]
    exact hnodup
  have hdeg0 : ∀ id ∈ w.blocks.map (·.id),
      getA (Executor.initInDegree w) id =
        some ((Kahn.indegTL w.connections id : Int)) := by
    intro id hid
    unfold Executor.initInDegree
    have hbase := getA_map_zero w.blocks id hid
    have := initInDegree_fold w w.connections
      (w.blocks.map (fun b => (b.id, (0 : Int)))) id 0 hbase
    rw [this]
    have hfil : (w.connections.filter
        (fun c => c.target == id && Executor.countEdgeB w c)) =
        (w.connections.filter (fun c => c.target == id)) := by
      refine List.filter_congr (fun c hc => ?_)
      rw [countEdgeB_plain w c hc htypes hends hnocond, Bool.and_true]
    rw [hfil]
    unfold Kahn.indegTL
    congr 1
    simp only [zero_add]
    rfl
  have hqmem : ∀ q, q ∈ (Executor.initState w ctx0).queue ↔
      ∃ p ∈ Executor.initInDegree w, p.2 = 0 ∧ p.1 = q := by
    intro q
    simp only [Executor.initState, List.mem_filterMap]
    constructor
    · rintro ⟨p, hp, hcond⟩
      by_cases hz : p.2 = 0
      · rw [if_pos hz] at hcond
        exact ⟨p, hp, hz, Option.some_inj.mp hcond⟩
      · rw [if_neg hz] at hcond
        exact Option.noConfusion hcond
    · rintro ⟨p, hp, hz, hq⟩
      exact ⟨p, hp, by rw [if_pos hz, hq]⟩
  refine ⟨?_, ?_, ?_, ?_, ?_, rfl, rfl, rfl, ?_, ?_, ?_, ?_, ?_⟩
  · simp [Executor.initState, hctx0]
  · simp [Executor.initState, hctx0]
  · exact zeroQueue_nodup _ hknd
  · intro q hq
    have := zeroQueue_subset (Executor.initInDegree w) hq
    rw [hkeys] at this
    exact this
  · intro q _
    simp [Executor.initState, hctx0]
  · -- deg
    intro id hid
    show getA (Executor.initInDegree w) id = _
    rw [hdeg0 id hid]
    simp only [Executor.initState]
    rw [hctx0]
    simp only [List.map_nil, indegFromL_nil]
    congr 1
  · -- qReady
    intro q hq p hp
    obtain ⟨pr, hpr, hz, hq1⟩ := (hqmem q).mp hq
    have hqids : q ∈ w.blocks.map (·.id) := by
      have := zeroQueue_subset (Executor.initInDegree w) hq
      rw [hkeys] at this
      exact this
    have hga : getA (Executor.initInDegree w) q = some pr.2 := by
      have : (q, pr.2) ∈ Executor.initInDegree w := by
        rw [← hq1]
        exact hpr
      exact getA_of_mem_nodup _ q pr.2 hknd this
    rw [hdeg0 q hqids] at hga
    have hT0 : Kahn.indegTL w.connections q = 0 := by
      have := Option.some_inj.mp hga
      omega
    rw [predsL_eq_nil_of_total_zero w.connections q hT0] at hp
    simp at hp
  · -- complete
    intro id hid _ hpreds
    simp only [Executor.initState, hctx0, List.map_nil] at hpreds
    have hpnil : Kahn.predsL w.connections id = [] := by
      cases hp : Kahn.predsL w.connections id with
      | nil => rfl
      | cons a t =>
          exfalso
          have := hpreds a (by rw [hp]; exact List.mem_cons_self _ _)
          simp at this
    have hT0 : Kahn.indegTL w.connections id = 0 := by
      unfold Kahn.predsL at hpnil
      unfold Kahn.indegTL
      rw [List.map_eq_nil.mp hpnil]
      rfl
    have hga : getA (Executor.initInDegree w) id = some 0 := by
      rw [hdeg0 id hid, hT0]
      rfl
    have hmem : (id, (0 : Int)) ∈ Executor.initInDegree w := getA_mem _ id 0 hga
    exact (hqmem id).mpr ⟨(id, 0), hmem, rfl, rfl⟩
  · -- ordered
    intro c _ htg
    simp [Executor.initState, hctx0] at htg
  · -- logOk
    intro l hl
    simp [Executor.initState, hctx0] at hl

/-- C2 (amended): the original claim fails for workflows containing disabled
blocks — a disabled source silently starves its (enabled) successors and the
run still succeeds (see the counterexample). For a plain workflow — no
declared loops, no router / evaluator / condition blocks, every block
enabled, duplicate-free ids, declared connection endpoints, no condition
markers, an acyclicity rank for the connections, and fault-free input
resolution and dispatch — `execute` with fuel `blocks.length + 1` succeeds,
dispatches every block exactly once (the log ids are duplicate-free and are
exactly the declared ids), never dispatches a block before a source of a
connection into it (every connection's source appears strictly earlier in
the log than its target), and every log entry is a success. -/
theorem C2_theorem (w : SerializedWorkflow) (collab : Collab)
    (ibs : List (String × Js)) (env : List (String × String))
    (rank : String → Nat)
    (hloops : w.loops = [])
    (htypes : ∀ b ∈ w.blocks, b.metadata.type ≠ some "router" ∧
      b.metadata.type ≠ some "evaluator" ∧ b.metadata.type ≠ some "condition")
    (hen : ∀ b ∈ w.blocks, b.enabled = true)
    (hnodup : (w.blocks.map (·.id)).Nodup)
    (hends : ∀ c ∈ w.connections, c.source ∈ w.blocks.map (·.id) ∧
      c.target ∈ w.blocks.map (·.id))
    (hnocond : ∀ c ∈ w.connections, c.condition = false ∧
      Executor.handleIsCondition c.sourceHandle = false)
    (hrank : ∀ c ∈ w.connections, rank c.source < rank c.target)
    (hres : ∀ b ∈ w.blocks, ∀ ctx, ∃ i, Executor.resolveInputs w env b ctx = .ok i)
    (hexec : ∀ b ∈ w.blocks, ∀ i ctx, ∃ out ctx',
      Executor.executeBlock w collab env b i ctx = .ok (out, ctx')) :
    ∃ r, Executor.execute w collab ibs env (w.blocks.length + 1) = some r ∧
      r.success = true ∧
      (r.logs.map (·.blockId)).Nodup ∧
      (∀ id, id ∈ r.logs.map (·.blockId) ↔ id ∈ w.blocks.map (·.id)) ∧
      (∀ c ∈ w.connections, ∃ l1 l2,
        r.logs.map (·.blockId) = l1 ++ c.target :: l2 ∧ c.source ∈ l1) ∧
      (∀ l ∈ r.logs, l.success = true) := by
  have hctx0 : (Executor.initialCtx ibs).blockLogs = [] := rfl
  have hInv0 := initState_plain w htypes hnodup hends hnocond
    (Executor.initialCtx ibs) hctx0
  have hinitctx : (Executor.initState w (Executor.initialCtx ibs)).ctx =
      Executor.initialCtx ibs := rfl
  have hfuel : (w.blocks.map (·.id)).length <
      (w.blocks.length + 1) +
        ((Executor.initState w (Executor.initialCtx ibs)).ctx.blockLogs.map
          (·.blockId)).length := by
    rw [hinitctx, hctx0]
    simp only [List.length_map, List.map_nil, List.length_nil]
    omega
  obtain ⟨out, ctx, hrun, hnodupD, hdsub, hclosed, hord, hlogok⟩ :=
    runLoop_plain w collab env hloops htypes hen hends hnocond hres hexec
      (w.blocks.length + 1) (Executor.initState w (Executor.initialCtx ibs))
      hInv0 hfuel
  have hall : ∀ n, ∀ id ∈ w.blocks.map (·.id), rank id < n →
      id ∈ ctx.blockLogs.map (·.blockId) := by
    intro n
    induction n with
    | zero => intro id _ h; omega
    | succ n ihn =>
        intro id hid hr
        refine hclosed id hid ?_
        intro p hp
        obtain ⟨c, hc, htg, hsrc⟩ := (mem_predsL w.connections id p).mp hp
        have hpids : p ∈ w.blocks.map (·.id) := hsrc ▸ (hends c hc).1
        have hrk := hrank c hc
        rw [hsrc, htg] at hrk
        exact ihn p hpids (by omega)
  have hexecEq : Executor.execute w collab ibs env (w.blocks.length + 1) =
      some { success := true, output := out, error := none,
             metadata := some { duration := ctx.clock - 0, startTime := 0,
                                endTime := ctx.clock },
             logs := ctx.blockLogs } := by
    simp only [Executor.execute, Executor.executeInParallel, hrun]
  refine ⟨_, hexecEq, rfl, hnodupD, ?_, ?_, hlogok⟩
  · intro id
    exact ⟨hdsub id, fun hid => hall (rank id + 1) id hid (Nat.lt_succ_self _)⟩
  · intro c hc
    exact hord c hc
      (hall (rank c.target + 1) c.target ((hends c hc).2) (Nat.lt_succ_self _))

/-- C2 counterexample: in the two-block workflow whose disabled block `a`
feeds the enabled block `b`, the run succeeds with an empty log — the enabled
block `b` is never dispatched, refuting "dispatches every enabled block
exactly once". -/
theorem C2_counterexample :
    (Executor.execute Fixtures.wDis Fixtures.okCollab [] [] 3).map
        (fun r => (r.success, r.logs.map (·.blockId))) = some (true, []) ∧
    ∃ b ∈ Fixtures.wDis.blocks, b.enabled = true ∧ b.id = "b" :=
  ⟨rfl, ⟨_, List.mem_cons_of_mem _ (List.mem_cons_self _ _), rfl, rfl⟩⟩

/-- C2 witness: the amended theorem applied to the plain enabled chain
`a → b` with the obvious rank. -/
theorem C2_witness :
    ∃ r, Executor.execute Fixtures.wChain Fixtures.okCollab [] []
        (Fixtures.wChain.blocks.length + 1) = some r ∧
      r.success = true ∧
      (r.logs.map (·.blockId)).Nodup ∧
      (∀ id, id ∈ r.logs.map (·.blockId) ↔ id ∈ Fixtures.wChain.blocks.map (·.id)) ∧
      (∀ c ∈ Fixtures.wChain.connections, ∃ l1 l2,
        r.logs.map (·.blockId) = l1 ++ c.target :: l2 ∧ c.source ∈ l1) ∧
      (∀ l ∈ r.logs, l.success = true) := by
  refine C2_theorem Fixtures.wChain Fixtures.okCollab [] []
    (fun id => if id = "b" then 1 else 0) rfl ?_ ?_ ?_ ?_ ?_ ?_ ?_ ?_
  · decide
  · decide
  · decide
  · decide
  · decide
  · decide
  · intro b hb ctx
    rcases List.mem_cons.mp hb with rfl | hb2
    · exact ⟨_, rfl⟩
    rcases List.mem_cons.mp hb2 with rfl | hb3
    · exact ⟨_, rfl⟩
    · simp at hb3
  · intro b hb i ctx
    rcases List.mem_cons.mp hb with rfl | hb2
    · exact ⟨_, _, rfl⟩
    rcases List.mem_cons.mp hb2 with rfl | hb3
    · exact ⟨_, _, rfl⟩
    · simp at hb3

end SimExec
